import Mathlib

/-!
# Correlation_Module/correlation3D.cpp: a verification development

Shallow embedding of the volumetric correlation (cost volume) source file and
theorems about it.

Modelling conventions, all read off the source:

* C++ `int` / `int64_t` values are mathematical integers (`Int`).  Signed
  overflow is undefined in C++, so the source gives it no meaning; the results
  are about executions without overflow.  C++ `/` on integers truncates toward
  zero: `Int.tdiv`.  Division by zero has no result.
* `scalar_t` is an arbitrary commutative ring `R` (exact arithmetic); the
  concrete evaluations use `Int`.
* The array library is used through three operations: allocation of a
  zero-filled array of a given shape (`at::zeros`, `torch::zeros_like`), report
  of a size (`size(k)`), and read / write of the element at a multi-index
  through an accessor (`acc[a][b]...`).  The embedding has three layers.
  - The loop nests.  A tensor (`Tensor`) is a list of sizes together with a
    store keyed by the multi-index the source writes.
    `correlation_cpp_forward_3D` and `correlation_cpp_backward` are the loop
    nests of the two passes over such tensors, without the checks of the
    library: they say what the loops do once they are entered.  The keyed store
    is exact as long as every index is inside its extent.
  - The calls.  `forward_3D_allocation`, `correlation_cpp_forward_3D_checked`
    and `correlation_cpp_backward_checked` add the checks that the library
    makes on the way: `size(k)` raises when the array has no axis `k`,
    `at::zeros` raises on a negative extent, and `accessor<scalar_t, N>()`
    raises when the rank of the array is not `N`.  The source has no check of
    its own.  The dispatch on the element type is not modelled.
  - The memory.  An accessor does no bounds check: `acc[a][b]...` is the
    element at the offset `a * stride0 + b * stride1 + ...` of the storage.
    `FlatTensor` is an array as it lies in its contiguous row-major storage and
    `correlation_cpp_backward_flat` is the backward pass on such arrays, where
    an index outside its extent lands on another element of the storage.
* A `for (x = 0; x < n; ++x)` loop is a left fold over `0, 1, ..., n-1`
  threading the mutated state; the OpenMP pragmas are ignored (sequential
  semantics).
* The source file is unfinished.  The kernel `correlate_patch_3D` declares
  `kD` without a type and both kernels spell the depth dilation `dialationD`
  in the signature while a body uses `dilationD`; `correlation_cpp_forward_3D`
  declares `int kW` twice where the body uses `kD`; closing braces are missing
  at the end of `correlate_patch_grad_3D` and of `correlation_cpp_forward_3D`.
  The embedding uses the names of the bodies and the nesting of the
  indentation.  The two orchestrators call `correlate_patch` and
  `correlate_patch_grad`, which the file does not define; they are arguments of
  the embedded orchestrators, and a two-dimensional version of each kernel,
  written from the specification, is provided for the concrete evaluations.
-/

set_option linter.unusedVariables false

namespace Correlation

/-- Tensor of the array library: the sizes reported by `size(k)` and the
element stored at each multi-index. -/
structure Tensor (R : Type) where
  sizes : List Int
  val : List Int → R

namespace Tensor

variable {R : Type}

/-- The call `t.size(k)`. -/
def size (t : Tensor R) (k : Nat) : Int :=
  t.sizes.getD k 0

/-- The calls `at::zeros(sizes, ...)` and `torch::zeros_like`: a zero-filled array. -/
def zeros [Zero R] (sizes : List Int) : Tensor R :=
  { sizes := sizes, val := fun _ => 0 }

/-- The accessor expression `acc[n]`: the sub-array at leading index `n`. -/
def sub (t : Tensor R) (n : Int) : Tensor R :=
  { sizes := t.sizes.tail, val := fun idx => t.val (n :: idx) }

/-- Write of one element: `acc[i0][i1]... = x`. -/
def set (t : Tensor R) (idx : List Int) (x : R) : Tensor R :=
  { sizes := t.sizes, val := fun j => if j = idx then x else t.val j }

/-- Write-back of a sub-array mutated through the accessor `acc[n]`. -/
def setSub (t : Tensor R) (n : Int) (s : Tensor R) : Tensor R :=
  { sizes := t.sizes,
    val := fun idx =>
      match idx with
      | [] => t.val []
      | m :: rest => if m = n then s.val rest else t.val (m :: rest) }

end Tensor

/-- The loop `for (int x = 0; x < bound; ++x) body`, threading the state. -/
def forLoop {σ : Type} (bound : Int) (init : σ) (body : Int → σ → σ) : σ :=
  (List.range bound.toNat).foldl (fun s (x : Nat) => body (x : Int) s) init

/-- The define `WITHIN_BOUNDS(x, y, H, W)` of line 6:
`(x >= 0 && x < H && y >= 0 && y < W)`. -/
def WITHIN_BOUNDS (x y H W : Int) : Bool :=
  decide (x ≥ 0) && decide (x < H) && decide (y ≥ 0) && decide (y < W)

/-- The forward kernel `correlate_patch_3D` (lines 8-44).  `dst` is the value of
the cell `*dst` on entry, the result is its value on exit. -/
def correlate_patch_3D {R : Type} [Add R] [Mul R]
    (input1 input2 : Tensor R) (dst : R)
    (kH kW kD : Int)
    (dilationH dilationW dilationD : Int)
    (u v w : Int)
    (shiftU shiftV shiftW : Int) : R :=
  let C := input1.size 0
  let iH := input1.size 1
  let iW := input1.size 2
  let iD := input1.size 3
  forLoop C dst fun c dst =>
    forLoop kH dst fun i dst =>
      let i1 := u + i * dilationH
      let i2 := i1 + shiftU
      if WITHIN_BOUNDS i1 i2 iH iH then
        forLoop kW dst fun j dst =>
          let j1 := v + j * dilationW
          let j2 := j1 + shiftV
          if WITHIN_BOUNDS j1 j2 iW iW then
            forLoop kD dst fun k dst =>
              let k1 := w + k * dilationD
              let k2 := k1 + shiftW
              if WITHIN_BOUNDS k1 k2 iD iD then
                let v1 := input1.val [c, i1, j1, k1]
                let v2 := input2.val [c, i2, j2, k2]
                dst + v1 * v2
              else dst
          else dst
      else dst

/-- Position `(x, y, z)` lies inside the spatial extent of the volume `t`
(axes 1, 2, 3 of a `[C, H, W, D]` accessor). -/
def inVolume {R : Type} (t : Tensor R) (x y z : Int) : Prop :=
  (0 ≤ x ∧ x < t.size 1) ∧ (0 ≤ y ∧ y < t.size 2) ∧ (0 ≤ z ∧ z < t.size 3)

instance {R : Type} (t : Tensor R) (x y z : Int) : Decidable (inVolume t x y z) := by
  unfold inVolume
  exact inferInstance

/-- Reference sum of the forward kernel, written from the words of the
specification: over every channel and kernel offset, the product
`input1[c,p1] * input2[c,p2]` where `p1 = base + offset * dilation` and
`p2 = p1 + shift` are both inside their volume, and nothing otherwise. -/
def windowDotProduct {R : Type} [CommRing R]
    (input1 input2 : Tensor R)
    (kH kW kD : Int)
    (dilationH dilationW dilationD : Int)
    (u v w : Int)
    (shiftU shiftV shiftW : Int) : R :=
  ∑ c ∈ Finset.range (input1.size 0).toNat,
    ∑ i ∈ Finset.range kH.toNat,
      ∑ j ∈ Finset.range kW.toNat,
        ∑ k ∈ Finset.range kD.toNat,
          if inVolume input1 (u + i * dilationH) (v + j * dilationW) (w + k * dilationD) ∧
              inVolume input2 (u + i * dilationH + shiftU) (v + j * dilationW + shiftV)
                (w + k * dilationD + shiftW)
          then input1.val [(c : Int), u + i * dilationH, v + j * dilationW, w + k * dilationD] *
            input2.val [(c : Int), u + i * dilationH + shiftU, v + j * dilationW + shiftV,
              w + k * dilationD + shiftW]
          else 0

/-- On one axis, the base coordinate `p1` and the shifted coordinate `p2` both
lie inside `[0, extent)`. -/
def axisInside (p1 p2 extent : Int) : Prop :=
  (0 ≤ p1 ∧ p1 < extent) ∧ (0 ≤ p2 ∧ p2 < extent)

/-- Extension of a volume by zero outside its spatial extent: the stored
element inside `[0,H) x [0,W) x [0,D)`, exactly `0` elsewhere. -/
def zeroExtend {R : Type} [Zero R] (t : Tensor R) (c x y z : Int) : R :=
  if inVolume t x y z then t.val [c, x, y, z] else 0

/-- Unguarded sum of the specification's zero-padding property: every channel
and every kernel offset contributes the product of the two zero-extended
volumes, with no bounds test. -/
def zeroPaddedDotProduct {R : Type} [CommRing R]
    (input1 input2 : Tensor R)
    (kH kW kD : Int)
    (dilationH dilationW dilationD : Int)
    (u v w : Int)
    (shiftU shiftV shiftW : Int) : R :=
  ∑ c ∈ Finset.range (input1.size 0).toNat,
    ∑ i ∈ Finset.range kH.toNat,
      ∑ j ∈ Finset.range kW.toNat,
        ∑ k ∈ Finset.range kD.toNat,
          zeroExtend input1 (c : Int) (u + i * dilationH) (v + j * dilationW)
              (w + k * dilationD) *
            zeroExtend input2 (c : Int) (u + i * dilationH + shiftU)
              (v + j * dilationW + shiftV) (w + k * dilationD + shiftW)

/-- The backward kernel `correlate_patch_grad_3D` (lines 46-84).  The two
gradient accessors are mutated in place in the source; here they are threaded
as a pair `(gradInput1, gradInput2)` and returned. -/
def correlate_patch_grad_3D {R : Type} [Add R] [Mul R]
    (input1 gradInput1 input2 gradInput2 : Tensor R)
    (gradOutput : R)
    (kH kW kD : Int)
    (dilationH dilationW dilationD : Int)
    (u v w : Int)
    (shiftU shiftV shiftW : Int) : Tensor R × Tensor R :=
  let C := input1.size 0
  let iH := input1.size 1
  let iW := input1.size 2
  let iD := input1.size 3
  forLoop C (gradInput1, gradInput2) fun c grads =>
    forLoop kH grads fun i grads =>
      let i1 := u + i * dilationH
      let i2 := i1 + shiftU
      if WITHIN_BOUNDS i1 i2 iH iH then
        forLoop kW grads fun j grads =>
          let j1 := v + j * dilationW
          let j2 := j1 + shiftV
          if WITHIN_BOUNDS j1 j2 iW iW then
            forLoop kD grads fun k grads =>
              let k1 := w + k * dilationD
              let k2 := k1 + shiftW
              if WITHIN_BOUNDS k1 k2 iD iD then
                let v1 := input1.val [c, i1, j1, k1]
                let v2 := input2.val [c, i2, j2, k2]
                let gradInput2 := grads.2.set [c, i2, j2, k2]
                  (grads.2.val [c, i2, j2, k2] + gradOutput * v1)
                let gradInput1 := grads.1.set [c, i1, j1, k1]
                  (grads.1.val [c, i1, j1, k1] + gradOutput * v2)
                (gradInput1, gradInput2)
              else grads
          else grads
      else grads

/-- Type of the forward kernel `correlate_patch` that
`correlation_cpp_forward_3D` calls: two accessors, the entry value of the
destination cell, `kH kW dilationH dilationW u v shiftU shiftV`; the exit value
of the cell. -/
abbrev ForwardKernel (R : Type) : Type :=
  Tensor R → Tensor R → R → Int → Int → Int → Int → Int → Int → Int → Int → R

/-- Type of the backward kernel `correlate_patch_grad` that
`correlation_cpp_backward` calls: `input1, gradInput1, input2, gradInput2`, the
upstream scalar, `kH kW dilationH dilationW u v shiftU shiftV`; the two
gradient accessors after the call. -/
abbrev BackwardKernel (R : Type) : Type :=
  Tensor R → Tensor R → Tensor R → Tensor R → R →
    Int → Int → Int → Int → Int → Int → Int → Int → Tensor R × Tensor R

/-- The forward pass `correlation_cpp_forward_3D` (lines 86-140).  The kernel it
calls, `correlate_patch`, is defined nowhere in the source and is an argument.
The result is `none` when a stride is zero (integer division by zero at lines
107-109).  The loop nest is the source's: `n, ph, pw, pd, h, w`, no loop over
the output depth, and the destination cell is `output_acc[n][ph][pw][h][w]`.
The checks of the array library are left out here: this is what the loop nest
does once it is entered; `correlation_cpp_forward_3D_checked` is the call with
the checks. -/
def correlation_cpp_forward_3D {R : Type} [Zero R]
    (correlate_patch : ForwardKernel R)
    (input1 input2 : Tensor R)
    (kH kW kD : Int)
    (patchH patchW patchD : Int)
    (padH padW padD : Int)
    (dilationH dilationW dilationD : Int)
    (dilation_patchH dilation_patchW dilation_patchD : Int)
    (dH dW dD : Int) : Option (Tensor R) :=
  let batch_size := input1.size 0
  let iH := input1.size 2
  let iW := input1.size 3
  let iD := input1.size 4
  let patchRadH := Int.tdiv (patchH - 1) 2
  let patchRadW := Int.tdiv (patchW - 1) 2
  let patchRadD := Int.tdiv (patchD - 1) 2
  let dilatedKH := (kH - 1) * dilationH + 1
  let dilatedKW := (kW - 1) * dilationW + 1
  let dilatedKD := (kD - 1) * dilationD + 1
  if dH = 0 ∨ dW = 0 ∨ dD = 0 then none
  else
    let oH := Int.tdiv (iH + 2 * padH - dilatedKH) dH + 1
    let oW := Int.tdiv (iW + 2 * padW - dilatedKW) dW + 1
    let oD := Int.tdiv (iD + 2 * padD - dilatedKD) dD + 1
    let output : Tensor R := Tensor.zeros [batch_size, patchH, patchW, patchD, oH, oW, oD]
    some <|
      forLoop batch_size output fun n output =>
        forLoop patchH output fun ph output =>
          forLoop patchW output fun pw output =>
            forLoop patchD output fun pd output =>
              forLoop oH output fun h output =>
                forLoop oW output fun w output =>
                  output.set [n, ph, pw, h, w]
                    (correlate_patch (input1.sub n) (input2.sub n)
                      (output.val [n, ph, pw, h, w])
                      kH kW
                      dilationH dilationW
                      (-padH + h * dH)
                      (-padW + w * dW)
                      ((ph - patchRadH) * dilation_patchH)
                      ((pw - patchRadW) * dilation_patchW))

/-- The backward pass `correlation_cpp_backward` (lines 142-194).  The kernel it
calls, `correlate_patch_grad`, is defined nowhere in the source and is an
argument.  The loop bounds `oH`, `oW` are read from axes 3 and 4 of
`gradOutput`; the upstream scalar is `gradOutput_acc[n][ph][pw][h][w]`.
The checks of the array library are left out here, and the accessors
`acc[n]` are sub-arrays of the keyed store: this is what the loop nest does
once it is entered, exact as long as every index is inside its extent.
`correlation_cpp_backward_checked` is the call with the checks and
`correlation_cpp_backward_flat` the loop nest on the storage in memory. -/
def correlation_cpp_backward {R : Type} [Zero R]
    (correlate_patch_grad : BackwardKernel R)
    (input1 input2 gradOutput : Tensor R)
    (kH kW : Int)
    (patchH patchW : Int)
    (padH padW : Int)
    (dilationH dilationW : Int)
    (dilation_patchH dilation_patchW : Int)
    (dH dW : Int) : Tensor R × Tensor R :=
  let batch_size := input1.size 0
  let patchRadH := Int.tdiv (patchH - 1) 2
  let patchRadW := Int.tdiv (patchW - 1) 2
  let oH := gradOutput.size 3
  let oW := gradOutput.size 4
  let gradInput1 : Tensor R := Tensor.zeros input1.sizes
  let gradInput2 : Tensor R := Tensor.zeros input2.sizes
  forLoop batch_size (gradInput1, gradInput2) fun n grads =>
    forLoop patchH grads fun ph grads =>
      forLoop patchW grads fun pw grads =>
        forLoop oH grads fun h grads =>
          forLoop oW grads fun w grads =>
            let r := correlate_patch_grad (input1.sub n) (grads.1.sub n)
              (input2.sub n) (grads.2.sub n)
              (gradOutput.val [n, ph, pw, h, w])
              kH kW
              dilationH dilationW
              (-padH + h * dH)
              (-padW + w * dW)
              ((ph - patchRadH) * dilation_patchH)
              ((pw - patchRadW) * dilation_patchW)
            (grads.1.setSub n r.1, grads.2.setSub n r.2)

/-- Modelled from the spec: the two-dimensional forward kernel `correlate_patch`,
which the forward pass calls and no source file defines.  It is the
WindowDotProduct of section 4.1 without the depth axis (section 3: the 2D
variant drops D): channel, then the two kernel axes; a term is added when both
positions are in bounds. -/
def correlate_patch {R : Type} [Add R] [Mul R] : ForwardKernel R :=
  fun input1 input2 dst kH kW dilationH dilationW u v shiftU shiftV =>
    let C := input1.size 0
    let iH := input1.size 1
    let iW := input1.size 2
    forLoop C dst fun c dst =>
      forLoop kH dst fun i dst =>
        let i1 := u + i * dilationH
        let i2 := i1 + shiftU
        if WITHIN_BOUNDS i1 i2 iH iH then
          forLoop kW dst fun j dst =>
            let j1 := v + j * dilationW
            let j2 := j1 + shiftV
            if WITHIN_BOUNDS j1 j2 iW iW then
              dst + input1.val [c, i1, j1] * input2.val [c, i2, j2]
            else dst
        else dst

/-- Modelled from the spec: the two-dimensional backward kernel
`correlate_patch_grad`, which the backward pass calls and no source file
defines.  It is the WindowGradScatter of section 4.2 without the depth axis:
for every valid pair `(p1, p2)` it adds `g * input2[c,p2]` into
`gradInput1[c,p1]` and `g * input1[c,p1]` into `gradInput2[c,p2]`. -/
def correlate_patch_grad {R : Type} [Add R] [Mul R] : BackwardKernel R :=
  fun input1 gradInput1 input2 gradInput2 gradOutput kH kW dilationH dilationW u v
      shiftU shiftV =>
    let C := input1.size 0
    let iH := input1.size 1
    let iW := input1.size 2
    forLoop C (gradInput1, gradInput2) fun c grads =>
      forLoop kH grads fun i grads =>
        let i1 := u + i * dilationH
        let i2 := i1 + shiftU
        if WITHIN_BOUNDS i1 i2 iH iH then
          forLoop kW grads fun j grads =>
            let j1 := v + j * dilationW
            let j2 := j1 + shiftV
            if WITHIN_BOUNDS j1 j2 iW iW then
              let v1 := input1.val [c, i1, j1]
              let v2 := input2.val [c, i2, j2]
              let gradInput2 := grads.2.set [c, i2, j2]
                (grads.2.val [c, i2, j2] + gradOutput * v1)
              let gradInput1 := grads.1.set [c, i1, j1]
                (grads.1.val [c, i1, j1] + gradOutput * v2)
              (gradInput1, gradInput2)
            else grads
        else grads

/-- One invocation of the backward kernel: the upstream scalar and the geometry
arguments handed to `correlate_patch_grad_3D` for one (patch index, output
location) pair. -/
structure ScatterCall (R : Type) where
  gradOutput : R
  kH : Int
  kW : Int
  kD : Int
  dilationH : Int
  dilationW : Int
  dilationD : Int
  u : Int
  v : Int
  w : Int
  shiftU : Int
  shiftV : Int
  shiftW : Int

/-- The effect of one invocation on the two gradient buffers. -/
def scatterCall {R : Type} [Add R] [Mul R] (input1 input2 : Tensor R)
    (grads : Tensor R × Tensor R) (call : ScatterCall R) : Tensor R × Tensor R :=
  correlate_patch_grad_3D input1 grads.1 input2 grads.2 call.gradOutput
    call.kH call.kW call.kD call.dilationH call.dilationW call.dilationD
    call.u call.v call.w call.shiftU call.shiftV call.shiftW

/-- The backward kernel run over a sequence of invocations, one after the other,
on the same two gradient buffers. -/
def scatterAll {R : Type} [Add R] [Mul R] (input1 input2 : Tensor R)
    (calls : List (ScatterCall R)) (grads : Tensor R × Tensor R) : Tensor R × Tensor R :=
  calls.foldl (scatterCall input1 input2) grads

/-- Volume of the given sizes holding `1` at every multi-index. -/
def onesTensor (sizes : List Int) : Tensor Int :=
  { sizes := sizes, val := fun _ => 1 }

/-- Volume of the given sizes whose element at a multi-index is its channel
index (the second index) plus one: channel `0` holds `1`, channel `1` holds `2`. -/
def channelTensor (sizes : List Int) : Tensor Int :=
  { sizes := sizes, val := fun idx => idx.getD 1 0 + 1 }

/-- Sample volume with pairwise distinct small entries. -/
def volA : Tensor Int :=
  { sizes := [2, 2, 2, 2], val := fun idx => idx.foldl (fun a x => 2 * a + x + 1) 0 }

/-- Second sample volume of the same shape as `volA`. -/
def volB : Tensor Int :=
  { sizes := [2, 2, 2, 2], val := fun idx => idx.foldl (fun a x => 3 * a - x + 2) 1 }

/-- Mathematical floor of the rational quotient `a / b`. -/
def mathFloorDiv (a b : Int) : Int :=
  ⌊(a : ℚ) / (b : ℚ)⌋

/-- Output dimension as the source computes it (lines 103-109): the quotient is
the C++ one, truncated toward zero. -/
def truncOutDim (inDim pad kernel dilation stride : Int) : Int :=
  Int.tdiv (inDim + 2 * pad - ((kernel - 1) * dilation + 1)) stride + 1

/-- Output dimension as the specification writes it:
`floor((inDim + 2*pad - ((kernel-1)*dilation+1)) / stride) + 1`. -/
def floorOutDim (inDim pad kernel dilation stride : Int) : Int :=
  mathFloorDiv (inDim + 2 * pad - ((kernel - 1) * dilation + 1)) stride + 1

/-- Valid geometry on one axis, in the words of the specification: positive
kernel size, kernel dilation, stride and patch size, and an output dimension,
computed by the formula of the specification, of at least one. -/
def validAxis (inDim pad kernel dilation stride patch : Int) : Prop :=
  0 < kernel ∧ 0 < dilation ∧ 0 < stride ∧ 0 < patch ∧
    1 ≤ floorOutDim inDim pad kernel dilation stride

instance (inDim pad kernel dilation stride patch : Int) :
    Decidable (validAxis inDim pad kernel dilation stride patch) := by
  unfold validAxis
  exact inferInstance

/-- Volume of the given sizes holding `1` at the multi-index `e` and `0`
elsewhere: a unit perturbation of one element. -/
def unitTensor {R : Type} [Zero R] [One R] (sizes : List Int) (e : List Int) : Tensor R :=
  { sizes := sizes, val := fun idx => if idx = e then 1 else 0 }

/-- The contents of the two gradient buffers, as element-wise functions. -/
def gradValues {R : Type} (grads : Tensor R × Tensor R) : (List Int → R) × (List Int → R) :=
  (grads.1.val, grads.2.val)

/-- Contribution of one invocation of the backward kernel, written from the
words of the specification: for every channel and kernel offset whose `p1` and
`p2` are both in bounds, `g * input2[c,p2]` at element `[c,p1]` of the first
gradient and `g * input1[c,p1]` at element `[c,p2]` of the second. -/
def scatterContribution {R : Type} [CommRing R] (input1 input2 : Tensor R)
    (call : ScatterCall R) : (List Int → R) × (List Int → R) :=
  ∑ c ∈ Finset.range (input1.size 0).toNat,
    ∑ i ∈ Finset.range call.kH.toNat,
      ∑ j ∈ Finset.range call.kW.toNat,
        ∑ k ∈ Finset.range call.kD.toNat,
          if (WITHIN_BOUNDS (call.u + i * call.dilationH)
                (call.u + i * call.dilationH + call.shiftU)
                (input1.size 1) (input1.size 1) = true ∧
              WITHIN_BOUNDS (call.v + j * call.dilationW)
                (call.v + j * call.dilationW + call.shiftV)
                (input1.size 2) (input1.size 2) = true) ∧
              WITHIN_BOUNDS (call.w + k * call.dilationD)
                (call.w + k * call.dilationD + call.shiftW)
                (input1.size 3) (input1.size 3) = true
          then
            (Pi.single [(c : Int), call.u + i * call.dilationH, call.v + j * call.dilationW,
                call.w + k * call.dilationD]
              (call.gradOutput *
                input2.val [(c : Int), call.u + i * call.dilationH + call.shiftU,
                  call.v + j * call.dilationW + call.shiftV,
                  call.w + k * call.dilationD + call.shiftW]),
             Pi.single [(c : Int), call.u + i * call.dilationH + call.shiftU,
                call.v + j * call.dilationW + call.shiftV,
                call.w + k * call.dilationD + call.shiftW]
              (call.gradOutput *
                input1.val [(c : Int), call.u + i * call.dilationH, call.v + j * call.dilationW,
                  call.w + k * call.dilationD]))
          else 0

/-- Three sample invocations of the backward kernel with overlapping windows. -/
def sampleCalls : List (ScatterCall Int) :=
  [ { gradOutput := 2, kH := 2, kW := 2, kD := 2, dilationH := 1, dilationW := 1,
      dilationD := 1, u := 0, v := 0, w := 0, shiftU := 0, shiftV := 0, shiftW := 0 },
    { gradOutput := -3, kH := 2, kW := 1, kD := 2, dilationH := 1, dilationW := 1,
      dilationD := 1, u := 0, v := 1, w := -1, shiftU := 1, shiftV := -1, shiftW := 0 },
    { gradOutput := 5, kH := 1, kW := 2, kD := 1, dilationH := 1, dilationW := 1,
      dilationD := 1, u := 1, v := 0, w := 1, shiftU := -1, shiftV := 0, shiftW := -1 } ]

/-- Patch radius as both passes compute it (lines 100-102 and 154-155):
`(patchSize - 1) / 2` with the C++ quotient. -/
def patchRadius (patchSize : Int) : Int :=
  Int.tdiv (patchSize - 1) 2

/-- Displacement shift handed to the kernel for patch index `p` (lines 131-132
and 184-185): `(p - patchRad) * dilation_patch`. -/
def patchShift (patchSize patchDilation p : Int) : Int :=
  (p - patchRadius patchSize) * patchDilation

/-- Input-1 coordinate of kernel offset `i` in the window of output index `h`:
the base `-pad + h * stride` of lines 129-130 entered as `u` in
`u + i * dilation` of line 23. -/
def windowCoord (pad stride dilation h i : Int) : Int :=
  (-pad + h * stride) + i * dilation

/-- Reference sum for an element of the first gradient, written from the words
of the specification: over the kernel offsets whose `p1` is the position
`(x, y, z)` and whose `p1` and `p2` are both inside their volume, the element
`input2[c,p2]`. -/
def gradInput1Sum {R : Type} [CommRing R] (input1 input2 : Tensor R)
    (kH kW kD : Int)
    (dilationH dilationW dilationD : Int)
    (u v w : Int)
    (shiftU shiftV shiftW : Int) (c x y z : Int) : R :=
  ∑ i ∈ Finset.range kH.toNat,
    ∑ j ∈ Finset.range kW.toNat,
      ∑ k ∈ Finset.range kD.toNat,
        if (u + i * dilationH = x ∧ v + j * dilationW = y ∧ w + k * dilationD = z) ∧
            inVolume input1 (u + i * dilationH) (v + j * dilationW) (w + k * dilationD) ∧
            inVolume input2 (u + i * dilationH + shiftU) (v + j * dilationW + shiftV)
              (w + k * dilationD + shiftW)
        then input2.val [c, u + i * dilationH + shiftU, v + j * dilationW + shiftV,
          w + k * dilationD + shiftW]
        else 0

/-- Reference sum for an element of the second gradient, written from the words
of the specification: over the kernel offsets whose `p2` is the position
`(x, y, z)` and whose `p1` and `p2` are both inside their volume, the element
`input1[c,p1]`. -/
def gradInput2Sum {R : Type} [CommRing R] (input1 input2 : Tensor R)
    (kH kW kD : Int)
    (dilationH dilationW dilationD : Int)
    (u v w : Int)
    (shiftU shiftV shiftW : Int) (c x y z : Int) : R :=
  ∑ i ∈ Finset.range kH.toNat,
    ∑ j ∈ Finset.range kW.toNat,
      ∑ k ∈ Finset.range kD.toNat,
        if (u + i * dilationH + shiftU = x ∧ v + j * dilationW + shiftV = y ∧
              w + k * dilationD + shiftW = z) ∧
            inVolume input1 (u + i * dilationH) (v + j * dilationW) (w + k * dilationD) ∧
            inVolume input2 (u + i * dilationH + shiftU) (v + j * dilationW + shiftV)
              (w + k * dilationD + shiftW)
        then input1.val [c, u + i * dilationH, v + j * dilationW, w + k * dilationD]
        else 0

/-- A valid pair of the kernel at channel `c` and offsets `(i, j, k)`: the
channel and the offsets are in range and `p1`, `p2` are inside their volumes. -/
def validPair {R : Type} (input1 input2 : Tensor R)
    (kH kW kD : Int)
    (dilationH dilationW dilationD : Int)
    (u v w : Int)
    (shiftU shiftV shiftW : Int) (c i j k : Nat) : Prop :=
  ((c : Int) < input1.size 0 ∧ (i : Int) < kH ∧ (j : Int) < kW ∧ (k : Int) < kD) ∧
    inVolume input1 (u + i * dilationH) (v + j * dilationW) (w + k * dilationD) ∧
    inVolume input2 (u + i * dilationH + shiftU) (v + j * dilationW + shiftV)
      (w + k * dilationD + shiftW)

/-- Kernel that only counts its invocations: the exit value of the destination
cell is the entry value plus one.  Handed to the forward pass in place of
`correlate_patch`, it leaves in every cell the number of loop iterations whose
destination the cell was. -/
def countingKernel : ForwardKernel Int :=
  fun _ _ dst _ _ _ _ _ _ _ _ => dst + 1

/-- One index per axis, each in `[0, extent)`. -/
def indexInRange : List Int → List Int → Bool
  | [], [] => true
  | i :: idx, s :: sizes => decide (0 ≤ i) && decide (i < s) && indexInRange idx sizes
  | _, _ => false

/-- The multi-index `idx` names an element inside the volume `t`. -/
def inRange {R : Type} (t : Tensor R) (idx : List Int) : Bool :=
  indexInRange idx t.sizes

/-- The pairs of multi-indices `(p1, p2)` at which the two kernels touch their
volumes, in loop order: the loop nest and the bounds tests of lines 17-33 (the
same as lines 58-74), with the indices recorded where the source has its
element accesses.  `correlate_patch_3D` reads `input1[p1]` and `input2[p2]`
(lines 34-35); `correlate_patch_grad_3D` reads the same two elements and reads
and writes `gradInput2[p2]` and `gradInput1[p1]` (lines 75-78). -/
def kernelAccesses {R : Type} (input1 : Tensor R)
    (kH kW kD : Int)
    (dilationH dilationW dilationD : Int)
    (u v w : Int)
    (shiftU shiftV shiftW : Int) : List (List Int × List Int) :=
  let C := input1.size 0
  let iH := input1.size 1
  let iW := input1.size 2
  let iD := input1.size 3
  forLoop C [] fun c acc =>
    forLoop kH acc fun i acc =>
      let i1 := u + i * dilationH
      let i2 := i1 + shiftU
      if WITHIN_BOUNDS i1 i2 iH iH then
        forLoop kW acc fun j acc =>
          let j1 := v + j * dilationW
          let j2 := j1 + shiftV
          if WITHIN_BOUNDS j1 j2 iW iW then
            forLoop kD acc fun k acc =>
              let k1 := w + k * dilationD
              let k2 := k1 + shiftW
              if WITHIN_BOUNDS k1 k2 iD iD then
                acc ++ [([c, i1, j1, k1], [c, i2, j2, k2])]
              else acc
          else acc
      else acc

/-- The read of `correlate_patch_3D` at one access (lines 34-36). -/
def readStep {R : Type} [Add R] [Mul R] (input1 input2 : Tensor R) (dst : R)
    (p : List Int × List Int) : R :=
  dst + input1.val p.1 * input2.val p.2

/-- The reads and writes of `correlate_patch_grad_3D` at one access (lines
75-78). -/
def scatterStep {R : Type} [Add R] [Mul R] (input1 input2 : Tensor R) (gradOutput : R)
    (grads : Tensor R × Tensor R) (p : List Int × List Int) : Tensor R × Tensor R :=
  (grads.1.set p.1 (grads.1.val p.1 + gradOutput * input2.val p.2),
   grads.2.set p.2 (grads.2.val p.2 + gradOutput * input1.val p.1))

/-- The iteration of the backward pass for one batch index `n`: the body of the
loop over `n` (lines 166-190), a function of the two gradient buffers, over the
keyed store (`backward_iteration_flat` is the same body on the storage in
memory). -/
def backward_iteration {R : Type}
    (correlate_patch_grad : BackwardKernel R)
    (input1 input2 gradOutput : Tensor R)
    (kH kW : Int)
    (patchH patchW : Int)
    (padH padW : Int)
    (dilationH dilationW : Int)
    (dilation_patchH dilation_patchW : Int)
    (dH dW : Int) (n : Int) (grads : Tensor R × Tensor R) : Tensor R × Tensor R :=
  let patchRadH := Int.tdiv (patchH - 1) 2
  let patchRadW := Int.tdiv (patchW - 1) 2
  let oH := gradOutput.size 3
  let oW := gradOutput.size 4
  forLoop patchH grads fun ph grads =>
    forLoop patchW grads fun pw grads =>
      forLoop oH grads fun h grads =>
        forLoop oW grads fun w grads =>
          let r := correlate_patch_grad (input1.sub n) (grads.1.sub n)
            (input2.sub n) (grads.2.sub n)
            (gradOutput.val [n, ph, pw, h, w])
            kH kW
            dilationH dilationW
            (-padH + h * dH)
            (-padW + w * dW)
            ((ph - patchRadH) * dilation_patchH)
            ((pw - patchRadW) * dilation_patchW)
          (grads.1.setSub n r.1, grads.2.setSub n r.2)

/-- Lines 96-110 of the forward pass, with the checks of the array library on
the way: the sizes read from `input1`, the output dimensions and the allocation
of the cost volume.  `size(4)` raises on an array of fewer than five axes, the
integer division has no result for a zero stride, and `at::zeros` raises on a
negative extent; in each of these cases no volume is allocated. -/
def forward_3D_allocation {R : Type} [Zero R]
    (input1 : Tensor R)
    (kH kW kD : Int)
    (patchH patchW patchD : Int)
    (padH padW padD : Int)
    (dilationH dilationW dilationD : Int)
    (dH dW dD : Int) : Option (Tensor R) :=
  if input1.sizes.length < 5 then none
  else
    let batch_size := input1.size 0
    let iH := input1.size 2
    let iW := input1.size 3
    let iD := input1.size 4
    let dilatedKH := (kH - 1) * dilationH + 1
    let dilatedKW := (kW - 1) * dilationW + 1
    let dilatedKD := (kD - 1) * dilationD + 1
    if dH = 0 ∨ dW = 0 ∨ dD = 0 then none
    else
      let oH := Int.tdiv (iH + 2 * padH - dilatedKH) dH + 1
      let oW := Int.tdiv (iW + 2 * padW - dilatedKW) dW + 1
      let oD := Int.tdiv (iD + 2 * padD - dilatedKD) dD + 1
      if batch_size < 0 ∨ patchH < 0 ∨ patchW < 0 ∨ patchD < 0 ∨ oH < 0 ∨ oW < 0 ∨ oD < 0 then
        none
      else some (Tensor.zeros [batch_size, patchH, patchW, patchD, oH, oW, oD])

/-- The call of the forward pass `correlation_cpp_forward_3D` (lines 86-140) as
the array library executes it.  The cost volume is allocated
(`forward_3D_allocation`).  The body of the loop over `pd` starts by taking the
accessors of lines 119-121, `input1.accessor<scalar_t,4>()`,
`input2.accessor<scalar_t,4>()` and `output.accessor<scalar_t,5>()`, and an
accessor of rank `N` raises on an array whose rank is not `N`: when the four
outer loops have an iteration the call goes on into the loop nest only if the
three ranks are `4`, `4` and `5`, and has no result otherwise.  When one of the
outer loops is empty no accessor is taken and the allocated volume is returned. -/
def correlation_cpp_forward_3D_checked {R : Type} [Zero R]
    (correlate_patch : ForwardKernel R)
    (input1 input2 : Tensor R)
    (kH kW kD : Int)
    (patchH patchW patchD : Int)
    (padH padW padD : Int)
    (dilationH dilationW dilationD : Int)
    (dilation_patchH dilation_patchW dilation_patchD : Int)
    (dH dW dD : Int) : Option (Tensor R) :=
  match forward_3D_allocation input1 kH kW kD patchH patchW patchD padH padW padD
      dilationH dilationW dilationD dH dW dD with
  | none => none
  | some output =>
    let batch_size := input1.size 0
    if 0 < batch_size ∧ 0 < patchH ∧ 0 < patchW ∧ 0 < patchD then
      if input1.sizes.length = 4 ∧ input2.sizes.length = 4 ∧ output.sizes.length = 5 then
        correlation_cpp_forward_3D correlate_patch input1 input2 kH kW kD patchH patchW patchD
          padH padW padD dilationH dilationW dilationD
          dilation_patchH dilation_patchW dilation_patchD dH dW dD
      else none
    else some output

/-- The call of the backward pass `correlation_cpp_backward` (lines 142-194) as
the array library executes it.  `input1.size(0)` raises on an array without
axes and `gradOutput.size(4)` on one of fewer than five axes.  The body of the
loop over `n` starts by taking the accessors of lines 167-171, of rank `4` on
`input1`, `gradInput1`, `input2`, `gradInput2` and of rank `5` on `gradOutput`,
and an accessor of rank `N` raises on an array whose rank is not `N`: when the
batch is not empty the call goes on into the loop nest only if the ranks are
`4`, `4` and `5`, and has no result otherwise.  The loop nest is the one over
the keyed store, exact as long as every index is inside its extent. -/
def correlation_cpp_backward_checked {R : Type} [Zero R]
    (correlate_patch_grad : BackwardKernel R)
    (input1 input2 gradOutput : Tensor R)
    (kH kW : Int)
    (patchH patchW : Int)
    (padH padW : Int)
    (dilationH dilationW : Int)
    (dilation_patchH dilation_patchW : Int)
    (dH dW : Int) : Option (Tensor R × Tensor R) :=
  if input1.sizes.length < 1 ∨ gradOutput.sizes.length < 5 then none
  else
    let batch_size := input1.size 0
    if 0 < batch_size then
      if input1.sizes.length = 4 ∧ input2.sizes.length = 4 ∧ gradOutput.sizes.length = 5 then
        some (correlation_cpp_backward correlate_patch_grad input1 input2 gradOutput
          kH kW patchH patchW padH padW dilationH dilationW
          dilation_patchH dilation_patchW dH dW)
      else none
    else some (Tensor.zeros input1.sizes, Tensor.zeros input2.sizes)

/-- Contribution of one invocation of the two-dimensional backward kernel,
written from the words of the specification: for every channel and kernel
offset whose `p1` and `p2` are both in bounds, `g * input2[c,p2]` at element
`[c,p1]` of the first gradient and `g * input1[c,p1]` at element `[c,p2]` of the
second. -/
def scatterContribution2D {R : Type} [CommRing R] (input1 input2 : Tensor R) (g : R)
    (kH kW dilationH dilationW u v shiftU shiftV : Int) :
    (List Int → R) × (List Int → R) :=
  ∑ c ∈ Finset.range (input1.size 0).toNat,
    ∑ i ∈ Finset.range kH.toNat,
      ∑ j ∈ Finset.range kW.toNat,
        if WITHIN_BOUNDS (u + i * dilationH) (u + i * dilationH + shiftU)
              (input1.size 1) (input1.size 1) = true ∧
            WITHIN_BOUNDS (v + j * dilationW) (v + j * dilationW + shiftV)
              (input1.size 2) (input1.size 2) = true
        then
          (Pi.single [(c : Int), u + i * dilationH, v + j * dilationW]
            (g * input2.val [(c : Int), u + i * dilationH + shiftU, v + j * dilationW + shiftV]),
           Pi.single [(c : Int), u + i * dilationH + shiftU, v + j * dilationW + shiftV]
            (g * input1.val [(c : Int), u + i * dilationH, v + j * dilationW]))
        else 0

/-- The volume `t` with `x` added to its element at the multi-index `idx`: a
perturbation of one element. -/
def addAt {R : Type} [Add R] [Zero R] (t : Tensor R) (idx : List Int) (x : R) : Tensor R :=
  { sizes := t.sizes, val := fun j => t.val j + if j = idx then x else 0 }

/-- The loss `L = sum over cells (n, ph, pw, h, w) of G[cell] * c(cell)` of the
claim on gradient consistency, for the two-dimensional routine.  The value
`c(cell)` of a cell is what the forward kernel `correlate_patch` accumulates
from zero for the cell, called as the forward pass calls it (lines 126-133):
accessors `input1[n]` and `input2[n]`, base `(-padH + h*dH, -padW + w*dW)`,
shift `((ph - patchRadH) * dilation_patchH, (pw - patchRadW) * dilation_patchW)`.
The cells run over the batch, the patch sizes and the two output axes of `G`. -/
def loss {R : Type} [CommRing R] (input1 input2 gradOutput : Tensor R)
    (kH kW : Int)
    (patchH patchW : Int)
    (padH padW : Int)
    (dilationH dilationW : Int)
    (dilation_patchH dilation_patchW : Int)
    (dH dW : Int) : R :=
  ∑ n ∈ Finset.range (input1.size 0).toNat,
    ∑ ph ∈ Finset.range patchH.toNat,
      ∑ pw ∈ Finset.range patchW.toNat,
        ∑ h ∈ Finset.range (gradOutput.size 3).toNat,
          ∑ w ∈ Finset.range (gradOutput.size 4).toNat,
            gradOutput.val [(n : Int), (ph : Int), (pw : Int), (h : Int), (w : Int)] *
              correlate_patch (input1.sub n) (input2.sub n) 0
                kH kW dilationH dilationW
                (-padH + h * dH)
                (-padW + w * dW)
                ((ph - Int.tdiv (patchH - 1) 2) * dilation_patchH)
                ((pw - Int.tdiv (patchW - 1) 2) * dilation_patchW)

/-- Sample upstream gradient volume for two batch elements, patch `3x1` and
output extent `2x2`: shape `[2,3,1,2,2]`, pairwise distinct small entries. -/
def gradVol : Tensor Int :=
  { sizes := [2, 3, 1, 2, 2], val := fun idx => idx.foldl (fun a x => 3 * a - x + 2) 1 }

/-- Array of the array library as it lies in memory: its sizes and the element
at each offset of its contiguous, row-major storage. -/
structure FlatTensor (R : Type) where
  sizes : List Int
  data : Int → R

/-- The call `t.size(k)` on an array in memory. -/
def FlatTensor.size {R : Type} (t : FlatTensor R) (k : Nat) : Int :=
  t.sizes.getD k 0

/-- Offset of the element `acc[i0][i1]...` in the storage of a contiguous
row-major array of the given sizes, by the arithmetic of the accessors: every
index is multiplied by the stride of its axis, the product of the sizes of the
later axes, and no index is compared with its extent. -/
def linearOffset : List Int → List Int → Int
  | [], _ => 0
  | i :: idx, sizes => i * sizes.tail.prod + linearOffset idx sizes.tail

/-- The offset `o` is that of an element of batch element `n` of a contiguous
array of the given sizes: the elements `[n, ...]` lie at the offsets from
`n * stride` up to `(n + 1) * stride`, the stride of the batch axis being the
product of the other sizes. -/
def inSlice (sizes : List Int) (n o : Int) : Prop :=
  n * sizes.tail.prod ≤ o ∧ o < (n + 1) * sizes.tail.prod

instance (sizes : List Int) (n o : Int) : Decidable (inSlice sizes n o) := by
  unfold inSlice
  exact inferInstance

/-- Type of the backward kernel `correlate_patch_grad` on arrays in memory: the
arrays `input1`, `input2` and the batch index `n` of the accessors
`input1_acc[n]`, `gradInput1_acc[n]`, `input2_acc[n]`, `gradInput2_acc[n]`, the
storages of `gradInput1` and `gradInput2`, the upstream scalar,
`kH kW dilationH dilationW u v shiftU shiftV`; the two storages after the call. -/
abbrev FlatBackwardKernel (R : Type) : Type :=
  FlatTensor R → FlatTensor R → Int → (Int → R) × (Int → R) → R →
    Int → Int → Int → Int → Int → Int → Int → Int → (Int → R) × (Int → R)

/-- Modelled from the spec: the two-dimensional backward kernel
`correlate_patch_grad`, which the backward pass calls and no source file
defines, on accessors into the storages of the arrays.  It is the
WindowGradScatter of section 4.2 without the depth axis, with the loop nest and
the bounds tests of `correlate_patch_grad_3D` (both positions tested against the
extents of `input1`); the element `[c, i, j]` of an accessor `acc[n]` is the
element of the array at the offset of `[n, c, i, j]`.  `gradInput1` and
`gradInput2` are allocated with the sizes of `input1` and `input2`. -/
def correlate_patch_grad_flat {R : Type} [Add R] [Mul R] : FlatBackwardKernel R :=
  fun input1 input2 n grads gradOutput kH kW dilationH dilationW u v shiftU shiftV =>
    let C := input1.size 1
    let iH := input1.size 2
    let iW := input1.size 3
    forLoop C grads fun c grads =>
      forLoop kH grads fun i grads =>
        let i1 := u + i * dilationH
        let i2 := i1 + shiftU
        if WITHIN_BOUNDS i1 i2 iH iH then
          forLoop kW grads fun j grads =>
            let j1 := v + j * dilationW
            let j2 := j1 + shiftV
            if WITHIN_BOUNDS j1 j2 iW iW then
              let o1 := linearOffset [n, c, i1, j1] input1.sizes
              let o2 := linearOffset [n, c, i2, j2] input2.sizes
              let v1 := input1.data o1
              let v2 := input2.data o2
              let gradInput2 : Int → R :=
                fun o => if o = o2 then grads.2 o2 + gradOutput * v1 else grads.2 o
              let gradInput1 : Int → R :=
                fun o => if o = o1 then grads.1 o1 + gradOutput * v2 else grads.1 o
              (gradInput1, gradInput2)
            else grads
        else grads

/-- The iteration of the backward pass for one batch index `n` on arrays in
memory: the body of the loop over `n` (lines 166-190), a function of the
storages of `gradInput1` and `gradInput2`.  The upstream scalar
`gradOutput_acc[n][ph][pw][h][w]` is the element of `gradOutput` at the offset
of `[n, ph, pw, h, w]`. -/
def backward_iteration_flat {R : Type}
    (correlate_patch_grad : FlatBackwardKernel R)
    (input1 input2 gradOutput : FlatTensor R)
    (kH kW : Int)
    (patchH patchW : Int)
    (padH padW : Int)
    (dilationH dilationW : Int)
    (dilation_patchH dilation_patchW : Int)
    (dH dW : Int) (n : Int) (grads : (Int → R) × (Int → R)) : (Int → R) × (Int → R) :=
  let patchRadH := Int.tdiv (patchH - 1) 2
  let patchRadW := Int.tdiv (patchW - 1) 2
  let oH := gradOutput.size 3
  let oW := gradOutput.size 4
  forLoop patchH grads fun ph grads =>
    forLoop patchW grads fun pw grads =>
      forLoop oH grads fun h grads =>
        forLoop oW grads fun w grads =>
          correlate_patch_grad input1 input2 n grads
            (gradOutput.data (linearOffset [n, ph, pw, h, w] gradOutput.sizes))
            kH kW
            dilationH dilationW
            (-padH + h * dH)
            (-padW + w * dW)
            ((ph - patchRadH) * dilation_patchH)
            ((pw - patchRadW) * dilation_patchW)

/-- The backward pass `correlation_cpp_backward` (lines 142-194) on arrays in
memory, for inputs of four axes and a gradient volume of five: the storages of
`gradInput1` and `gradInput2`, zero-filled by `torch::zeros_like`, after the
loop over the batch indices. -/
def correlation_cpp_backward_flat {R : Type} [Zero R]
    (correlate_patch_grad : FlatBackwardKernel R)
    (input1 input2 gradOutput : FlatTensor R)
    (kH kW : Int)
    (patchH patchW : Int)
    (padH padW : Int)
    (dilationH dilationW : Int)
    (dilation_patchH dilation_patchW : Int)
    (dH dW : Int) : (Int → R) × (Int → R) :=
  let batch_size := input1.size 0
  forLoop batch_size (fun _ => 0, fun _ => 0) fun n grads =>
    backward_iteration_flat correlate_patch_grad input1 input2 gradOutput
      kH kW patchH patchW padH padW dilationH dilationW
      dilation_patchH dilation_patchW dH dW n grads

/-- Sample batch of two one-channel `2x1` elements in memory: the element at
offset `o` is `o + 1`. -/
def flatA : FlatTensor Int :=
  { sizes := [2, 1, 2, 1], data := fun o => o + 1 }

/-- The sample batch with the data of batch element `0` (offsets `0` and `1`)
replaced. -/
def flatB : FlatTensor Int :=
  { sizes := [2, 1, 2, 1], data := fun o => if o < 2 then 10 - o else o + 1 }

/-- Sample batch of two one-channel `1x1` elements in memory, all ones. -/
def flatSmall : FlatTensor Int :=
  { sizes := [2, 1, 1, 1], data := fun _ => 1 }

/-- Sample upstream gradient volume in memory, shape `[2,3,1,2,1]`, all ones. -/
def flatGrad : FlatTensor Int :=
  { sizes := [2, 3, 1, 2, 1], data := fun _ => 1 }

/-- The sample gradient volume with the data of batch element `0` (offsets `0`
to `5`) replaced. -/
def flatGradB : FlatTensor Int :=
  { sizes := [2, 3, 1, 2, 1], data := fun o => if o < 6 then 2 + o else 1 }

/-- Two pairs of gradient storages hold the same elements in batch element `n`:
at every offset of batch element `n` of an array of sizes `sizes1` the first
storages agree, and at every offset of batch element `n` of an array of sizes
`sizes2` the second storages agree. -/
def slicesAgree {R : Type} (sizes1 sizes2 : List Int) (n : Int)
    (a b : (Int → R) × (Int → R)) : Prop :=
  (∀ o, inSlice sizes1 n o → b.1 o = a.1 o) ∧ (∀ o, inSlice sizes2 n o → b.2 o = a.2 o)

/-- The array in memory read through its accessors: the element at a
multi-index is the element of the storage at the offset of the multi-index. -/
def FlatTensor.toTensor {R : Type} (t : FlatTensor R) : Tensor R :=
  { sizes := t.sizes, val := fun idx => t.data (linearOffset idx t.sizes) }

/-- The storages of the two gradients hold, at the offset of every multi-index
inside the volumes of sizes `sizes1` and `sizes2`, the elements that the keyed
gradients hold at the multi-index. -/
def storesAgree {R : Type} (sizes1 sizes2 : List Int)
    (f : (Int → R) × (Int → R)) (k : Tensor R × Tensor R) : Prop :=
  (∀ idx, indexInRange idx sizes1 = true → f.1 (linearOffset idx sizes1) = k.1.val idx) ∧
    (∀ idx, indexInRange idx sizes2 = true → f.2 (linearOffset idx sizes2) = k.2.val idx)

/-! ## Loops that only add -/

section Lemmas

variable {R : Type} [CommRing R]

theorem forLoop_add (bound : Int) (init : R) (body : Int → R → R) (f : Nat → R)
    (h : ∀ (x : Nat) (s : R), body (x : Int) s = s + f x) :
    forLoop bound init body = init + ∑ x ∈ Finset.range bound.toNat, f x := by
  unfold forLoop
  induction bound.toNat with
  | zero => simp
  | succ n ih =>
    rw [List.range_succ, List.foldl_append, ih, Finset.sum_range_succ]
    simp [h, add_assoc]

theorem WITHIN_BOUNDS_iff (x y H W : Int) :
    WITHIN_BOUNDS x y H W = true ↔ (0 ≤ x ∧ x < H) ∧ (0 ≤ y ∧ y < W) := by
  simp [WITHIN_BOUNDS, and_assoc]

/-- The kernel against the sum guarded by its own three bounds tests (all
against the sizes of `input1`). -/
theorem correlate_patch_3D_eq_sum (input1 input2 : Tensor R) (d0 : R)
    (kH kW kD dilationH dilationW dilationD u v w shiftU shiftV shiftW : Int) :
    correlate_patch_3D input1 input2 d0 kH kW kD dilationH dilationW dilationD u v w
        shiftU shiftV shiftW =
      d0 + ∑ c ∈ Finset.range (input1.size 0).toNat,
        ∑ i ∈ Finset.range kH.toNat,
          ∑ j ∈ Finset.range kW.toNat,
            ∑ k ∈ Finset.range kD.toNat,
              if (WITHIN_BOUNDS (u + i * dilationH) (u + i * dilationH + shiftU)
                    (input1.size 1) (input1.size 1) = true ∧
                  WITHIN_BOUNDS (v + j * dilationW) (v + j * dilationW + shiftV)
                    (input1.size 2) (input1.size 2) = true) ∧
                  WITHIN_BOUNDS (w + k * dilationD) (w + k * dilationD + shiftW)
                    (input1.size 3) (input1.size 3) = true
              then input1.val [(c : Int), u + i * dilationH, v + j * dilationW,
                  w + k * dilationD] *
                input2.val [(c : Int), u + i * dilationH + shiftU, v + j * dilationW + shiftV,
                  w + k * dilationD + shiftW]
              else 0 := by
  unfold correlate_patch_3D
  simp only []
  apply forLoop_add
  intro c s
  beta_reduce
  apply forLoop_add
  intro i s
  beta_reduce
  by_cases hi : WITHIN_BOUNDS (u + i * dilationH) (u + i * dilationH + shiftU)
      (input1.size 1) (input1.size 1) = true
  · simp only [hi, if_true, true_and]
    apply forLoop_add
    intro j s
    beta_reduce
    by_cases hj : WITHIN_BOUNDS (v + j * dilationW) (v + j * dilationW + shiftV)
        (input1.size 2) (input1.size 2) = true
    · simp only [hj, if_true, true_and]
      apply forLoop_add
      intro k s
      beta_reduce
      by_cases hk : WITHIN_BOUNDS (w + k * dilationD) (w + k * dilationD + shiftW)
          (input1.size 3) (input1.size 3) = true
      · simp only [hk, if_true]
      · simp [hk]
    · simp [hj]
  · simp [hi]

end Lemmas

theorem size_eq_of_sizes_eq {R : Type} (t s : Tensor R) (h : s.sizes = t.sizes) (k : Nat) :
    s.size k = t.size k := by
  unfold Tensor.size
  rw [h]

/-- A property of the state that every iteration preserves holds after the loop. -/
theorem forLoop_invariant {σ : Type} (P : σ → Prop) (bound : Int) (init : σ)
    (body : Int → σ → σ) (h0 : P init) (hstep : ∀ x s, P s → P (body x s)) :
    P (forLoop bound init body) := by
  unfold forLoop
  induction bound.toNat with
  | zero => simpa using h0
  | succ n ih =>
    rw [List.range_succ, List.foldl_append]
    simpa using hstep _ _ ih

/-- A loop whose body leaves the state alone leaves the state alone. -/
theorem forLoop_id {σ : Type} (bound : Int) (init : σ) (body : Int → σ → σ)
    (h : ∀ x s, body x s = s) : forLoop bound init body = init :=
  forLoop_invariant (fun s => s = init) bound init body rfl (fun x s hs => by rw [h, hs])

/-- A loop with a non-positive bound runs no iteration. -/
theorem forLoop_nonpos {σ : Type} (bound : Int) (init : σ) (body : Int → σ → σ)
    (h : bound ≤ 0) : forLoop bound init body = init := by
  unfold forLoop
  rw [Int.toNat_of_nonpos h]
  rfl

/-- A sum over `0 .. k2-1` whose terms from `k` on vanish is the sum over
`0 .. k-1`. -/
theorem sum_range_extend {M : Type} [AddCommMonoid M] (k k2 : Int) (f : Nat → M) (hk : k ≤ k2)
    (hz : ∀ i : Nat, k ≤ (i : Int) → (i : Int) < k2 → f i = 0) :
    ∑ i ∈ Finset.range k2.toNat, f i = ∑ i ∈ Finset.range k.toNat, f i := by
  symm
  apply Finset.sum_subset
  · intro i hi
    simp only [Finset.mem_range] at hi ⊢
    omega
  · intro i hi hni
    simp only [Finset.mem_range] at hi hni
    apply hz <;> omega

theorem WITHIN_BOUNDS_eq_false (x y H : Int) (h : ¬ axisInside x y H) :
    WITHIN_BOUNDS x y H H = false := by
  rw [← Bool.not_eq_true, WITHIN_BOUNDS_iff]
  exact h

/-! ## The forward kernel -/

section ForwardKernel

variable {R : Type} [CommRing R]

/-- Kernel offsets added beyond `kH, kW, kD` that are all out of bounds do not
change what the forward kernel accumulates. -/
theorem correlate_patch_3D_extend (input1 input2 : Tensor R) (d0 : R)
    (kH kW kD kH2 kW2 kD2 dilationH dilationW dilationD u v w shiftU shiftV shiftW : Int)
    (hH : kH ≤ kH2) (hW : kW ≤ kW2) (hD : kD ≤ kD2)
    (hoH : ∀ i : Nat, kH ≤ (i : Int) → (i : Int) < kH2 →
      ¬ axisInside (u + i * dilationH) (u + i * dilationH + shiftU) (input1.size 1))
    (hoW : ∀ j : Nat, kW ≤ (j : Int) → (j : Int) < kW2 →
      ¬ axisInside (v + j * dilationW) (v + j * dilationW + shiftV) (input1.size 2))
    (hoD : ∀ k : Nat, kD ≤ (k : Int) → (k : Int) < kD2 →
      ¬ axisInside (w + k * dilationD) (w + k * dilationD + shiftW) (input1.size 3)) :
    correlate_patch_3D input1 input2 d0 kH2 kW2 kD2 dilationH dilationW dilationD u v w
        shiftU shiftV shiftW =
      correlate_patch_3D input1 input2 d0 kH kW kD dilationH dilationW dilationD u v w
        shiftU shiftV shiftW := by
  rw [correlate_patch_3D_eq_sum, correlate_patch_3D_eq_sum]
  congr 1
  refine Finset.sum_congr rfl fun c _ => ?_
  rw [sum_range_extend kH kH2 _ hH]
  · refine Finset.sum_congr rfl fun i _ => ?_
    rw [sum_range_extend kW kW2 _ hW]
    · refine Finset.sum_congr rfl fun j _ => ?_
      rw [sum_range_extend kD kD2 _ hD]
      intro k hk1 hk2
      simp [WITHIN_BOUNDS_eq_false _ _ _ (hoD k hk1 hk2)]
    · intro j hj1 hj2
      simp [WITHIN_BOUNDS_eq_false _ _ _ (hoW j hj1 hj2)]
  · intro i hi1 hi2
    simp [WITHIN_BOUNDS_eq_false _ _ _ (hoH i hi1 hi2)]

/-- Claim C10 (forward kernel reference definition): for volumes of equal shape,
every kernel size, dilation, base, shift and every initial value `d0` of the
destination cell, `correlate_patch_3D` leaves in the cell `d0` plus the sum over
`c < C, i < kH, j < kW, k < kD` of `input1[c,p1] * input2[c,p2]` restricted to
the offsets whose `p1` and `p2` are both in bounds: it adds to the cell, and the
cell is the only thing it returns. -/
theorem correlate_patch_3D_reference (input1 input2 : Tensor R) (d0 : R)
    (kH kW kD dilationH dilationW dilationD u v w shiftU shiftV shiftW : Int)
    (hshape : input2.sizes = input1.sizes) :
    correlate_patch_3D input1 input2 d0 kH kW kD dilationH dilationW dilationD u v w
        shiftU shiftV shiftW =
      d0 + windowDotProduct input1 input2 kH kW kD dilationH dilationW dilationD u v w
        shiftU shiftV shiftW := by
  rw [correlate_patch_3D_eq_sum]
  unfold windowDotProduct inVolume
  simp only [size_eq_of_sizes_eq input1 input2 hshape, WITHIN_BOUNDS_iff]
  congr 1
  refine Finset.sum_congr rfl fun c _ => Finset.sum_congr rfl fun i _ =>
    Finset.sum_congr rfl fun j _ => Finset.sum_congr rfl fun k _ => ?_
  apply if_congr _ rfl rfl
  tauto

/-- Claim C5 (zero-padding correctness): for volumes of equal spatial shape the
value accumulated by `correlate_patch_3D` is the unguarded sum, over all
channels and all kernel offsets, of the product of the two volumes extended by
exactly zero outside `[0,H) x [0,W) x [0,D)`; in particular a window that
differs from the given one only by further offsets, all of them out of bounds,
accumulates the same value. -/
theorem correlate_patch_3D_zero_padding (input1 input2 : Tensor R) (d0 : R)
    (kH kW kD dilationH dilationW dilationD u v w shiftU shiftV shiftW : Int)
    (hH : input2.size 1 = input1.size 1) (hW : input2.size 2 = input1.size 2)
    (hD : input2.size 3 = input1.size 3) :
    correlate_patch_3D input1 input2 d0 kH kW kD dilationH dilationW dilationD u v w
        shiftU shiftV shiftW =
      d0 + zeroPaddedDotProduct input1 input2 kH kW kD dilationH dilationW dilationD u v w
        shiftU shiftV shiftW ∧
    ∀ kH2 kW2 kD2 : Int, kH ≤ kH2 → kW ≤ kW2 → kD ≤ kD2 →
      (∀ i : Nat, kH ≤ (i : Int) → (i : Int) < kH2 →
        ¬ axisInside (u + i * dilationH) (u + i * dilationH + shiftU) (input1.size 1)) →
      (∀ j : Nat, kW ≤ (j : Int) → (j : Int) < kW2 →
        ¬ axisInside (v + j * dilationW) (v + j * dilationW + shiftV) (input1.size 2)) →
      (∀ k : Nat, kD ≤ (k : Int) → (k : Int) < kD2 →
        ¬ axisInside (w + k * dilationD) (w + k * dilationD + shiftW) (input1.size 3)) →
      correlate_patch_3D input1 input2 d0 kH2 kW2 kD2 dilationH dilationW dilationD u v w
          shiftU shiftV shiftW =
        correlate_patch_3D input1 input2 d0 kH kW kD dilationH dilationW dilationD u v w
          shiftU shiftV shiftW := by
  refine ⟨?_, fun kH2 kW2 kD2 h1 h2 h3 o1 o2 o3 =>
    correlate_patch_3D_extend input1 input2 d0 kH kW kD kH2 kW2 kD2 dilationH dilationW
      dilationD u v w shiftU shiftV shiftW h1 h2 h3 o1 o2 o3⟩
  rw [correlate_patch_3D_eq_sum]
  unfold zeroPaddedDotProduct zeroExtend inVolume
  simp only [hH, hW, hD, WITHIN_BOUNDS_iff]
  congr 1
  refine Finset.sum_congr rfl fun c _ => Finset.sum_congr rfl fun i _ =>
    Finset.sum_congr rfl fun j _ => Finset.sum_congr rfl fun k _ => ?_
  by_cases h1 : (0 ≤ u + i * dilationH ∧ u + i * dilationH < input1.size 1) ∧
      (0 ≤ v + j * dilationW ∧ v + j * dilationW < input1.size 2) ∧
      (0 ≤ w + k * dilationD ∧ w + k * dilationD < input1.size 3)
  · by_cases h2 : (0 ≤ u + i * dilationH + shiftU ∧ u + i * dilationH + shiftU < input1.size 1) ∧
        (0 ≤ v + j * dilationW + shiftV ∧ v + j * dilationW + shiftV < input1.size 2) ∧
        (0 ≤ w + k * dilationD + shiftW ∧ w + k * dilationD + shiftW < input1.size 3)
    · rw [if_pos h1, if_pos h2, if_pos]
      tauto
    · rw [if_neg h2, mul_zero, if_neg]
      tauto
  · rw [if_neg h1, zero_mul, if_neg]
    tauto

/-- Claim C10, witness at a concrete input: the sample volumes,
a `2x2x2` kernel at base `(0,0,0)`, shift `(1,0,-1)`, entry value `5`; the cell
ends at `11291`. -/
theorem correlate_patch_3D_reference_witness :
    correlate_patch_3D volA volB 5 2 2 2 1 1 1 0 0 0 1 0 (-1) =
        5 + windowDotProduct volA volB 2 2 2 1 1 1 0 0 0 1 0 (-1) ∧
      correlate_patch_3D volA volB 5 2 2 2 1 1 1 0 0 0 1 0 (-1) = 11291 :=
  ⟨correlate_patch_3D_reference volA volB 5 2 2 2 1 1 1 0 0 0 1 0 (-1) rfl, by decide⟩

/-- Claim C5, witness at a concrete input: the sample volumes
under a `3x3x3` kernel based at `(-1,-1,-1)`, so that offsets fall outside on
every side; the value is `11286`, and it is the value of the `2x2x2` kernel
based at `(-1,-1,-1)` extended by a third offset on every axis. -/
theorem correlate_patch_3D_zero_padding_witness :
    (correlate_patch_3D volA volB 0 3 3 3 1 1 1 (-1) (-1) (-1) 1 0 (-1) =
        0 + zeroPaddedDotProduct volA volB 3 3 3 1 1 1 (-1) (-1) (-1) 1 0 (-1) ∧
      ∀ kH2 kW2 kD2 : Int, 3 ≤ kH2 → 3 ≤ kW2 → 3 ≤ kD2 →
        (∀ i : Nat, 3 ≤ (i : Int) → (i : Int) < kH2 →
          ¬ axisInside (-1 + i * 1) (-1 + i * 1 + 1) (volA.size 1)) →
        (∀ j : Nat, 3 ≤ (j : Int) → (j : Int) < kW2 →
          ¬ axisInside (-1 + j * 1) (-1 + j * 1 + 0) (volA.size 2)) →
        (∀ k : Nat, 3 ≤ (k : Int) → (k : Int) < kD2 →
          ¬ axisInside (-1 + k * 1) (-1 + k * 1 + -1) (volA.size 3)) →
        correlate_patch_3D volA volB 0 kH2 kW2 kD2 1 1 1 (-1) (-1) (-1) 1 0 (-1) =
          correlate_patch_3D volA volB 0 3 3 3 1 1 1 (-1) (-1) (-1) 1 0 (-1)) ∧
    correlate_patch_3D volA volB 0 3 3 3 1 1 1 (-1) (-1) (-1) 1 0 (-1) = 11286 ∧
    correlate_patch_3D volA volB 0 5 4 7 1 1 1 (-1) (-1) (-1) 1 0 (-1) = 11286 :=
  ⟨correlate_patch_3D_zero_padding volA volB 0 3 3 3 1 1 1 (-1) (-1) (-1) 1 0 (-1) rfl rfl rfl,
    by decide, by decide⟩

end ForwardKernel

/-! ## The forward pass -/

section ForwardPass

variable {R : Type} [CommRing R]

/-- The loop nest of the forward pass has no result exactly when a stride is zero. -/
theorem forward_3D_eq_none_iff (cp : ForwardKernel R) (input1 input2 : Tensor R)
    (kH kW kD patchH patchW patchD padH padW padD dilationH dilationW dilationD
      dilation_patchH dilation_patchW dilation_patchD dH dW dD : Int) :
    correlation_cpp_forward_3D cp input1 input2 kH kW kD patchH patchW patchD padH padW padD
        dilationH dilationW dilationD dilation_patchH dilation_patchW dilation_patchD
        dH dW dD = none ↔ (dH = 0 ∨ dW = 0 ∨ dD = 0) := by
  unfold correlation_cpp_forward_3D
  simp only []
  split_ifs with h
  · simp [h]
  · simp [h]

/-- The sizes of the volume that the loop nest leaves are those handed to the
allocation. -/
theorem forward_3D_sizes (cp : ForwardKernel R) (input1 input2 : Tensor R)
    (kH kW kD patchH patchW patchD padH padW padD dilationH dilationW dilationD
      dilation_patchH dilation_patchW dilation_patchD dH dW dD : Int) (out : Tensor R)
    (hout : correlation_cpp_forward_3D cp input1 input2 kH kW kD patchH patchW patchD
        padH padW padD dilationH dilationW dilationD dilation_patchH dilation_patchW
        dilation_patchD dH dW dD = some out) :
    out.sizes = [input1.size 0, patchH, patchW, patchD,
      Int.tdiv (input1.size 2 + 2 * padH - ((kH - 1) * dilationH + 1)) dH + 1,
      Int.tdiv (input1.size 3 + 2 * padW - ((kW - 1) * dilationW + 1)) dW + 1,
      Int.tdiv (input1.size 4 + 2 * padD - ((kD - 1) * dilationD + 1)) dD + 1] := by
  unfold correlation_cpp_forward_3D at hout
  simp only [] at hout
  split_ifs at hout with h
  injection hout with hout
  subst hout
  refine forLoop_invariant (fun t : Tensor R => t.sizes = _) _ _ _ rfl fun n s hs => ?_
  refine forLoop_invariant (fun t : Tensor R => t.sizes = _) _ _ _ hs fun ph s hs => ?_
  refine forLoop_invariant (fun t : Tensor R => t.sizes = _) _ _ _ hs fun pw s hs => ?_
  refine forLoop_invariant (fun t : Tensor R => t.sizes = _) _ _ _ hs fun pd s hs => ?_
  refine forLoop_invariant (fun t : Tensor R => t.sizes = _) _ _ _ hs fun h s hs => ?_
  refine forLoop_invariant (fun t : Tensor R => t.sizes = _) _ _ _ hs fun w s hs => ?_
  exact hs

/-- Every destination of the forward loop nest is a 5-index cell: a cell named
by any other number of indices is never written and keeps its initial zero. -/
theorem forward_3D_untouched (cp : ForwardKernel R) (input1 input2 : Tensor R)
    (kH kW kD patchH patchW patchD padH padW padD dilationH dilationW dilationD
      dilation_patchH dilation_patchW dilation_patchD dH dW dD : Int) (out : Tensor R)
    (hout : correlation_cpp_forward_3D cp input1 input2 kH kW kD patchH patchW patchD
        padH padW padD dilationH dilationW dilationD dilation_patchH dilation_patchW
        dilation_patchD dH dW dD = some out)
    (idx : List Int) (hidx : idx.length ≠ 5) :
    out.val idx = 0 := by
  unfold correlation_cpp_forward_3D at hout
  simp only [] at hout
  split_ifs at hout with h
  injection hout with hout
  subst hout
  refine forLoop_invariant (fun t : Tensor R => t.val idx = 0) _ _ _ rfl fun n s hs => ?_
  refine forLoop_invariant (fun t : Tensor R => t.val idx = 0) _ _ _ hs fun ph s hs => ?_
  refine forLoop_invariant (fun t : Tensor R => t.val idx = 0) _ _ _ hs fun pw s hs => ?_
  refine forLoop_invariant (fun t : Tensor R => t.val idx = 0) _ _ _ hs fun pd s hs => ?_
  refine forLoop_invariant (fun t : Tensor R => t.val idx = 0) _ _ _ hs fun h s hs => ?_
  refine forLoop_invariant (fun t : Tensor R => t.val idx = 0) _ _ _ hs fun w s hs => ?_
  show (if idx = [n, ph, pw, h, w] then _ else s.val idx) = 0
  rw [if_neg, hs]
  intro hEq
  apply hidx
  rw [hEq]
  rfl

/-- Truncation and floor agree on a non-negative numerator and positive stride. -/
theorem truncOutDim_eq_floorOutDim (inDim pad kernel dilation stride : Int)
    (hs : 0 < stride) (hfit : (kernel - 1) * dilation + 1 ≤ inDim + 2 * pad) :
    truncOutDim inDim pad kernel dilation stride =
      floorOutDim inDim pad kernel dilation stride := by
  unfold truncOutDim floorOutDim mathFloorDiv
  have hnum : 0 ≤ inDim + 2 * pad - ((kernel - 1) * dilation + 1) := by omega
  rw [Int.tdiv_eq_ediv hnum hs.le]
  obtain ⟨n, rfl⟩ := Int.eq_ofNat_of_zero_le hs.le
  rw [← Rat.floor_intCast_div_natCast]
  simp

/-- The floor formula is at least one only when the dilated kernel fits. -/
theorem fits_of_one_le_floorOutDim (inDim pad kernel dilation stride : Int)
    (hs : 0 < stride) (h : 1 ≤ floorOutDim inDim pad kernel dilation stride) :
    (kernel - 1) * dilation + 1 ≤ inDim + 2 * pad := by
  unfold floorOutDim mathFloorDiv at h
  have h0 : 0 ≤ ⌊((inDim + 2 * pad - ((kernel - 1) * dilation + 1) : Int) : ℚ) /
      (stride : ℚ)⌋ := by omega
  rw [Int.floor_nonneg] at h0
  by_contra hneg
  have hnum : ((inDim + 2 * pad - ((kernel - 1) * dilation + 1) : Int) : ℚ) < 0 := by
    exact_mod_cast (by omega : inDim + 2 * pad - ((kernel - 1) * dilation + 1) < 0)
  have hsq : (0 : ℚ) < (stride : ℚ) := by exact_mod_cast hs
  have := div_neg_of_neg_of_pos hnum hsq
  linarith

/-- Claim C1, evaluation at the failing input (all-ones `1x1x1x1x2` volumes,
unit geometry): whatever the absent kernel `correlate_patch` computes, the
forward pass returns the cell `[0,0,0,0,0,0,1]` at its initial zero, because no
iteration of its loop nest has a depth coordinate; the value the claim assigns
to that cell, the 3D window dot product at base `(0,0,1)` and shift `(0,0,0)`,
is `1`. -/
theorem forward_3D_skips_depth :
    (∀ cp : ForwardKernel Int,
      (correlation_cpp_forward_3D cp (onesTensor [1, 1, 1, 1, 2]) (onesTensor [1, 1, 1, 1, 2])
        1 1 1 1 1 1 0 0 0 1 1 1 1 1 1 1 1 1).map (fun out => out.val [0, 0, 0, 0, 0, 0, 1]) =
        some 0) ∧
    correlate_patch_3D ((onesTensor [1, 1, 1, 1, 2]).sub 0) ((onesTensor [1, 1, 1, 1, 2]).sub 0)
      0 1 1 1 1 1 1 (-0 + 0 * 1) (-0 + 0 * 1) (-0 + 1 * 1)
      ((0 - Int.tdiv (1 - 1) 2) * 1) ((0 - Int.tdiv (1 - 1) 2) * 1)
      ((0 - Int.tdiv (1 - 1) 2) * 1) = 1 :=
  ⟨fun _ => rfl, by decide⟩

/-- Claim C4, evaluation at the two scenarios of the specification (all-ones
`1x1x3x3x3` volumes; two channels holding 1 and 2), patch size 1, kernel size 1,
padding 0, stride 1: the forward pass returns a volume of shape
`[1,1,1,1,3,3,3]` in which every cell `[0,0,0,0,h,w,d]` still holds its initial
zero, whatever the absent kernel `correlate_patch` computes; the channel-wise
dot products the claim assigns to these cells are `1` and `5`. -/
theorem forward_3D_degenerate_patch_cells :
    (∀ cp : ForwardKernel Int, ∃ out,
      correlation_cpp_forward_3D cp (onesTensor [1, 1, 3, 3, 3]) (onesTensor [1, 1, 3, 3, 3])
        1 1 1 1 1 1 0 0 0 1 1 1 1 1 1 1 1 1 = some out ∧
      out.sizes = [1, 1, 1, 1, 3, 3, 3] ∧ ∀ h w d : Int, out.val [0, 0, 0, 0, h, w, d] = 0) ∧
    (∀ cp : ForwardKernel Int, ∃ out,
      correlation_cpp_forward_3D cp (channelTensor [1, 2, 3, 3, 3])
        (channelTensor [1, 2, 3, 3, 3]) 1 1 1 1 1 1 0 0 0 1 1 1 1 1 1 1 1 1 = some out ∧
      out.sizes = [1, 1, 1, 1, 3, 3, 3] ∧ ∀ h w d : Int, out.val [0, 0, 0, 0, h, w, d] = 0) ∧
    (∀ h ∈ List.range 3, ∀ w ∈ List.range 3, ∀ d ∈ List.range 3,
      correlate_patch_3D ((onesTensor [1, 1, 3, 3, 3]).sub 0) ((onesTensor [1, 1, 3, 3, 3]).sub 0)
        0 1 1 1 1 1 1 h w d 0 0 0 = 1) ∧
    (∀ h ∈ List.range 3, ∀ w ∈ List.range 3, ∀ d ∈ List.range 3,
      correlate_patch_3D ((channelTensor [1, 2, 3, 3, 3]).sub 0)
        ((channelTensor [1, 2, 3, 3, 3]).sub 0) 0 1 1 1 1 1 1 h w d 0 0 0 = 5) := by
  refine ⟨fun cp => ?_, fun cp => ?_, by decide, by decide⟩
  · cases hout : correlation_cpp_forward_3D cp (onesTensor [1, 1, 3, 3, 3])
        (onesTensor [1, 1, 3, 3, 3]) 1 1 1 1 1 1 0 0 0 1 1 1 1 1 1 1 1 1 with
    | none => exact absurd hout (by rw [forward_3D_eq_none_iff]; decide)
    | some out =>
      refine ⟨out, rfl, ?_, fun h w d => ?_⟩
      · rw [forward_3D_sizes _ _ _ _ _ _ _ _ _ _ _ _ _ _ _ _ _ _ _ _ _ out hout]
        decide
      · exact forward_3D_untouched _ _ _ _ _ _ _ _ _ _ _ _ _ _ _ _ _ _ _ _ _ out hout _
          (by simp)
  · cases hout : correlation_cpp_forward_3D cp (channelTensor [1, 2, 3, 3, 3])
        (channelTensor [1, 2, 3, 3, 3]) 1 1 1 1 1 1 0 0 0 1 1 1 1 1 1 1 1 1 with
    | none => exact absurd hout (by rw [forward_3D_eq_none_iff]; decide)
    | some out =>
      refine ⟨out, rfl, ?_, fun h w d => ?_⟩
      · rw [forward_3D_sizes _ _ _ _ _ _ _ _ _ _ _ _ _ _ _ _ _ _ _ _ _ out hout]
        decide
      · exact forward_3D_untouched _ _ _ _ _ _ _ _ _ _ _ _ _ _ _ _ _ _ _ _ _ out hout _
          (by simp)

end ForwardPass

/-! ## The backward kernel -/

/-- Two pairs of buffers with the same sizes and the same contents are equal. -/
theorem grads_ext {R : Type} (a b : Tensor R × Tensor R) (h1 : a.1.sizes = b.1.sizes)
    (h2 : a.2.sizes = b.2.sizes) (hv : gradValues a = gradValues b) : a = b := by
  obtain ⟨⟨s1, v1⟩, ⟨s2, v2⟩⟩ := a
  obtain ⟨⟨t1, w1⟩, ⟨t2, w2⟩⟩ := b
  simp only [gradValues, Prod.mk.injEq] at hv
  simp only at h1 h2
  obtain ⟨hv1, hv2⟩ := hv
  subst h1 h2 hv1 hv2
  rfl

section BackwardKernel

variable {R : Type} [CommRing R]

/-- An observation of the state to which every iteration adds a term is, after
the loop, its initial value plus the sum of the terms. -/
theorem forLoop_observed_add {σ M : Type} [AddCommMonoid M] (obs : σ → M) (bound : Int)
    (init : σ) (body : Int → σ → σ) (f : Nat → M)
    (h : ∀ (x : Nat) (s : σ), obs (body (x : Int) s) = obs s + f x) :
    obs (forLoop bound init body) = obs init + ∑ x ∈ Finset.range bound.toNat, f x := by
  unfold forLoop
  induction bound.toNat with
  | zero => simp
  | succ n ih =>
    rw [List.range_succ, List.foldl_append, Finset.sum_range_succ, ← add_assoc, ← ih]
    simp [h]

theorem gradValues_set_set (grads : Tensor R × Tensor R) (p1 p2 : List Int) (a b : R) :
    gradValues (grads.1.set p1 (grads.1.val p1 + a), grads.2.set p2 (grads.2.val p2 + b)) =
      gradValues grads + (Pi.single p1 a, Pi.single p2 b) := by
  unfold gradValues Tensor.set
  refine Prod.ext (funext fun j => ?_) (funext fun j => ?_)
  · by_cases hj : j = p1
    · subst hj
      simp
    · simp [hj]
  · by_cases hj : j = p2
    · subst hj
      simp
    · simp [hj]

/-- One invocation of the backward kernel adds its contribution to the buffers. -/
theorem gradValues_scatterCall (input1 input2 : Tensor R) (grads : Tensor R × Tensor R)
    (call : ScatterCall R) :
    gradValues (scatterCall input1 input2 grads call) =
      gradValues grads + scatterContribution input1 input2 call := by
  unfold scatterCall correlate_patch_grad_3D scatterContribution
  simp only []
  apply forLoop_observed_add
  intro c s
  beta_reduce
  apply forLoop_observed_add
  intro i s
  beta_reduce
  by_cases hi : WITHIN_BOUNDS (call.u + i * call.dilationH)
      (call.u + i * call.dilationH + call.shiftU) (input1.size 1) (input1.size 1) = true
  · simp only [hi, if_true, true_and]
    apply forLoop_observed_add
    intro j s
    beta_reduce
    by_cases hj : WITHIN_BOUNDS (call.v + j * call.dilationW)
        (call.v + j * call.dilationW + call.shiftV) (input1.size 2) (input1.size 2) = true
    · simp only [hj, if_true, true_and]
      apply forLoop_observed_add
      intro k s
      beta_reduce
      by_cases hk : WITHIN_BOUNDS (call.w + k * call.dilationD)
          (call.w + k * call.dilationD + call.shiftW) (input1.size 3) (input1.size 3) = true
      · simp only [hk, if_true]
        exact gradValues_set_set s _ _ _ _
      · simp [hk]
    · simp [hj]
  · simp [hi]

/-- One invocation of the backward kernel keeps the sizes of the buffers. -/
theorem sizes_scatterCall (input1 input2 : Tensor R) (grads : Tensor R × Tensor R)
    (call : ScatterCall R) :
    (scatterCall input1 input2 grads call).1.sizes = grads.1.sizes ∧
      (scatterCall input1 input2 grads call).2.sizes = grads.2.sizes := by
  unfold scatterCall correlate_patch_grad_3D
  simp only []
  refine forLoop_invariant
    (fun g : Tensor R × Tensor R => g.1.sizes = grads.1.sizes ∧ g.2.sizes = grads.2.sizes)
    _ _ _ ⟨rfl, rfl⟩ fun c s hs => ?_
  refine forLoop_invariant
    (fun g : Tensor R × Tensor R => g.1.sizes = grads.1.sizes ∧ g.2.sizes = grads.2.sizes)
    _ _ _ hs fun i s hs => ?_
  beta_reduce
  split_ifs
  · refine forLoop_invariant
      (fun g : Tensor R × Tensor R => g.1.sizes = grads.1.sizes ∧ g.2.sizes = grads.2.sizes)
      _ _ _ hs fun j s hs => ?_
    beta_reduce
    split_ifs
    · refine forLoop_invariant
        (fun g : Tensor R × Tensor R => g.1.sizes = grads.1.sizes ∧ g.2.sizes = grads.2.sizes)
        _ _ _ hs fun k s hs => ?_
      beta_reduce
      split_ifs
      · exact hs
      · exact hs
    · exact hs
  · exact hs

theorem gradValues_scatterAll (input1 input2 : Tensor R) (calls : List (ScatterCall R))
    (grads : Tensor R × Tensor R) :
    gradValues (scatterAll input1 input2 calls grads) =
      gradValues grads + (calls.map (scatterContribution input1 input2)).sum := by
  unfold scatterAll
  induction calls generalizing grads with
  | nil => simp
  | cons call rest ih =>
    rw [List.foldl_cons, ih, gradValues_scatterCall, List.map_cons, List.sum_cons, add_assoc]

theorem sizes_scatterAll (input1 input2 : Tensor R) (calls : List (ScatterCall R))
    (grads : Tensor R × Tensor R) :
    (scatterAll input1 input2 calls grads).1.sizes = grads.1.sizes ∧
      (scatterAll input1 input2 calls grads).2.sizes = grads.2.sizes := by
  unfold scatterAll
  induction calls generalizing grads with
  | nil => exact ⟨rfl, rfl⟩
  | cons call rest ih =>
    rw [List.foldl_cons]
    obtain ⟨h1, h2⟩ := ih (scatterCall input1 input2 grads call)
    obtain ⟨k1, k2⟩ := sizes_scatterCall input1 input2 grads call
    exact ⟨h1.trans k1, h2.trans k2⟩

theorem list_sum_fst_apply (l : List ((List Int → R) × (List Int → R))) (idx : List Int) :
    l.sum.1 idx = (l.map fun m => m.1 idx).sum := by
  induction l with
  | nil => rfl
  | cons a rest ih => simp [ih]

theorem list_sum_snd_apply (l : List ((List Int → R) × (List Int → R))) (idx : List Int) :
    l.sum.2 idx = (l.map fun m => m.2 idx).sum := by
  induction l with
  | nil => rfl
  | cons a rest ih => simp [ih]

theorem gradValues_zeros (sizes1 sizes2 : List Int) :
    gradValues ((Tensor.zeros sizes1 : Tensor R), (Tensor.zeros sizes2 : Tensor R)) = 0 :=
  rfl

/-- Element of the first gradient that one invocation produces from zero-filled
buffers: the upstream scalar times the forward kernel evaluated on the unit
perturbation of `input1` at that element (the forward kernel is linear in
`input1`, so this is the derivative of the window dot product with respect to
the element). -/
theorem scatterCall_gradInput1 (input1 input2 : Tensor R) (sizes1 sizes2 : List Int)
    (call : ScatterCall R) (e : List Int) :
    (scatterCall input1 input2 (Tensor.zeros sizes1, Tensor.zeros sizes2) call).1.val e =
      call.gradOutput * correlate_patch_3D (unitTensor input1.sizes e)
        input2 0 call.kH call.kW call.kD call.dilationH call.dilationW call.dilationD
        call.u call.v call.w call.shiftU call.shiftV call.shiftW := by
  have h := congrArg (fun m => m.1 e) (gradValues_scatterCall input1 input2
    (Tensor.zeros sizes1, Tensor.zeros sizes2) call)
  rw [gradValues_zeros, zero_add] at h
  refine h.trans ?_
  have hsz : ∀ k, (unitTensor input1.sizes e : Tensor R).size k = input1.size k := fun _ => rfl
  rw [correlate_patch_3D_eq_sum, zero_add, Finset.mul_sum]
  unfold scatterContribution
  simp only [hsz, Prod.fst_sum, Finset.sum_apply, Finset.mul_sum]
  refine Finset.sum_congr rfl fun c _ => Finset.sum_congr rfl fun i _ =>
    Finset.sum_congr rfl fun j _ => Finset.sum_congr rfl fun k _ => ?_
  show (if _ then _ else _ : (List Int → R) × (List Int → R)).1 e = _
  split_ifs with hb
  · by_cases he : e = [(c : Int), call.u + i * call.dilationH, call.v + j * call.dilationW,
        call.w + k * call.dilationD]
    · subst he
      simp [unitTensor]
    · simp [unitTensor, Pi.single_apply, he, Ne.symm he]
  · simp

/-- Element of the second gradient that one invocation produces from
zero-filled buffers: the upstream scalar times the forward kernel evaluated on
the unit perturbation of `input2` at that element. -/
theorem scatterCall_gradInput2 (input1 input2 : Tensor R) (sizes1 sizes2 : List Int)
    (call : ScatterCall R) (e : List Int) :
    (scatterCall input1 input2 (Tensor.zeros sizes1, Tensor.zeros sizes2) call).2.val e =
      call.gradOutput * correlate_patch_3D input1
        (unitTensor input2.sizes e)
        0 call.kH call.kW call.kD call.dilationH call.dilationW call.dilationD
        call.u call.v call.w call.shiftU call.shiftV call.shiftW := by
  have h := congrArg (fun m => m.2 e) (gradValues_scatterCall input1 input2
    (Tensor.zeros sizes1, Tensor.zeros sizes2) call)
  rw [gradValues_zeros, zero_add] at h
  refine h.trans ?_
  rw [correlate_patch_3D_eq_sum, zero_add, Finset.mul_sum]
  unfold scatterContribution
  simp only [Prod.snd_sum, Finset.sum_apply, Finset.mul_sum]
  refine Finset.sum_congr rfl fun c _ => Finset.sum_congr rfl fun i _ =>
    Finset.sum_congr rfl fun j _ => Finset.sum_congr rfl fun k _ => ?_
  show (if _ then _ else _ : (List Int → R) × (List Int → R)).2 e = _
  split_ifs with hb
  · by_cases he : e = [(c : Int), call.u + i * call.dilationH + call.shiftU,
        call.v + j * call.dilationW + call.shiftV, call.w + k * call.dilationD + call.shiftW]
    · subst he
      simp [unitTensor]
    · simp [unitTensor, Pi.single_apply, he, Ne.symm he]
  · simp

end BackwardKernel

/-! ## The backward pass -/

section BackwardPass

variable {R : Type} [CommRing R]

/-- The backward pass returns gradient volumes with the sizes of the inputs. -/
theorem backward_sizes (cpg : BackwardKernel R) (input1 input2 gradOutput : Tensor R)
    (kH kW patchH patchW padH padW dilationH dilationW dilation_patchH dilation_patchW
      dH dW : Int) :
    (correlation_cpp_backward cpg input1 input2 gradOutput kH kW patchH patchW padH padW
        dilationH dilationW dilation_patchH dilation_patchW dH dW).1.sizes = input1.sizes ∧
      (correlation_cpp_backward cpg input1 input2 gradOutput kH kW patchH patchW padH padW
        dilationH dilationW dilation_patchH dilation_patchW dH dW).2.sizes = input2.sizes := by
  unfold correlation_cpp_backward
  simp only []
  refine forLoop_invariant
    (fun g : Tensor R × Tensor R => g.1.sizes = input1.sizes ∧ g.2.sizes = input2.sizes)
    _ _ _ ⟨rfl, rfl⟩ fun n s hs => ?_
  refine forLoop_invariant
    (fun g : Tensor R × Tensor R => g.1.sizes = input1.sizes ∧ g.2.sizes = input2.sizes)
    _ _ _ hs fun ph s hs => ?_
  refine forLoop_invariant
    (fun g : Tensor R × Tensor R => g.1.sizes = input1.sizes ∧ g.2.sizes = input2.sizes)
    _ _ _ hs fun pw s hs => ?_
  refine forLoop_invariant
    (fun g : Tensor R × Tensor R => g.1.sizes = input1.sizes ∧ g.2.sizes = input2.sizes)
    _ _ _ hs fun h s hs => ?_
  refine forLoop_invariant
    (fun g : Tensor R × Tensor R => g.1.sizes = input1.sizes ∧ g.2.sizes = input2.sizes)
    _ _ _ hs fun w s hs => ?_
  exact hs

/-- Claim C8, as amended: the backward pass makes no shape check on the upstream
gradient volume and never evaluates the output-dimension formula.  It reads its
two output loop bounds from axes 3 and 4 of the gradient volume and no other
size of it: two gradient volumes with the same elements and the same sizes on
axes 3 and 4 give the same result, whatever their shapes otherwise; and the
gradient volumes returned have the sizes of `input1` and `input2`. -/
theorem backward_no_shape_validation (cpg : BackwardKernel R)
    (input1 input2 gradOutput gradOutput2 : Tensor R)
    (kH kW patchH patchW padH padW dilationH dilationW dilation_patchH dilation_patchW
      dH dW : Int)
    (hval : gradOutput2.val = gradOutput.val)
    (h3 : gradOutput2.size 3 = gradOutput.size 3)
    (h4 : gradOutput2.size 4 = gradOutput.size 4) :
    correlation_cpp_backward cpg input1 input2 gradOutput2 kH kW patchH patchW padH padW
        dilationH dilationW dilation_patchH dilation_patchW dH dW =
      correlation_cpp_backward cpg input1 input2 gradOutput kH kW patchH patchW padH padW
        dilationH dilationW dilation_patchH dilation_patchW dH dW ∧
    (correlation_cpp_backward cpg input1 input2 gradOutput kH kW patchH patchW padH padW
        dilationH dilationW dilation_patchH dilation_patchW dH dW).1.sizes = input1.sizes ∧
    (correlation_cpp_backward cpg input1 input2 gradOutput kH kW patchH patchW padH padW
        dilationH dilationW dilation_patchH dilation_patchW dH dW).2.sizes = input2.sizes := by
  refine ⟨?_, backward_sizes cpg input1 input2 gradOutput kH kW patchH patchW padH padW
    dilationH dilationW dilation_patchH dilation_patchW dH dW⟩
  unfold correlation_cpp_backward
  simp only [h3, h4, hval]

/-- Claim C8, witness at a concrete input: all-ones gradient
volumes of shapes `[1,1,1,2,1]` and `[7,5,3,2,1]` on inputs of shape `[1,1,2,1]`. -/
theorem backward_no_shape_validation_witness :
    correlation_cpp_backward correlate_patch_grad (onesTensor [1, 1, 2, 1])
        (onesTensor [1, 1, 2, 1]) (onesTensor [7, 5, 3, 2, 1])
        1 1 1 1 0 0 1 1 1 1 1 1 =
      correlation_cpp_backward correlate_patch_grad (onesTensor [1, 1, 2, 1])
        (onesTensor [1, 1, 2, 1]) (onesTensor [1, 1, 1, 2, 1])
        1 1 1 1 0 0 1 1 1 1 1 1 ∧
    (correlation_cpp_backward correlate_patch_grad (onesTensor [1, 1, 2, 1])
        (onesTensor [1, 1, 2, 1]) (onesTensor [1, 1, 1, 2, 1])
        1 1 1 1 0 0 1 1 1 1 1 1).1.sizes = (onesTensor [1, 1, 2, 1]).sizes ∧
    (correlation_cpp_backward correlate_patch_grad (onesTensor [1, 1, 2, 1])
        (onesTensor [1, 1, 2, 1]) (onesTensor [1, 1, 1, 2, 1])
        1 1 1 1 0 0 1 1 1 1 1 1).2.sizes = (onesTensor [1, 1, 2, 1]).sizes :=
  backward_no_shape_validation correlate_patch_grad (onesTensor [1, 1, 2, 1])
    (onesTensor [1, 1, 2, 1]) (onesTensor [1, 1, 1, 2, 1]) (onesTensor [7, 5, 3, 2, 1])
    1 1 1 1 0 0 1 1 1 1 1 1 rfl rfl rfl

/-- Claim C8, counterexample: all-ones inputs of shape `[1,1,2,1]` (batch 1, one
channel, H 2, W 1) and unit geometry.  The geometry formula gives the output
extent `2` on the H axis, so the cost volume has shape `[1,1,1,2,1]`.  The
backward pass given an upstream gradient volume of shape `[1,1,1,1,1]`, whose H
axis has extent `1`, is not rejected: it takes the loop bound `1` from the
gradient volume, runs the scatter and returns the buffers with element
`[0,0,0,0]` raised from `0` to `1` and element `[0,0,1,0]` left at `0`; given a
gradient volume of shape `[1,1,1,3,1]` it is not rejected either and returns
the buffers with both elements raised to `1`. -/
theorem backward_accepts_mismatched_gradOutput :
    truncOutDim ((onesTensor [1, 1, 2, 1]).size 2) 0 1 1 1 = 2 ∧
    truncOutDim ((onesTensor [1, 1, 2, 1]).size 3) 0 1 1 1 = 1 ∧
    (onesTensor [1, 1, 1, 1, 1]).sizes ≠ [1, 1, 1, 2, 1] ∧
    (correlation_cpp_backward correlate_patch_grad (onesTensor [1, 1, 2, 1])
        (onesTensor [1, 1, 2, 1]) (onesTensor [1, 1, 1, 1, 1])
        1 1 1 1 0 0 1 1 1 1 1 1).1.val [0, 0, 0, 0] = 1 ∧
    (correlation_cpp_backward correlate_patch_grad (onesTensor [1, 1, 2, 1])
        (onesTensor [1, 1, 2, 1]) (onesTensor [1, 1, 1, 1, 1])
        1 1 1 1 0 0 1 1 1 1 1 1).1.val [0, 0, 1, 0] = 0 ∧
    (correlation_cpp_backward correlate_patch_grad (onesTensor [1, 1, 2, 1])
        (onesTensor [1, 1, 2, 1]) (onesTensor [1, 1, 1, 1, 1])
        1 1 1 1 0 0 1 1 1 1 1 1).2.val [0, 0, 0, 0] = 1 ∧
    (onesTensor [1, 1, 1, 3, 1]).sizes ≠ [1, 1, 1, 2, 1] ∧
    (correlation_cpp_backward correlate_patch_grad (onesTensor [1, 1, 2, 1])
        (onesTensor [1, 1, 2, 1]) (onesTensor [1, 1, 1, 3, 1])
        1 1 1 1 0 0 1 1 1 1 1 1).1.val [0, 0, 0, 0] = 1 ∧
    (correlation_cpp_backward correlate_patch_grad (onesTensor [1, 1, 2, 1])
        (onesTensor [1, 1, 2, 1]) (onesTensor [1, 1, 1, 3, 1])
        1 1 1 1 0 0 1 1 1 1 1 1).1.val [0, 0, 1, 0] = 1 := by
  decide

end BackwardPass

/-! ## Geometry of patches and windows -/

section Geometry

/-- Claim C15 (displacement shifts are centred on zero): for every patch size of
at least one the patch index `patchRadius` lies in `[0, patchSize)` and has
shift `0`; for every odd patch size the shifts of `p` and `patchSize - 1 - p`
are opposite, every shift is `k * patchDilation` for some `k` in
`[-patchRadius, patchRadius]`, and every such multiple is the shift of some
patch index: the search range is `[-patchRadius*patchDilation,
patchRadius*patchDilation]` in steps of `patchDilation`. -/
theorem patchShift_centred (patchSize patchDilation : Int) (hpos : 1 ≤ patchSize) :
    (0 ≤ patchRadius patchSize ∧ patchRadius patchSize < patchSize) ∧
    patchShift patchSize patchDilation (patchRadius patchSize) = 0 ∧
    (patchSize % 2 = 1 →
      (∀ p : Int, 0 ≤ p → p < patchSize →
        patchShift patchSize patchDilation (patchSize - 1 - p) =
          -patchShift patchSize patchDilation p) ∧
      (∀ p : Int, 0 ≤ p → p < patchSize →
        ∃ k : Int, -patchRadius patchSize ≤ k ∧ k ≤ patchRadius patchSize ∧
          patchShift patchSize patchDilation p = k * patchDilation) ∧
      (∀ k : Int, -patchRadius patchSize ≤ k → k ≤ patchRadius patchSize →
        ∃ p : Int, 0 ≤ p ∧ p < patchSize ∧
          patchShift patchSize patchDilation p = k * patchDilation)) := by
  have hrad : patchRadius patchSize = (patchSize - 1) / 2 := by
    unfold patchRadius
    exact Int.tdiv_eq_ediv (by omega) (by omega)
  refine ⟨⟨by omega, by omega⟩, by simp [patchShift], fun hodd => ⟨?_, ?_, ?_⟩⟩
  · intro p _ _
    unfold patchShift
    have h : patchSize - 1 - p - patchRadius patchSize = -(p - patchRadius patchSize) := by
      omega
    rw [h, neg_mul]
  · intro p hp0 hp
    exact ⟨p - patchRadius patchSize, by omega, by omega, rfl⟩
  · intro k hk0 hk
    refine ⟨k + patchRadius patchSize, by omega, by omega, ?_⟩
    unfold patchShift
    rw [add_sub_cancel_right]

/-- For an even patch size the shifts are not symmetric: they are the multiples
`k * patchDilation` with `k` in `[-patchRadius, patchRadius + 1]`. -/
theorem patchShift_even_range (patchSize patchDilation : Int) (hpos : 1 ≤ patchSize)
    (heven : patchSize % 2 = 0) :
    (∀ p : Int, 0 ≤ p → p < patchSize →
      ∃ k : Int, -patchRadius patchSize ≤ k ∧ k ≤ patchRadius patchSize + 1 ∧
        patchShift patchSize patchDilation p = k * patchDilation) ∧
    (∀ k : Int, -patchRadius patchSize ≤ k → k ≤ patchRadius patchSize + 1 →
      ∃ p : Int, 0 ≤ p ∧ p < patchSize ∧
        patchShift patchSize patchDilation p = k * patchDilation) := by
  have hrad : patchRadius patchSize = (patchSize - 1) / 2 := by
    unfold patchRadius
    exact Int.tdiv_eq_ediv (by omega) (by omega)
  refine ⟨fun p hp0 hp => ⟨p - patchRadius patchSize, by omega, by omega, rfl⟩,
    fun k hk0 hk => ⟨k + patchRadius patchSize, by omega, by omega, ?_⟩⟩
  unfold patchShift
  rw [add_sub_cancel_right]

/-- Claim C15, witness at a concrete input: patch size 5, patch dilation 3;
the radius is 2 and the five shifts are `-6, -3, 0, 3, 6`. -/
theorem patchShift_centred_witness :
    ((0 ≤ patchRadius 5 ∧ patchRadius 5 < 5) ∧
      patchShift 5 3 (patchRadius 5) = 0 ∧
      ((5 : Int) % 2 = 1 →
        (∀ p : Int, 0 ≤ p → p < 5 → patchShift 5 3 (5 - 1 - p) = -patchShift 5 3 p) ∧
        (∀ p : Int, 0 ≤ p → p < 5 →
          ∃ k : Int, -patchRadius 5 ≤ k ∧ k ≤ patchRadius 5 ∧ patchShift 5 3 p = k * 3) ∧
        (∀ k : Int, -patchRadius 5 ≤ k → k ≤ patchRadius 5 →
          ∃ p : Int, 0 ≤ p ∧ p < 5 ∧ patchShift 5 3 p = k * 3))) ∧
    (List.range 5).map (fun (p : Nat) => patchShift 5 3 p) = [-6, -3, 0, 3, 6] :=
  ⟨patchShift_centred 5 3 (by decide), by decide⟩

/-- Claim C16 (every sliding window stays inside the padded volume): on an axis
with stride, dilation and kernel size at least one, non-negative padding and a
dilated kernel that fits in the padded input, for every output index `h` in
`[0, outDim)` and kernel offset `i` in `[0, kernel)` the input-1 coordinate
`-pad + h*stride + i*dilation` lies in `[-pad, inDim + pad)`; with `pad = 0` the
input-1 half of the bounds test always holds and the test is decided by the
shifted coordinate alone. -/
theorem window_inside_padded (inDim pad kernel dilation stride h i : Int)
    (hstride : 1 ≤ stride) (hdil : 1 ≤ dilation) (hker : 1 ≤ kernel) (hpad : 0 ≤ pad)
    (hfit : (kernel - 1) * dilation + 1 ≤ inDim + 2 * pad)
    (hh0 : 0 ≤ h) (hh : h < truncOutDim inDim pad kernel dilation stride)
    (hi0 : 0 ≤ i) (hi : i < kernel) :
    (-pad ≤ windowCoord pad stride dilation h i ∧
      windowCoord pad stride dilation h i < inDim + pad) ∧
    (pad = 0 → ∀ shift : Int,
      WITHIN_BOUNDS (windowCoord pad stride dilation h i)
          (windowCoord pad stride dilation h i + shift) inDim inDim =
        decide (0 ≤ windowCoord pad stride dilation h i + shift ∧
          windowCoord pad stride dilation h i + shift < inDim)) := by
  have hnum : 0 ≤ inDim + 2 * pad - ((kernel - 1) * dilation + 1) := by omega
  have hq : h ≤ (inDim + 2 * pad - ((kernel - 1) * dilation + 1)) / stride := by
    unfold truncOutDim at hh
    rw [Int.tdiv_eq_ediv hnum (by omega)] at hh
    omega
  have hhs : h * stride ≤ inDim + 2 * pad - ((kernel - 1) * dilation + 1) :=
    le_trans (mul_le_mul_of_nonneg_right hq (by omega))
      (Int.ediv_mul_le _ (by omega))
  have hid : i * dilation ≤ (kernel - 1) * dilation :=
    mul_le_mul_of_nonneg_right (by omega) (by omega)
  have hhs0 : 0 ≤ h * stride := mul_nonneg hh0 (by omega)
  have hid0 : 0 ≤ i * dilation := mul_nonneg hi0 (by omega)
  have hin : -pad ≤ windowCoord pad stride dilation h i ∧
      windowCoord pad stride dilation h i < inDim + pad := by
    unfold windowCoord
    constructor <;> omega
  refine ⟨hin, fun hp0 shift => ?_⟩
  subst hp0
  obtain ⟨h1, h2⟩ := hin
  simp only [neg_zero, add_zero] at h1 h2
  unfold WITHIN_BOUNDS
  simp [h1, h2]

/-- Claim C16, witness at a concrete input: input extent 7, padding 1, kernel
3, dilation 2, stride 2 (output extent 3), output index 2, kernel offset 2: the
coordinate is `7`, the last one of the padded range `[-1, 8)`. -/
theorem window_inside_padded_witness :
    ((-1 ≤ windowCoord 1 2 2 2 2 ∧ windowCoord 1 2 2 2 2 < 7 + 1) ∧
      ((1 : Int) = 0 → ∀ shift : Int,
        WITHIN_BOUNDS (windowCoord 1 2 2 2 2) (windowCoord 1 2 2 2 2 + shift) 7 7 =
          decide (0 ≤ windowCoord 1 2 2 2 2 + shift ∧ windowCoord 1 2 2 2 2 + shift < 7))) ∧
    truncOutDim 7 1 3 2 2 = 3 ∧ windowCoord 1 2 2 2 2 = 7 :=
  ⟨window_inside_padded 7 1 3 2 2 2 2 (by decide) (by decide) (by decide) (by decide)
      (by decide) (by decide) (by decide) (by decide) (by decide), by decide, by decide⟩

end Geometry

/-- The forward pass hands the kernel the base `-pad + out * stride` and the
shift `patchShift`, and allocates the extents `truncOutDim`: the definition of
the forward pass with the named geometry functions put in. -/
theorem forward_3D_geometry {R : Type} [Zero R] (cp : ForwardKernel R) (input1 input2 : Tensor R)
    (kH kW kD patchH patchW patchD padH padW padD dilationH dilationW dilationD
      dilation_patchH dilation_patchW dilation_patchD dH dW dD : Int) :
    correlation_cpp_forward_3D cp input1 input2 kH kW kD patchH patchW patchD padH padW padD
        dilationH dilationW dilationD dilation_patchH dilation_patchW dilation_patchD
        dH dW dD =
      if dH = 0 ∨ dW = 0 ∨ dD = 0 then none
      else some <|
        forLoop (input1.size 0)
          (Tensor.zeros [input1.size 0, patchH, patchW, patchD,
            truncOutDim (input1.size 2) padH kH dilationH dH,
            truncOutDim (input1.size 3) padW kW dilationW dW,
            truncOutDim (input1.size 4) padD kD dilationD dD]) fun n output =>
          forLoop patchH output fun ph output =>
            forLoop patchW output fun pw output =>
              forLoop patchD output fun pd output =>
                forLoop (truncOutDim (input1.size 2) padH kH dilationH dH) output
                  fun h output =>
                  forLoop (truncOutDim (input1.size 3) padW kW dilationW dW) output
                    fun w output =>
                    output.set [n, ph, pw, h, w]
                      (cp (input1.sub n) (input2.sub n) (output.val [n, ph, pw, h, w])
                        kH kW dilationH dilationW
                        (windowCoord padH dH dilationH h 0)
                        (windowCoord padW dW dilationW w 0)
                        (patchShift patchH dilation_patchH ph)
                        (patchShift patchW dilation_patchW pw)) := by
  unfold correlation_cpp_forward_3D windowCoord patchShift patchRadius truncOutDim
  simp only [zero_mul, add_zero]

/-- The iteration of the backward pass hands the kernel the same base and shift:
its definition with the named geometry functions put in. -/
theorem backward_iteration_geometry {R : Type} (cpg : BackwardKernel R)
    (input1 input2 gradOutput : Tensor R)
    (kH kW patchH patchW padH padW dilationH dilationW dilation_patchH dilation_patchW
      dH dW : Int) (n : Int) (grads : Tensor R × Tensor R) :
    backward_iteration cpg input1 input2 gradOutput kH kW patchH patchW padH padW
        dilationH dilationW dilation_patchH dilation_patchW dH dW n grads =
      forLoop patchH grads fun ph grads =>
        forLoop patchW grads fun pw grads =>
          forLoop (gradOutput.size 3) grads fun h grads =>
            forLoop (gradOutput.size 4) grads fun w grads =>
              ((grads.1.setSub n (cpg (input1.sub n) (grads.1.sub n) (input2.sub n)
                  (grads.2.sub n) (gradOutput.val [n, ph, pw, h, w]) kH kW dilationH dilationW
                  (windowCoord padH dH dilationH h 0) (windowCoord padW dW dilationW w 0)
                  (patchShift patchH dilation_patchH ph)
                  (patchShift patchW dilation_patchW pw)).1),
                (grads.2.setSub n (cpg (input1.sub n) (grads.1.sub n) (input2.sub n)
                  (grads.2.sub n) (gradOutput.val [n, ph, pw, h, w]) kH kW dilationH dilationW
                  (windowCoord padH dH dilationH h 0) (windowCoord padW dW dilationW w 0)
                  (patchShift patchH dilation_patchH ph)
                  (patchShift patchW dilation_patchW pw)).2)) := by
  unfold backward_iteration windowCoord patchShift patchRadius
  simp only [zero_mul, add_zero]

/-! ## Symmetry of the forward kernel -/

section Symmetry

variable {R : Type} [CommRing R]

theorem WITHIN_BOUNDS_swap (x y H : Int) : WITHIN_BOUNDS x y H H = WITHIN_BOUNDS y x H H := by
  rw [Bool.eq_iff_iff, WITHIN_BOUNDS_iff, WITHIN_BOUNDS_iff]
  tauto

/-- Claim C17 (swap symmetry of the forward kernel): for volumes `A`, `B` of
equal shape and every kernel size, dilation, base `b` and shift `s`,
`correlate_patch_3D(A, B, base b, shift s)` leaves in the cell the same value as
`correlate_patch_3D(B, A, base b+s, shift -s)`; with `s = 0` the kernel is
commutative in its two inputs. -/
theorem correlate_patch_3D_swap (A B : Tensor R) (d0 : R)
    (kH kW kD dilationH dilationW dilationD u v w shiftU shiftV shiftW : Int)
    (hshape : B.sizes = A.sizes) :
    correlate_patch_3D A B d0 kH kW kD dilationH dilationW dilationD u v w
        shiftU shiftV shiftW =
      correlate_patch_3D B A d0 kH kW kD dilationH dilationW dilationD
        (u + shiftU) (v + shiftV) (w + shiftW) (-shiftU) (-shiftV) (-shiftW) ∧
    correlate_patch_3D A B d0 kH kW kD dilationH dilationW dilationD u v w 0 0 0 =
      correlate_patch_3D B A d0 kH kW kD dilationH dilationW dilationD u v w 0 0 0 := by
  have key : ∀ sU sV sW : Int,
      correlate_patch_3D A B d0 kH kW kD dilationH dilationW dilationD u v w sU sV sW =
        correlate_patch_3D B A d0 kH kW kD dilationH dilationW dilationD
          (u + sU) (v + sV) (w + sW) (-sU) (-sV) (-sW) := by
    intro sU sV sW
    rw [correlate_patch_3D_eq_sum, correlate_patch_3D_eq_sum]
    simp only [size_eq_of_sizes_eq A B hshape]
    congr 1
    refine Finset.sum_congr rfl fun c _ => Finset.sum_congr rfl fun i _ =>
      Finset.sum_congr rfl fun j _ => Finset.sum_congr rfl fun k _ => ?_
    have eU : u + sU + i * dilationH = u + i * dilationH + sU := by ring
    have eV : v + sV + j * dilationW = v + j * dilationW + sV := by ring
    have eW : w + sW + k * dilationD = w + k * dilationD + sW := by ring
    rw [eU, eV, eW]
    simp only [add_neg_cancel_right]
    rw [WITHIN_BOUNDS_swap (u + i * dilationH), WITHIN_BOUNDS_swap (v + j * dilationW),
      WITHIN_BOUNDS_swap (w + k * dilationD)]
    exact if_congr Iff.rfl (mul_comm _ _) rfl
  refine ⟨key shiftU shiftV shiftW, ?_⟩
  have h0 := key 0 0 0
  simpa using h0

/-- Claim C17, witness at a concrete input: the sample volumes, a `2x2x2`
kernel at base `(0,0,0)` with shift `(1,0,-1)` against the swapped call at base
`(1,0,-1)` with shift `(-1,0,1)`; both accumulate `11286` onto the entry
value `5`. -/
theorem correlate_patch_3D_swap_witness :
    (correlate_patch_3D volA volB 5 2 2 2 1 1 1 0 0 0 1 0 (-1) =
        correlate_patch_3D volB volA 5 2 2 2 1 1 1 (0 + 1) (0 + 0) (0 + -1) (-1) (-0) (- -1) ∧
      correlate_patch_3D volA volB 5 2 2 2 1 1 1 0 0 0 0 0 0 =
        correlate_patch_3D volB volA 5 2 2 2 1 1 1 0 0 0 0 0 0) ∧
    correlate_patch_3D volB volA 5 2 2 2 1 1 1 1 0 (-1) (-1) 0 1 = 11291 :=
  ⟨correlate_patch_3D_swap volA volB 5 2 2 2 1 1 1 0 0 0 1 0 (-1) rfl, by decide⟩

end Symmetry

/-! ## The backward kernel against its reference sums -/

section BackwardReference

variable {R : Type} [CommRing R]

/-- What one invocation adds to an element of the first gradient. -/
theorem scatterContribution_fst (input1 input2 : Tensor R) (call : ScatterCall R)
    (idx : List Int) :
    (scatterContribution input1 input2 call).1 idx =
      ∑ c ∈ Finset.range (input1.size 0).toNat,
        ∑ i ∈ Finset.range call.kH.toNat,
          ∑ j ∈ Finset.range call.kW.toNat,
            ∑ k ∈ Finset.range call.kD.toNat,
              if ((WITHIN_BOUNDS (call.u + i * call.dilationH)
                      (call.u + i * call.dilationH + call.shiftU)
                      (input1.size 1) (input1.size 1) = true ∧
                    WITHIN_BOUNDS (call.v + j * call.dilationW)
                      (call.v + j * call.dilationW + call.shiftV)
                      (input1.size 2) (input1.size 2) = true) ∧
                    WITHIN_BOUNDS (call.w + k * call.dilationD)
                      (call.w + k * call.dilationD + call.shiftW)
                      (input1.size 3) (input1.size 3) = true) ∧
                  idx = [(c : Int), call.u + i * call.dilationH, call.v + j * call.dilationW,
                    call.w + k * call.dilationD]
              then call.gradOutput *
                input2.val [(c : Int), call.u + i * call.dilationH + call.shiftU,
                  call.v + j * call.dilationW + call.shiftV,
                  call.w + k * call.dilationD + call.shiftW]
              else 0 := by
  unfold scatterContribution
  simp only [Prod.fst_sum, Finset.sum_apply]
  refine Finset.sum_congr rfl fun c _ => Finset.sum_congr rfl fun i _ =>
    Finset.sum_congr rfl fun j _ => Finset.sum_congr rfl fun k _ => ?_
  show (if _ then _ else _ : (List Int → R) × (List Int → R)).1 idx = _
  by_cases hb : (WITHIN_BOUNDS (call.u + i * call.dilationH)
      (call.u + i * call.dilationH + call.shiftU) (input1.size 1) (input1.size 1) = true ∧
      WITHIN_BOUNDS (call.v + j * call.dilationW)
        (call.v + j * call.dilationW + call.shiftV) (input1.size 2) (input1.size 2) = true) ∧
      WITHIN_BOUNDS (call.w + k * call.dilationD)
        (call.w + k * call.dilationD + call.shiftW) (input1.size 3) (input1.size 3) = true
  · rw [if_pos hb]
    by_cases he : idx = [(c : Int), call.u + i * call.dilationH, call.v + j * call.dilationW,
        call.w + k * call.dilationD]
    · rw [if_pos ⟨hb, he⟩, he]
      simp
    · rw [if_neg (fun h => he h.2)]
      simp [Pi.single_apply, he]
  · rw [if_neg hb, if_neg (fun h => hb h.1)]
    rfl

/-- What one invocation adds to an element of the second gradient. -/
theorem scatterContribution_snd (input1 input2 : Tensor R) (call : ScatterCall R)
    (idx : List Int) :
    (scatterContribution input1 input2 call).2 idx =
      ∑ c ∈ Finset.range (input1.size 0).toNat,
        ∑ i ∈ Finset.range call.kH.toNat,
          ∑ j ∈ Finset.range call.kW.toNat,
            ∑ k ∈ Finset.range call.kD.toNat,
              if ((WITHIN_BOUNDS (call.u + i * call.dilationH)
                      (call.u + i * call.dilationH + call.shiftU)
                      (input1.size 1) (input1.size 1) = true ∧
                    WITHIN_BOUNDS (call.v + j * call.dilationW)
                      (call.v + j * call.dilationW + call.shiftV)
                      (input1.size 2) (input1.size 2) = true) ∧
                    WITHIN_BOUNDS (call.w + k * call.dilationD)
                      (call.w + k * call.dilationD + call.shiftW)
                      (input1.size 3) (input1.size 3) = true) ∧
                  idx = [(c : Int), call.u + i * call.dilationH + call.shiftU,
                    call.v + j * call.dilationW + call.shiftV,
                    call.w + k * call.dilationD + call.shiftW]
              then call.gradOutput *
                input1.val [(c : Int), call.u + i * call.dilationH,
                  call.v + j * call.dilationW, call.w + k * call.dilationD]
              else 0 := by
  unfold scatterContribution
  simp only [Prod.snd_sum, Finset.sum_apply]
  refine Finset.sum_congr rfl fun c _ => Finset.sum_congr rfl fun i _ =>
    Finset.sum_congr rfl fun j _ => Finset.sum_congr rfl fun k _ => ?_
  show (if _ then _ else _ : (List Int → R) × (List Int → R)).2 idx = _
  by_cases hb : (WITHIN_BOUNDS (call.u + i * call.dilationH)
      (call.u + i * call.dilationH + call.shiftU) (input1.size 1) (input1.size 1) = true ∧
      WITHIN_BOUNDS (call.v + j * call.dilationW)
        (call.v + j * call.dilationW + call.shiftV) (input1.size 2) (input1.size 2) = true) ∧
      WITHIN_BOUNDS (call.w + k * call.dilationD)
        (call.w + k * call.dilationD + call.shiftW) (input1.size 3) (input1.size 3) = true
  · rw [if_pos hb]
    by_cases he : idx = [(c : Int), call.u + i * call.dilationH + call.shiftU,
        call.v + j * call.dilationW + call.shiftV, call.w + k * call.dilationD + call.shiftW]
    · rw [if_pos ⟨hb, he⟩, he]
      simp
    · rw [if_neg (fun h => he h.2)]
      simp [Pi.single_apply, he]
  · rw [if_neg hb, if_neg (fun h => hb h.1)]
    rfl

end BackwardReference

/-- The three bounds tests of the kernels, for volumes of equal shape, say that
`p1` and `p2` are inside their volumes. -/
theorem within_bounds_iff_inVolume {R : Type} (input1 input2 : Tensor R)
    (hshape : input2.sizes = input1.sizes) (x y z sx sy sz : Int) :
    ((WITHIN_BOUNDS x (x + sx) (input1.size 1) (input1.size 1) = true ∧
        WITHIN_BOUNDS y (y + sy) (input1.size 2) (input1.size 2) = true) ∧
        WITHIN_BOUNDS z (z + sz) (input1.size 3) (input1.size 3) = true) ↔
      (inVolume input1 x y z ∧ inVolume input2 (x + sx) (y + sy) (z + sz)) := by
  unfold inVolume
  simp only [size_eq_of_sizes_eq input1 input2 hshape, WITHIN_BOUNDS_iff]
  tauto

section BackwardReferenceClaim

variable {R : Type} [CommRing R]

theorem gradValues_kernel (input1 input2 G1 G2 : Tensor R) (g : R)
    (kH kW kD dilationH dilationW dilationD u v w shiftU shiftV shiftW : Int) :
    gradValues (correlate_patch_grad_3D input1 G1 input2 G2 g kH kW kD
        dilationH dilationW dilationD u v w shiftU shiftV shiftW) =
      gradValues (G1, G2) + scatterContribution input1 input2
        { gradOutput := g, kH := kH, kW := kW, kD := kD, dilationH := dilationH,
          dilationW := dilationW, dilationD := dilationD, u := u, v := v, w := w,
          shiftU := shiftU, shiftV := shiftV, shiftW := shiftW } :=
  gradValues_scatterCall input1 input2 (G1, G2)
    { gradOutput := g, kH := kH, kW := kW, kD := kD, dilationH := dilationH,
      dilationW := dilationW, dilationD := dilationD, u := u, v := v, w := w,
      shiftU := shiftU, shiftV := shiftV, shiftW := shiftW }

/-- Claim C11 (backward kernel reference definition): for volumes of equal
shape, any initial gradient buffers `G1`, `G2`, upstream scalar `g`, kernel
size, dilation, base and shift, after `correlate_patch_grad_3D` every element
`[c,q]` of the first gradient with `c < C` holds `G1[c,q]` plus `g` times the
sum of `input2[c,p2]` over the kernel offsets whose `p1` is `q` with `p1`, `p2`
both in bounds, every such element of the second gradient holds `G2[c,q]` plus
`g` times the sum of `input1[c,p1]` over the offsets whose `p2` is `q`; an
element that no valid pair hits keeps its value, and the buffers keep their
sizes.  The inputs are arguments of the kernel and are not part of what it
returns. -/
theorem correlate_patch_grad_3D_reference (input1 input2 G1 G2 : Tensor R) (g : R)
    (kH kW kD dilationH dilationW dilationD u v w shiftU shiftV shiftW : Int)
    (hshape : input2.sizes = input1.sizes) :
    (∀ (c : Nat) (x y z : Int), (c : Int) < input1.size 0 →
      (correlate_patch_grad_3D input1 G1 input2 G2 g kH kW kD dilationH dilationW dilationD
          u v w shiftU shiftV shiftW).1.val [(c : Int), x, y, z] =
        G1.val [(c : Int), x, y, z] +
          g * gradInput1Sum input1 input2 kH kW kD dilationH dilationW dilationD
            u v w shiftU shiftV shiftW c x y z) ∧
    (∀ (c : Nat) (x y z : Int), (c : Int) < input1.size 0 →
      (correlate_patch_grad_3D input1 G1 input2 G2 g kH kW kD dilationH dilationW dilationD
          u v w shiftU shiftV shiftW).2.val [(c : Int), x, y, z] =
        G2.val [(c : Int), x, y, z] +
          g * gradInput2Sum input1 input2 kH kW kD dilationH dilationW dilationD
            u v w shiftU shiftV shiftW c x y z) ∧
    (∀ idx : List Int,
      (∀ c i j k : Nat, validPair input1 input2 kH kW kD dilationH dilationW dilationD
          u v w shiftU shiftV shiftW c i j k →
        idx ≠ [(c : Int), u + i * dilationH, v + j * dilationW, w + k * dilationD]) →
      (correlate_patch_grad_3D input1 G1 input2 G2 g kH kW kD dilationH dilationW dilationD
          u v w shiftU shiftV shiftW).1.val idx = G1.val idx) ∧
    (∀ idx : List Int,
      (∀ c i j k : Nat, validPair input1 input2 kH kW kD dilationH dilationW dilationD
          u v w shiftU shiftV shiftW c i j k →
        idx ≠ [(c : Int), u + i * dilationH + shiftU, v + j * dilationW + shiftV,
          w + k * dilationD + shiftW]) →
      (correlate_patch_grad_3D input1 G1 input2 G2 g kH kW kD dilationH dilationW dilationD
          u v w shiftU shiftV shiftW).2.val idx = G2.val idx) ∧
    (correlate_patch_grad_3D input1 G1 input2 G2 g kH kW kD dilationH dilationW dilationD
        u v w shiftU shiftV shiftW).1.sizes = G1.sizes ∧
    (correlate_patch_grad_3D input1 G1 input2 G2 g kH kW kD dilationH dilationW dilationD
        u v w shiftU shiftV shiftW).2.sizes = G2.sizes := by
  have hv := gradValues_kernel input1 input2 G1 G2 g kH kW kD dilationH dilationW dilationD
    u v w shiftU shiftV shiftW
  have hv1 : ∀ idx, (correlate_patch_grad_3D input1 G1 input2 G2 g kH kW kD dilationH
      dilationW dilationD u v w shiftU shiftV shiftW).1.val idx = G1.val idx + _ :=
    fun idx => congrArg (fun m => m.1 idx) hv
  have hv2 : ∀ idx, (correlate_patch_grad_3D input1 G1 input2 G2 g kH kW kD dilationH
      dilationW dilationD u v w shiftU shiftV shiftW).2.val idx = G2.val idx + _ :=
    fun idx => congrArg (fun m => m.2 idx) hv
  have hsz := sizes_scatterCall input1 input2 (G1, G2)
    { gradOutput := g, kH := kH, kW := kW, kD := kD, dilationH := dilationH,
      dilationW := dilationW, dilationD := dilationD, u := u, v := v, w := w,
      shiftU := shiftU, shiftV := shiftV, shiftW := shiftW }
  refine ⟨?_, ?_, ?_, ?_, hsz.1, hsz.2⟩
  · intro c x y z hc
    rw [hv1, scatterContribution_fst]
    congr 1
    rw [Finset.sum_eq_single c]
    · unfold gradInput1Sum
      simp only [Finset.mul_sum]
      refine Finset.sum_congr rfl fun i _ => Finset.sum_congr rfl fun j _ =>
        Finset.sum_congr rfl fun k _ => ?_
      rw [mul_ite, mul_zero]
      refine if_congr ?_ rfl rfl
      rw [within_bounds_iff_inVolume input1 input2 hshape]
      simp only [List.cons.injEq, true_and, and_true]
      constructor
      · rintro ⟨hb, hx, hy, hz⟩
        exact ⟨⟨hx.symm, hy.symm, hz.symm⟩, hb⟩
      · rintro ⟨⟨hx, hy, hz⟩, hb⟩
        exact ⟨hb, hx.symm, hy.symm, hz.symm⟩
    · intro c2 _ hne
      refine Finset.sum_eq_zero fun i _ => Finset.sum_eq_zero fun j _ =>
        Finset.sum_eq_zero fun k _ => if_neg fun h => hne ?_
      have := h.2
      simp only [List.cons.injEq, Nat.cast_inj] at this
      exact this.1.symm
    · intro hnot
      exact absurd (Finset.mem_range.mpr (by omega)) hnot
  · intro c x y z hc
    rw [hv2, scatterContribution_snd]
    congr 1
    rw [Finset.sum_eq_single c]
    · unfold gradInput2Sum
      simp only [Finset.mul_sum]
      refine Finset.sum_congr rfl fun i _ => Finset.sum_congr rfl fun j _ =>
        Finset.sum_congr rfl fun k _ => ?_
      rw [mul_ite, mul_zero]
      refine if_congr ?_ rfl rfl
      rw [within_bounds_iff_inVolume input1 input2 hshape]
      simp only [List.cons.injEq, true_and, and_true]
      constructor
      · rintro ⟨hb, hx, hy, hz⟩
        exact ⟨⟨hx.symm, hy.symm, hz.symm⟩, hb⟩
      · rintro ⟨⟨hx, hy, hz⟩, hb⟩
        exact ⟨hb, hx.symm, hy.symm, hz.symm⟩
    · intro c2 _ hne
      refine Finset.sum_eq_zero fun i _ => Finset.sum_eq_zero fun j _ =>
        Finset.sum_eq_zero fun k _ => if_neg fun h => hne ?_
      have := h.2
      simp only [List.cons.injEq, Nat.cast_inj] at this
      exact this.1.symm
    · intro hnot
      exact absurd (Finset.mem_range.mpr (by omega)) hnot
  · intro idx hmiss
    rw [hv1, scatterContribution_fst]
    rw [Finset.sum_eq_zero, add_zero]
    intro c hc
    refine Finset.sum_eq_zero fun i hi => Finset.sum_eq_zero fun j hj =>
      Finset.sum_eq_zero fun k hk => if_neg fun h => ?_
    simp only [Finset.mem_range] at hc hi hj hk
    refine hmiss c i j k ⟨⟨by omega, by omega, by omega, by omega⟩, ?_⟩ h.2
    exact (within_bounds_iff_inVolume input1 input2 hshape _ _ _ _ _ _).mp h.1
  · intro idx hmiss
    rw [hv2, scatterContribution_snd]
    rw [Finset.sum_eq_zero, add_zero]
    intro c hc
    refine Finset.sum_eq_zero fun i hi => Finset.sum_eq_zero fun j hj =>
      Finset.sum_eq_zero fun k hk => if_neg fun h => ?_
    simp only [Finset.mem_range] at hc hi hj hk
    refine hmiss c i j k ⟨⟨by omega, by omega, by omega, by omega⟩, ?_⟩ h.2
    exact (within_bounds_iff_inVolume input1 input2 hshape _ _ _ _ _ _).mp h.1

/-- Claim C11, witness at a concrete input: the sample volumes as inputs and
(swapped) as initial buffers, upstream scalar `3`, a `2x2x2` kernel at base
`(0,0,0)` with shift `(1,0,-1)`.  Element `[1,0,1,1]` of the first gradient
goes from `130` to `130 + 3 * 122 = 496`, element `[1,1,1,0]` of the second
from `29` to `29 + 3 * 26 = 107`. -/
theorem correlate_patch_grad_3D_reference_witness :
    ((correlate_patch_grad_3D volA volB volB volA 3 2 2 2 1 1 1 0 0 0 1 0 (-1)).1.val
        [((1 : Nat) : Int), 0, 1, 1] =
      volB.val [((1 : Nat) : Int), 0, 1, 1] +
        3 * gradInput1Sum volA volB 2 2 2 1 1 1 0 0 0 1 0 (-1) (1 : Nat) 0 1 1) ∧
    ((correlate_patch_grad_3D volA volB volB volA 3 2 2 2 1 1 1 0 0 0 1 0 (-1)).2.val
        [((1 : Nat) : Int), 1, 1, 0] =
      volA.val [((1 : Nat) : Int), 1, 1, 0] +
        3 * gradInput2Sum volA volB 2 2 2 1 1 1 0 0 0 1 0 (-1) (1 : Nat) 1 1 0) ∧
    (correlate_patch_grad_3D volA volB volB volA 3 2 2 2 1 1 1 0 0 0 1 0 (-1)).1.val
        [1, 0, 1, 1] = 496 ∧
    (correlate_patch_grad_3D volA volB volB volA 3 2 2 2 1 1 1 0 0 0 1 0 (-1)).2.val
        [1, 1, 1, 0] = 107 ∧
    volB.val [1, 0, 1, 1] = 130 ∧ volA.val [1, 1, 1, 0] = 29 :=
  ⟨(correlate_patch_grad_3D_reference volA volB volB volA 3 2 2 2 1 1 1 0 0 0 1 0 (-1)
      rfl).1 1 0 1 1 (by decide),
    (correlate_patch_grad_3D_reference volA volB volB volA 3 2 2 2 1 1 1 0 0 0 1 0 (-1)
      rfl).2.1 1 1 1 0 (by decide),
    by decide, by decide, by decide, by decide⟩

end BackwardReferenceClaim

/-! ## Two loops in step -/

/-- Two loops with the same bound whose bodies preserve a relation between
their states end in related states. -/
theorem forLoop_rel {σ τ : Type} (Rel : σ → τ → Prop) (bound : Int) (s0 : σ) (t0 : τ)
    (f : Int → σ → σ) (g : Int → τ → τ) (h0 : Rel s0 t0)
    (hstep : ∀ (x : Nat) (s : σ) (t : τ), (x : Int) < bound → Rel s t →
      Rel (f (x : Int) s) (g (x : Int) t)) :
    Rel (forLoop bound s0 f) (forLoop bound t0 g) := by
  unfold forLoop
  have key : ∀ n : Nat, n ≤ bound.toNat →
      Rel ((List.range n).foldl (fun s (x : Nat) => f (x : Int) s) s0)
        ((List.range n).foldl (fun t (x : Nat) => g (x : Int) t) t0) := by
    intro n
    induction n with
    | zero => intro _; simpa using h0
    | succ n ih =>
      intro hn
      rw [List.range_succ, List.foldl_append, List.foldl_append]
      simp only [List.foldl_cons, List.foldl_nil]
      exact hstep n _ _ (by omega) (ih (by omega))
  exact key _ le_rfl

/-- A property that every iteration with index in `[0, bound)` preserves holds
after the loop. -/
theorem forLoop_invariant_range {σ : Type} (P : σ → Prop) (bound : Int) (init : σ)
    (body : Int → σ → σ) (h0 : P init)
    (hstep : ∀ (x : Nat) (s : σ), (x : Int) < bound → P s → P (body (x : Int) s)) :
    P (forLoop bound init body) :=
  forLoop_rel (fun s (_ : Unit) => P s) bound init () body (fun _ t => t) h0
    (fun x s _ hx hs => hstep x s hx hs)

/-! ## Destinations of the forward loop nest -/

section Destinations

/-- Claim C12, evaluation at the failing input (all-ones `1x1x1x1x1` volumes,
patch size `(1,1,2)`, everything else unit), with the counting kernel in the
place of the absent `correlate_patch`: the output has the two cells
`[0,0,0,0,0,0,0]` and `[0,0,0,1,0,0,0]`; the loop nest makes two invocations
(`pd = 0` and `pd = 1`), both with the destination `output_acc[0][0][0][0][0]`,
whose count is `2`; neither cell of the output index space is the destination
of an invocation (count `0`). -/
theorem forward_3D_destinations_collide :
    (correlation_cpp_forward_3D countingKernel (onesTensor [1, 1, 1, 1, 1])
        (onesTensor [1, 1, 1, 1, 1]) 1 1 1 1 1 2 0 0 0 1 1 1 1 1 1 1 1 1).map
      (fun out => (out.sizes, out.val [0, 0, 0, 0, 0], out.val [0, 0, 0, 0, 0, 0, 0],
        out.val [0, 0, 0, 1, 0, 0, 0])) =
      some ([1, 1, 1, 2, 1, 1, 1], 2, 0, 0) := by
  decide

end Destinations

/-! ## Element accesses of the kernels -/

theorem list_length_four {α : Type} (l : List α) (h : l.length = 4) :
    ∃ a b c d, l = [a, b, c, d] := by
  match l, h with
  | [a, b, c, d], _ => exact ⟨a, b, c, d, rfl⟩

section Accesses

variable {R : Type} [CommRing R]

/-- The forward kernel is the fold of its reads over its accesses. -/
theorem correlate_patch_3D_eq_fold (input1 input2 : Tensor R) (d0 : R)
    (kH kW kD dilationH dilationW dilationD u v w shiftU shiftV shiftW : Int) :
    correlate_patch_3D input1 input2 d0 kH kW kD dilationH dilationW dilationD u v w
        shiftU shiftV shiftW =
      (kernelAccesses input1 kH kW kD dilationH dilationW dilationD u v w
        shiftU shiftV shiftW).foldl (readStep input1 input2) d0 := by
  unfold correlate_patch_3D kernelAccesses
  simp only []
  refine forLoop_rel (fun s acc => s = List.foldl (readStep input1 input2) d0 acc)
    _ _ _ _ _ rfl fun c s acc _ hs => ?_
  refine forLoop_rel (fun s acc => s = List.foldl (readStep input1 input2) d0 acc)
    _ _ _ _ _ hs fun i s acc _ hs => ?_
  beta_reduce
  split_ifs
  · refine forLoop_rel (fun s acc => s = List.foldl (readStep input1 input2) d0 acc)
      _ _ _ _ _ hs fun j s acc _ hs => ?_
    beta_reduce
    split_ifs
    · refine forLoop_rel (fun s acc => s = List.foldl (readStep input1 input2) d0 acc)
        _ _ _ _ _ hs fun k s acc _ hs => ?_
      beta_reduce
      split_ifs
      · rw [List.foldl_append, ← hs]
        rfl
      · exact hs
    · exact hs
  · exact hs

/-- The backward kernel is the fold of its read-and-write steps over the same
accesses. -/
theorem correlate_patch_grad_3D_eq_fold (input1 G1 input2 G2 : Tensor R) (g : R)
    (kH kW kD dilationH dilationW dilationD u v w shiftU shiftV shiftW : Int) :
    correlate_patch_grad_3D input1 G1 input2 G2 g kH kW kD dilationH dilationW dilationD
        u v w shiftU shiftV shiftW =
      (kernelAccesses input1 kH kW kD dilationH dilationW dilationD u v w
        shiftU shiftV shiftW).foldl (scatterStep input1 input2 g) (G1, G2) := by
  unfold correlate_patch_grad_3D kernelAccesses
  simp only []
  refine forLoop_rel
    (fun s acc => s = List.foldl (scatterStep input1 input2 g) (G1, G2) acc)
    _ _ _ _ _ rfl fun c s acc _ hs => ?_
  refine forLoop_rel
    (fun s acc => s = List.foldl (scatterStep input1 input2 g) (G1, G2) acc)
    _ _ _ _ _ hs fun i s acc _ hs => ?_
  beta_reduce
  split_ifs
  · refine forLoop_rel
      (fun s acc => s = List.foldl (scatterStep input1 input2 g) (G1, G2) acc)
      _ _ _ _ _ hs fun j s acc _ hs => ?_
    beta_reduce
    split_ifs
    · refine forLoop_rel
        (fun s acc => s = List.foldl (scatterStep input1 input2 g) (G1, G2) acc)
        _ _ _ _ _ hs fun k s acc _ hs => ?_
      beta_reduce
      split_ifs
      · rw [List.foldl_append, ← hs]
        rfl
      · exact hs
    · exact hs
  · exact hs

end Accesses

/-- Every access of the kernels has its first index inside a volume with the
extents of `input1` and its second index inside every volume of rank 4 whose
extents are not smaller. -/
theorem kernelAccesses_inRange {R : Type} (input1 : Tensor R) (sizes2 : List Int)
    (kH kW kD dilationH dilationW dilationD u v w shiftU shiftV shiftW : Int)
    (hr1 : input1.sizes.length = 4) (hr2 : sizes2.length = 4)
    (hge : ∀ k : Nat, k < 4 → input1.size k ≤ sizes2.getD k 0) :
    ∀ p ∈ kernelAccesses input1 kH kW kD dilationH dilationW dilationD u v w
        shiftU shiftV shiftW,
      indexInRange p.1 input1.sizes = true ∧ indexInRange p.2 sizes2 = true := by
  obtain ⟨a0, a1, a2, a3, ha⟩ := list_length_four _ hr1
  obtain ⟨b0, b1, b2, b3, hb⟩ := list_length_four _ hr2
  have h0 := hge 0 (by decide)
  have h1 := hge 1 (by decide)
  have h2 := hge 2 (by decide)
  have h3 := hge 3 (by decide)
  simp only [Tensor.size, ha, hb, List.getD_cons_zero, List.getD_cons_succ] at h0 h1 h2 h3
  unfold kernelAccesses
  simp only [Tensor.size, ha, hb, List.getD_cons_zero, List.getD_cons_succ]
  refine forLoop_invariant_range
    (fun acc : List (List Int × List Int) => ∀ p ∈ acc,
      indexInRange p.1 [a0, a1, a2, a3] = true ∧ indexInRange p.2 [b0, b1, b2, b3] = true)
    _ _ _ (fun p hp => absurd hp (List.not_mem_nil p)) fun c acc hc hacc => ?_
  refine forLoop_invariant
    (fun acc : List (List Int × List Int) => ∀ p ∈ acc,
      indexInRange p.1 [a0, a1, a2, a3] = true ∧ indexInRange p.2 [b0, b1, b2, b3] = true)
    _ _ _ hacc fun i acc hacc => ?_
  beta_reduce
  split_ifs with hi
  · refine forLoop_invariant
      (fun acc : List (List Int × List Int) => ∀ p ∈ acc,
        indexInRange p.1 [a0, a1, a2, a3] = true ∧ indexInRange p.2 [b0, b1, b2, b3] = true)
      _ _ _ hacc fun j acc hacc => ?_
    beta_reduce
    split_ifs with hj
    · refine forLoop_invariant
        (fun acc : List (List Int × List Int) => ∀ p ∈ acc,
          indexInRange p.1 [a0, a1, a2, a3] = true ∧
            indexInRange p.2 [b0, b1, b2, b3] = true)
        _ _ _ hacc fun k acc hacc => ?_
      beta_reduce
      split_ifs with hk
      · intro p hp
        rw [List.mem_append, List.mem_singleton] at hp
        rcases hp with hp | hp
        · exact hacc p hp
        · subst hp
          rw [WITHIN_BOUNDS_iff] at hi hj hk
          have hc0 : (0 : Int) ≤ (c : Int) := Int.natCast_nonneg c
          simp only [indexInRange, Bool.and_eq_true, decide_eq_true_eq, and_true]
          omega
      · exact hacc
    · exact hacc
  · exact hacc

/-! ## The backward pass as a loop of iterations -/

section BackwardLoop

variable {R : Type} [Zero R]

/-- The backward pass is the loop of its iterations over the batch indices,
started from zero-filled buffers. -/
theorem backward_eq_loop (cpg : BackwardKernel R) (input1 input2 gradOutput : Tensor R)
    (kH kW patchH patchW padH padW dilationH dilationW dilation_patchH dilation_patchW
      dH dW : Int) :
    correlation_cpp_backward cpg input1 input2 gradOutput kH kW patchH patchW padH padW
        dilationH dilationW dilation_patchH dilation_patchW dH dW =
      forLoop (input1.size 0) (Tensor.zeros input1.sizes, Tensor.zeros input2.sizes)
        fun n grads => backward_iteration cpg input1 input2 gradOutput kH kW patchH patchW
          padH padW dilationH dilationW dilation_patchH dilation_patchW dH dW n grads :=
  rfl

end BackwardLoop

/-! ## Bounds of the element accesses -/

section BoundsSafety

variable {R : Type} [CommRing R]

/-- Claim C14, as amended: for `input1` and `input2` of rank 4 with every extent
of `input2` (channel count and spatial extents) at least that of `input1` - in
particular for inputs of equal shape - and gradient buffers with the sizes of
their inputs, both kernels touch their volumes exactly at the recorded accesses
(the forward kernel is the fold of its reads, the backward kernel the fold of
its reads and writes), and every access is inside the volume accessed: `p1`
inside `input1` and `gradInput1`, `p2` inside `input2` and `gradInput2`. -/
theorem kernels_bounds_safe (input1 input2 G1 G2 : Tensor R) (d0 g : R)
    (kH kW kD dilationH dilationW dilationD u v w shiftU shiftV shiftW : Int)
    (hr1 : input1.sizes.length = 4) (hr2 : input2.sizes.length = 4)
    (hge : ∀ k : Nat, k < 4 → input1.size k ≤ input2.size k)
    (hG1 : G1.sizes = input1.sizes) (hG2 : G2.sizes = input2.sizes) :
    correlate_patch_3D input1 input2 d0 kH kW kD dilationH dilationW dilationD u v w
        shiftU shiftV shiftW =
      (kernelAccesses input1 kH kW kD dilationH dilationW dilationD u v w
        shiftU shiftV shiftW).foldl (readStep input1 input2) d0 ∧
    correlate_patch_grad_3D input1 G1 input2 G2 g kH kW kD dilationH dilationW dilationD
        u v w shiftU shiftV shiftW =
      (kernelAccesses input1 kH kW kD dilationH dilationW dilationD u v w
        shiftU shiftV shiftW).foldl (scatterStep input1 input2 g) (G1, G2) ∧
    ∀ p ∈ kernelAccesses input1 kH kW kD dilationH dilationW dilationD u v w
        shiftU shiftV shiftW,
      inRange input1 p.1 = true ∧ inRange input2 p.2 = true ∧
        inRange G1 p.1 = true ∧ inRange G2 p.2 = true := by
  refine ⟨correlate_patch_3D_eq_fold input1 input2 d0 kH kW kD dilationH dilationW dilationD
    u v w shiftU shiftV shiftW, correlate_patch_grad_3D_eq_fold input1 G1 input2 G2 g kH kW kD
    dilationH dilationW dilationD u v w shiftU shiftV shiftW, fun p hp => ?_⟩
  have h := kernelAccesses_inRange input1 input2.sizes kH kW kD dilationH dilationW dilationD
    u v w shiftU shiftV shiftW hr1 hr2 hge p hp
  unfold inRange
  rw [hG1, hG2]
  exact ⟨h.1, h.2, h.1, h.2⟩

/-- Claim C14, witness at a concrete input: the sample volume `volA` of shape
`[2,2,2,2]` against an all-ones volume of the larger shape `[2,3,2,4]`, a
`3x3x3` kernel based at `(-1,-1,-1)` with shift `(1,0,-1)`; four accesses pass
the bounds tests. -/
theorem kernels_bounds_safe_witness :
    (correlate_patch_3D volA (onesTensor [2, 3, 2, 4]) 0 3 3 3 1 1 1 (-1) (-1) (-1) 1 0 (-1) =
        (kernelAccesses volA 3 3 3 1 1 1 (-1) (-1) (-1) 1 0 (-1)).foldl
          (readStep volA (onesTensor [2, 3, 2, 4])) 0 ∧
      correlate_patch_grad_3D volA (Tensor.zeros [2, 2, 2, 2]) (onesTensor [2, 3, 2, 4])
          (Tensor.zeros [2, 3, 2, 4]) 3 3 3 3 1 1 1 (-1) (-1) (-1) 1 0 (-1) =
        (kernelAccesses volA 3 3 3 1 1 1 (-1) (-1) (-1) 1 0 (-1)).foldl
          (scatterStep volA (onesTensor [2, 3, 2, 4]) 3)
          (Tensor.zeros [2, 2, 2, 2], Tensor.zeros [2, 3, 2, 4]) ∧
      ∀ p ∈ kernelAccesses volA 3 3 3 1 1 1 (-1) (-1) (-1) 1 0 (-1),
        inRange volA p.1 = true ∧ inRange (onesTensor [2, 3, 2, 4]) p.2 = true ∧
          inRange (Tensor.zeros [2, 2, 2, 2] : Tensor Int) p.1 = true ∧
          inRange (Tensor.zeros [2, 3, 2, 4] : Tensor Int) p.2 = true) ∧
    (kernelAccesses volA 3 3 3 1 1 1 (-1) (-1) (-1) 1 0 (-1)).length = 4 :=
  ⟨kernels_bounds_safe volA (onesTensor [2, 3, 2, 4]) (Tensor.zeros [2, 2, 2, 2])
      (Tensor.zeros [2, 3, 2, 4]) 0 3 3 3 3 1 1 1 (-1) (-1) (-1) 1 0 (-1)
      rfl rfl (by decide) rfl rfl, by decide⟩

/-- Claim C14, counterexample: `input1` of shape `[1,2,1,1]` and `input2` of
shape `[1,1,1,1]` have the same channel count and the same rank; with a
`1x1x1` kernel at base `(0,0,0)` and shift `(1,0,0)` the bounds test, made
against the extents of `input1` for both positions, passes, and the kernels
access `input2` (and `gradInput2`) at `p2 = [0,1,0,0]`, outside the H extent `1`
of `input2`. -/
theorem kernels_access_outside_input2 :
    (onesTensor [1, 1, 1, 1]).size 0 = (onesTensor [1, 2, 1, 1]).size 0 ∧
    (onesTensor [1, 1, 1, 1]).sizes.length = (onesTensor [1, 2, 1, 1]).sizes.length ∧
    kernelAccesses (onesTensor [1, 2, 1, 1]) 1 1 1 1 1 1 0 0 0 1 0 0 =
      [([0, 0, 0, 0], [0, 1, 0, 0])] ∧
    inRange (onesTensor [1, 1, 1, 1]) [0, 1, 0, 0] = false ∧
    inRange (Tensor.zeros (onesTensor [1, 1, 1, 1]).sizes : Tensor Int) [0, 1, 0, 0] = false ∧
    correlate_patch_3D (onesTensor [1, 2, 1, 1]) (onesTensor [1, 1, 1, 1]) 0
        1 1 1 1 1 1 0 0 0 1 0 0 =
      (kernelAccesses (onesTensor [1, 2, 1, 1]) 1 1 1 1 1 1 0 0 0 1 0 0).foldl
        (readStep (onesTensor [1, 2, 1, 1]) (onesTensor [1, 1, 1, 1])) 0 := by
  decide

end BoundsSafety

/-! ## The forward pass as the array library executes it -/

section CheckedForward

variable {R : Type} [Zero R]

/-- No volume is allocated exactly when `input1` has fewer than five axes, a
stride is zero or an extent handed to the allocation is negative. -/
theorem forward_3D_allocation_eq_none_iff (input1 : Tensor R)
    (kH kW kD patchH patchW patchD padH padW padD dilationH dilationW dilationD
      dH dW dD : Int) :
    forward_3D_allocation input1 kH kW kD patchH patchW patchD padH padW padD
        dilationH dilationW dilationD dH dW dD = none ↔
      (input1.sizes.length < 5 ∨ (dH = 0 ∨ dW = 0 ∨ dD = 0) ∨
        (input1.size 0 < 0 ∨ patchH < 0 ∨ patchW < 0 ∨ patchD < 0 ∨
          truncOutDim (input1.size 2) padH kH dilationH dH < 0 ∨
          truncOutDim (input1.size 3) padW kW dilationW dW < 0 ∨
          truncOutDim (input1.size 4) padD kD dilationD dD < 0)) := by
  unfold forward_3D_allocation truncOutDim
  simp only []
  split_ifs with h1 h2 h3
  · simp [h1]
  · simp [h2]
  · simp [h3]
  · simp [h1, h2, h3]

/-- An allocated volume is the zero-filled volume of the computed shape, and
`input1` has at least five axes. -/
theorem forward_3D_allocation_eq_some (input1 : Tensor R)
    (kH kW kD patchH patchW patchD padH padW padD dilationH dilationW dilationD
      dH dW dD : Int) (out : Tensor R)
    (h : forward_3D_allocation input1 kH kW kD patchH patchW patchD padH padW padD
        dilationH dilationW dilationD dH dW dD = some out) :
    5 ≤ input1.sizes.length ∧
      out = Tensor.zeros [input1.size 0, patchH, patchW, patchD,
        truncOutDim (input1.size 2) padH kH dilationH dH,
        truncOutDim (input1.size 3) padW kW dilationW dW,
        truncOutDim (input1.size 4) padD kD dilationD dD] := by
  unfold forward_3D_allocation at h
  simp only [] at h
  split_ifs at h with h1 h2 h3
  injection h with h
  exact ⟨by omega, h.symm⟩

/-- The call has a result only when one of the four outer loops is empty, and
the result is then the allocated volume. -/
theorem forward_3D_checked_eq (cp : ForwardKernel R) (input1 input2 : Tensor R)
    (kH kW kD patchH patchW patchD padH padW padD dilationH dilationW dilationD
      dilation_patchH dilation_patchW dilation_patchD dH dW dD : Int) :
    correlation_cpp_forward_3D_checked cp input1 input2 kH kW kD patchH patchW patchD
        padH padW padD dilationH dilationW dilationD dilation_patchH dilation_patchW
        dilation_patchD dH dW dD =
      if 0 < input1.size 0 ∧ 0 < patchH ∧ 0 < patchW ∧ 0 < patchD then none
      else forward_3D_allocation input1 kH kW kD patchH patchW patchD padH padW padD
        dilationH dilationW dilationD dH dW dD := by
  unfold correlation_cpp_forward_3D_checked
  cases hal : forward_3D_allocation input1 kH kW kD patchH patchW patchD padH padW padD
      dilationH dilationW dilationD dH dW dD with
  | none => simp
  | some out =>
    have h5 := (forward_3D_allocation_eq_some input1 kH kW kD patchH patchW patchD
      padH padW padD dilationH dilationW dilationD dH dW dD out hal).1
    have h4 : ¬ (input1.sizes.length = 4 ∧ input2.sizes.length = 4 ∧ out.sizes.length = 5) := by
      omega
    simp only [h4, if_false]


/-- With an iteration in each of the four outer loops the call has no result:
`size(4)` needs five axes in `input1` and the accessor of line 119 needs four. -/
theorem forward_3D_checked_nonempty (cp : ForwardKernel R) (input1 input2 : Tensor R)
    (kH kW kD patchH patchW patchD padH padW padD dilationH dilationW dilationD
      dilation_patchH dilation_patchW dilation_patchD dH dW dD : Int)
    (h : 0 < input1.size 0 ∧ 0 < patchH ∧ 0 < patchW ∧ 0 < patchD) :
    correlation_cpp_forward_3D_checked cp input1 input2 kH kW kD patchH patchW patchD
        padH padW padD dilationH dilationW dilationD dilation_patchH dilation_patchW
        dilation_patchD dH dW dD = none := by
  rw [forward_3D_checked_eq, if_pos h]

/-- On a negative numerator the truncated quotient of the source and the floor
of the specification differ: input extent 1, kernel 3, dilation 1, padding 0,
stride 3 give `-2/3 + 1 = 1` truncated and `floor(-2/3) + 1 = 0`. -/
theorem truncOutDim_ne_floorOutDim_negative :
    truncOutDim 1 0 3 1 3 = 1 ∧ floorOutDim 1 0 3 1 3 = 0 := by
  refine ⟨by decide, ?_⟩
  unfold floorOutDim mathFloorDiv
  have h : ⌊((1 + 2 * 0 - ((3 - 1) * 1 + 1) : Int) : ℚ) / ((3 : Int) : ℚ)⌋ = -1 := by
    rw [Int.floor_eq_iff]
    norm_num
  rw [h]
  rfl

/-- Claim C9, as amended: the forward pass has no check of its own on the
computed output dimensions.  It hands them to the allocation of the cost volume,
which refuses a negative extent and no other: with five axes in `input1` and
non-zero strides the volume is allocated exactly when no extent is negative, a
computed output dimension of zero included, with the shape `[batch, patchH,
patchW, patchD, outH, outW, outD]`; a volume returned by the call is the
allocated one, and for an empty batch the call returns it. -/
theorem forward_3D_no_dimension_check (cp : ForwardKernel R) (input1 input2 : Tensor R)
    (kH kW kD patchH patchW patchD padH padW padD dilationH dilationW dilationD
      dilation_patchH dilation_patchW dilation_patchD dH dW dD : Int) :
    (forward_3D_allocation input1 kH kW kD patchH patchW patchD padH padW padD
        dilationH dilationW dilationD dH dW dD = none ↔
      (input1.sizes.length < 5 ∨ (dH = 0 ∨ dW = 0 ∨ dD = 0) ∨
        (input1.size 0 < 0 ∨ patchH < 0 ∨ patchW < 0 ∨ patchD < 0 ∨
          truncOutDim (input1.size 2) padH kH dilationH dH < 0 ∨
          truncOutDim (input1.size 3) padW kW dilationW dW < 0 ∨
          truncOutDim (input1.size 4) padD kD dilationD dD < 0))) ∧
    (∀ out, forward_3D_allocation input1 kH kW kD patchH patchW patchD padH padW padD
        dilationH dilationW dilationD dH dW dD = some out →
      out.sizes = [input1.size 0, patchH, patchW, patchD,
        truncOutDim (input1.size 2) padH kH dilationH dH,
        truncOutDim (input1.size 3) padW kW dilationW dW,
        truncOutDim (input1.size 4) padD kD dilationD dD]) ∧
    (∀ out, correlation_cpp_forward_3D_checked cp input1 input2 kH kW kD patchH patchW patchD
        padH padW padD dilationH dilationW dilationD dilation_patchH dilation_patchW
        dilation_patchD dH dW dD = some out →
      forward_3D_allocation input1 kH kW kD patchH patchW patchD padH padW padD
        dilationH dilationW dilationD dH dW dD = some out) ∧
    (input1.size 0 = 0 →
      correlation_cpp_forward_3D_checked cp input1 input2 kH kW kD patchH patchW patchD
        padH padW padD dilationH dilationW dilationD dilation_patchH dilation_patchW
        dilation_patchD dH dW dD =
      forward_3D_allocation input1 kH kW kD patchH patchW patchD padH padW padD
        dilationH dilationW dilationD dH dW dD) := by
  refine ⟨forward_3D_allocation_eq_none_iff input1 kH kW kD patchH patchW patchD padH padW padD
    dilationH dilationW dilationD dH dW dD, fun out hout => ?_, fun out hout => ?_, fun h0 => ?_⟩
  · rw [(forward_3D_allocation_eq_some input1 kH kW kD patchH patchW patchD padH padW padD
      dilationH dilationW dilationD dH dW dD out hout).2]
    rfl
  · rw [forward_3D_checked_eq] at hout
    split_ifs at hout with hne
    exact hout
  · rw [forward_3D_checked_eq, if_neg (by omega)]

/-- Claim C9, counterexample: input extent 1 with padding 0 is smaller than the
kernel extent 2 on the H axis, so the computed output dimension is 0.  For the
input of shape `[1,1,1,1,1]` the cost volume of shape `[1,1,1,1,0,1,1]` is
allocated: nothing rejected the geometry before the allocation.  For the empty
batch of shape `[0,1,1,1,1]` the call is not rejected at all: it returns the
cost volume of shape `[0,1,1,1,0,1,1]`. -/
theorem forward_3D_accepts_empty_axis :
    truncOutDim ((onesTensor [1, 1, 1, 1, 1]).size 2) 0 2 1 1 = 0 ∧
    (forward_3D_allocation (onesTensor [1, 1, 1, 1, 1])
        2 1 1 1 1 1 0 0 0 1 1 1 1 1 1).map Tensor.sizes = some [1, 1, 1, 1, 0, 1, 1] ∧
    (correlation_cpp_forward_3D_checked correlate_patch (onesTensor [0, 1, 1, 1, 1])
        (onesTensor [0, 1, 1, 1, 1]) 2 1 1 1 1 1 0 0 0 1 1 1 1 1 1 1 1 1).map Tensor.sizes =
      some [0, 1, 1, 1, 0, 1, 1] := by
  decide

end CheckedForward

/-! ## Gradients of the backward pass -/

section GradientConsistency

variable {R : Type} [CommRing R]

/-- The two-dimensional forward kernel against the sum guarded by its two
bounds tests. -/
theorem correlate_patch_eq_sum (input1 input2 : Tensor R) (d0 : R)
    (kH kW dilationH dilationW u v shiftU shiftV : Int) :
    correlate_patch input1 input2 d0 kH kW dilationH dilationW u v shiftU shiftV =
      d0 + ∑ c ∈ Finset.range (input1.size 0).toNat,
        ∑ i ∈ Finset.range kH.toNat,
          ∑ j ∈ Finset.range kW.toNat,
            if WITHIN_BOUNDS (u + i * dilationH) (u + i * dilationH + shiftU)
                  (input1.size 1) (input1.size 1) = true ∧
                WITHIN_BOUNDS (v + j * dilationW) (v + j * dilationW + shiftV)
                  (input1.size 2) (input1.size 2) = true
            then input1.val [(c : Int), u + i * dilationH, v + j * dilationW] *
              input2.val [(c : Int), u + i * dilationH + shiftU, v + j * dilationW + shiftV]
            else 0 := by
  unfold correlate_patch
  simp only []
  apply forLoop_add
  intro c s
  beta_reduce
  apply forLoop_add
  intro i s
  beta_reduce
  by_cases hi : WITHIN_BOUNDS (u + i * dilationH) (u + i * dilationH + shiftU)
      (input1.size 1) (input1.size 1) = true
  · simp only [hi, if_true, true_and]
    apply forLoop_add
    intro j s
    beta_reduce
    by_cases hj : WITHIN_BOUNDS (v + j * dilationW) (v + j * dilationW + shiftV)
        (input1.size 2) (input1.size 2) = true
    · simp only [hj, if_true]
    · simp [hj]
  · simp [hi]

/-- One invocation of the two-dimensional backward kernel adds its contribution
to the buffers. -/
theorem gradValues_correlate_patch_grad (input1 G1 input2 G2 : Tensor R) (g : R)
    (kH kW dilationH dilationW u v shiftU shiftV : Int) :
    gradValues (correlate_patch_grad input1 G1 input2 G2 g kH kW dilationH dilationW u v
        shiftU shiftV) =
      gradValues (G1, G2) +
        scatterContribution2D input1 input2 g kH kW dilationH dilationW u v shiftU shiftV := by
  unfold correlate_patch_grad scatterContribution2D
  simp only []
  apply forLoop_observed_add
  intro c s
  beta_reduce
  apply forLoop_observed_add
  intro i s
  beta_reduce
  by_cases hi : WITHIN_BOUNDS (u + i * dilationH) (u + i * dilationH + shiftU)
      (input1.size 1) (input1.size 1) = true
  · simp only [hi, if_true, true_and]
    apply forLoop_observed_add
    intro j s
    beta_reduce
    by_cases hj : WITHIN_BOUNDS (v + j * dilationW) (v + j * dilationW + shiftV)
        (input1.size 2) (input1.size 2) = true
    · simp only [hj, if_true]
      exact gradValues_set_set s _ _ _ _
    · simp [hj]
  · simp [hi]

/-- The two-dimensional backward kernel adds, to every element of the first
gradient, the upstream scalar times the forward kernel on the unit perturbation
of `input1` at that element, and likewise for the second gradient: the two
kernels are adjoint. -/
theorem correlate_patch_grad_adjoint (input1 G1 input2 G2 : Tensor R) (g : R)
    (kH kW dilationH dilationW u v shiftU shiftV : Int) (e : List Int) :
    (correlate_patch_grad input1 G1 input2 G2 g kH kW dilationH dilationW u v
        shiftU shiftV).1.val e =
      G1.val e + g * correlate_patch (unitTensor input1.sizes e) input2 0
        kH kW dilationH dilationW u v shiftU shiftV ∧
    (correlate_patch_grad input1 G1 input2 G2 g kH kW dilationH dilationW u v
        shiftU shiftV).2.val e =
      G2.val e + g * correlate_patch input1 (unitTensor input2.sizes e) 0
        kH kW dilationH dilationW u v shiftU shiftV := by
  have h := gradValues_correlate_patch_grad input1 G1 input2 G2 g kH kW dilationH dilationW
    u v shiftU shiftV
  have h1 := congrArg (fun m => m.1 e) h
  have h2 := congrArg (fun m => m.2 e) h
  have hsz : ∀ k, (unitTensor input1.sizes e : Tensor R).size k = input1.size k := fun _ => rfl
  constructor
  · refine h1.trans ?_
    show G1.val e + _ = _
    congr 1
    rw [correlate_patch_eq_sum, zero_add, Finset.mul_sum]
    unfold scatterContribution2D
    simp only [hsz, Prod.fst_sum, Finset.sum_apply, Finset.mul_sum]
    refine Finset.sum_congr rfl fun c _ => Finset.sum_congr rfl fun i _ =>
      Finset.sum_congr rfl fun j _ => ?_
    show (if _ then _ else _ : (List Int → R) × (List Int → R)).1 e = _
    split_ifs with hb
    · by_cases he : e = [(c : Int), u + i * dilationH, v + j * dilationW]
      · subst he
        simp [unitTensor]
      · simp [unitTensor, Pi.single_apply, he, Ne.symm he]
    · simp
  · refine h2.trans ?_
    show G2.val e + _ = _
    congr 1
    rw [correlate_patch_eq_sum, zero_add, Finset.mul_sum]
    unfold scatterContribution2D
    simp only [Prod.snd_sum, Finset.sum_apply, Finset.mul_sum]
    refine Finset.sum_congr rfl fun c _ => Finset.sum_congr rfl fun i _ =>
      Finset.sum_congr rfl fun j _ => ?_
    show (if _ then _ else _ : (List Int → R) × (List Int → R)).2 e = _
    split_ifs with hb
    · by_cases he : e = [(c : Int), u + i * dilationH + shiftU, v + j * dilationW + shiftV]
      · subst he
        simp [unitTensor]
      · simp [unitTensor, Pi.single_apply, he, Ne.symm he]
    · simp


/-- The elements of batch element `n` that the backward pass returns, for a
kernel `cpg` that adds to every gradient element the upstream scalar times the
value of a kernel `cp` on the unit perturbation at that element: the sum, over
the iterations of the loop nest for `n`, of the upstream scalar times that
value. -/
theorem backward_element_sum (cp : ForwardKernel R) (cpg : BackwardKernel R)
    (hadj : ∀ (in1 g1 in2 g2 : Tensor R) (g : R) (a b c d u v su sv : Int) (e : List Int),
      (cpg in1 g1 in2 g2 g a b c d u v su sv).1.val e =
          g1.val e + g * cp (unitTensor in1.sizes e) in2 0 a b c d u v su sv ∧
        (cpg in1 g1 in2 g2 g a b c d u v su sv).2.val e =
          g2.val e + g * cp in1 (unitTensor in2.sizes e) 0 a b c d u v su sv)
    (input1 input2 gradOutput : Tensor R)
    (kH kW patchH patchW padH padW dilationH dilationW dilation_patchH dilation_patchW
      dH dW : Int) (n : Nat) (e : List Int) (hn : (n : Int) < input1.size 0) :
    (correlation_cpp_backward cpg input1 input2 gradOutput kH kW patchH patchW padH padW
        dilationH dilationW dilation_patchH dilation_patchW dH dW).1.val ((n : Int) :: e) =
      ∑ ph ∈ Finset.range patchH.toNat,
        ∑ pw ∈ Finset.range patchW.toNat,
          ∑ h ∈ Finset.range (gradOutput.size 3).toNat,
            ∑ w ∈ Finset.range (gradOutput.size 4).toNat,
              gradOutput.val [(n : Int), (ph : Int), (pw : Int), (h : Int), (w : Int)] *
                cp (unitTensor (input1.sub n).sizes e) (input2.sub n) 0
                  kH kW dilationH dilationW (-padH + h * dH) (-padW + w * dW)
                  ((ph - Int.tdiv (patchH - 1) 2) * dilation_patchH)
                  ((pw - Int.tdiv (patchW - 1) 2) * dilation_patchW) ∧
    (correlation_cpp_backward cpg input1 input2 gradOutput kH kW patchH patchW padH padW
        dilationH dilationW dilation_patchH dilation_patchW dH dW).2.val ((n : Int) :: e) =
      ∑ ph ∈ Finset.range patchH.toNat,
        ∑ pw ∈ Finset.range patchW.toNat,
          ∑ h ∈ Finset.range (gradOutput.size 3).toNat,
            ∑ w ∈ Finset.range (gradOutput.size 4).toNat,
              gradOutput.val [(n : Int), (ph : Int), (pw : Int), (h : Int), (w : Int)] *
                cp (input1.sub n) (unitTensor (input2.sub n).sizes e) 0
                  kH kW dilationH dilationW (-padH + h * dH) (-padW + w * dW)
                  ((ph - Int.tdiv (patchH - 1) 2) * dilation_patchH)
                  ((pw - Int.tdiv (patchW - 1) 2) * dilation_patchW) := by
  let obs : Tensor R × Tensor R → R × R :=
    fun s => (s.1.val ((n : Int) :: e), s.2.val ((n : Int) :: e))
  let term : Nat → Nat → Nat → Nat → R × R := fun ph pw h w =>
    (gradOutput.val [(n : Int), (ph : Int), (pw : Int), (h : Int), (w : Int)] *
        cp (unitTensor (input1.sub n).sizes e) (input2.sub n) 0
          kH kW dilationH dilationW (-padH + h * dH) (-padW + w * dW)
          ((ph - Int.tdiv (patchH - 1) 2) * dilation_patchH)
          ((pw - Int.tdiv (patchW - 1) 2) * dilation_patchW),
      gradOutput.val [(n : Int), (ph : Int), (pw : Int), (h : Int), (w : Int)] *
        cp (input1.sub n) (unitTensor (input2.sub n).sizes e) 0
          kH kW dilationH dilationW (-padH + h * dH) (-padW + w * dW)
          ((ph - Int.tdiv (patchH - 1) 2) * dilation_patchH)
          ((pw - Int.tdiv (patchW - 1) 2) * dilation_patchW))
  have key : obs (correlation_cpp_backward cpg input1 input2 gradOutput kH kW patchH patchW
      padH padW dilationH dilationW dilation_patchH dilation_patchW dH dW) =
      obs (Tensor.zeros input1.sizes, Tensor.zeros input2.sizes) +
        ∑ m ∈ Finset.range (input1.size 0).toNat,
          if m = n then
            ∑ ph ∈ Finset.range patchH.toNat,
              ∑ pw ∈ Finset.range patchW.toNat,
                ∑ h ∈ Finset.range (gradOutput.size 3).toNat,
                  ∑ w ∈ Finset.range (gradOutput.size 4).toNat, term ph pw h w
          else 0 := by
    unfold correlation_cpp_backward
    simp only []
    refine forLoop_observed_add obs _ _ _ _ fun m s => ?_
    by_cases hm : m = n
    · subst hm
      simp only [if_true]
      refine forLoop_observed_add obs _ _ _ _ fun ph s => ?_
      refine forLoop_observed_add obs _ _ _ _ fun pw s => ?_
      refine forLoop_observed_add obs _ _ _ _ fun h s => ?_
      refine forLoop_observed_add obs _ _ _ _ fun w s => ?_
      have ha := hadj (input1.sub m) (s.1.sub m) (input2.sub m) (s.2.sub m)
        (gradOutput.val [(m : Int), (ph : Int), (pw : Int), (h : Int), (w : Int)])
        kH kW dilationH dilationW (-padH + h * dH) (-padW + w * dW)
        ((ph - Int.tdiv (patchH - 1) 2) * dilation_patchH)
        ((pw - Int.tdiv (patchW - 1) 2) * dilation_patchW) e
      refine Prod.ext ?_ ?_
      · show (if (m : Int) = (m : Int) then _ else _) = _
        rw [if_pos rfl]
        exact ha.1
      · show (if (m : Int) = (m : Int) then _ else _) = _
        rw [if_pos rfl]
        exact ha.2
    · simp only [if_neg hm, add_zero]
      have hne : ¬ (n : Int) = (m : Int) := by
        exact_mod_cast Ne.symm hm
      refine forLoop_invariant (fun t : Tensor R × Tensor R => obs t = obs s) _ _ _ rfl
        fun ph t ht => ?_
      refine forLoop_invariant (fun t : Tensor R × Tensor R => obs t = obs s) _ _ _ ht
        fun pw t ht => ?_
      refine forLoop_invariant (fun t : Tensor R × Tensor R => obs t = obs s) _ _ _ ht
        fun h t ht => ?_
      refine forLoop_invariant (fun t : Tensor R × Tensor R => obs t = obs s) _ _ _ ht
        fun w t ht => ?_
      rw [← ht]
      refine Prod.ext ?_ ?_
      · show (if (n : Int) = (m : Int) then _ else _) = _
        rw [if_neg hne]
      · show (if (n : Int) = (m : Int) then _ else _) = _
        rw [if_neg hne]
  have hmem : n ∈ Finset.range (input1.size 0).toNat := by
    rw [Finset.mem_range]
    omega
  rw [Finset.sum_ite_eq' _ n, if_pos hmem] at key
  have hz : obs ((Tensor.zeros input1.sizes : Tensor R), (Tensor.zeros input2.sizes : Tensor R))
      = 0 := rfl
  rw [hz, zero_add] at key
  constructor
  · have h1 := congrArg Prod.fst key
    simp only [Prod.fst_sum] at h1
    exact h1
  · have h2 := congrArg Prod.snd key
    simp only [Prod.snd_sum] at h2
    exact h2


/-- The forward kernel is affine in every element of `input1`, with slope its
value on the unit perturbation at the element. -/
theorem correlate_patch_addAt_left (input1 input2 : Tensor R) (d0 x : R)
    (kH kW dilationH dilationW u v shiftU shiftV : Int) (e : List Int) :
    correlate_patch (addAt input1 e x) input2 d0 kH kW dilationH dilationW u v shiftU shiftV =
      correlate_patch input1 input2 d0 kH kW dilationH dilationW u v shiftU shiftV +
        x * correlate_patch (unitTensor input1.sizes e) input2 0
          kH kW dilationH dilationW u v shiftU shiftV := by
  have hsz : ∀ k, (unitTensor input1.sizes e : Tensor R).size k = input1.size k := fun _ => rfl
  have hsa : ∀ k, (addAt input1 e x).size k = input1.size k := fun _ => rfl
  rw [correlate_patch_eq_sum, correlate_patch_eq_sum, correlate_patch_eq_sum, zero_add,
    add_assoc, Finset.mul_sum]
  simp only [hsz, hsa, Finset.mul_sum, ← Finset.sum_add_distrib]
  congr 1
  refine Finset.sum_congr rfl fun c _ => Finset.sum_congr rfl fun i _ =>
    Finset.sum_congr rfl fun j _ => ?_
  split_ifs with hb
  · show (input1.val _ + (if _ then x else 0)) * _ = _ + x * ((if _ then 1 else 0) * _)
    split_ifs with he
    · ring
    · ring
  · simp

/-- The forward kernel is affine in every element of `input2`, with slope its
value on the unit perturbation at the element. -/
theorem correlate_patch_addAt_right (input1 input2 : Tensor R) (d0 x : R)
    (kH kW dilationH dilationW u v shiftU shiftV : Int) (e : List Int) :
    correlate_patch input1 (addAt input2 e x) d0 kH kW dilationH dilationW u v shiftU shiftV =
      correlate_patch input1 input2 d0 kH kW dilationH dilationW u v shiftU shiftV +
        x * correlate_patch input1 (unitTensor input2.sizes e) 0
          kH kW dilationH dilationW u v shiftU shiftV := by
  rw [correlate_patch_eq_sum, correlate_patch_eq_sum, correlate_patch_eq_sum, zero_add,
    add_assoc, Finset.mul_sum]
  simp only [Finset.mul_sum, ← Finset.sum_add_distrib]
  congr 1
  refine Finset.sum_congr rfl fun c _ => Finset.sum_congr rfl fun i _ =>
    Finset.sum_congr rfl fun j _ => ?_
  split_ifs with hb
  · show _ * (input2.val _ + (if _ then x else 0)) = _ + x * (_ * (if _ then 1 else 0))
    split_ifs with he
    · ring
    · ring
  · simp

/-- The accessor `acc[m]` of a volume perturbed at the element `[n, e]`. -/
theorem sub_addAt (t : Tensor R) (n m : Int) (e : List Int) (x : R) :
    (addAt t (n :: e) x).sub m = if m = n then addAt (t.sub n) e x else t.sub m := by
  split_ifs with h
  · subst h
    unfold addAt Tensor.sub
    simp
  · unfold addAt Tensor.sub
    simp [h]

/-- Claim C2, as amended: gradient consistency of the backward pass as the
two-dimensional routine it is.  For inputs of equal shape `[batch, C, H, W]`, an
upstream gradient volume `G` of shape `[batch, patchH, patchW, outH, outW]` and
every geometry, the backward pass returns two gradient volumes of the shapes of
the inputs that hold the exact partial derivatives of the loss `L`, the sum over
the cells `(n, ph, pw, h, w)` of `G[cell]` times the window dot product that the
forward kernel `correlate_patch` accumulates for the cell: for every batch index
`n`, every element `e` of batch element `n` and every `x`, adding `x` to the
element `[n, e]` of `input1` adds `x * gradInput1[n, e]` to `L`, and adding `x`
to the element `[n, e]` of `input2` adds `x * gradInput2[n, e]` to `L`. -/
theorem backward_gradient_consistency (input1 input2 gradOutput : Tensor R)
    (kH kW patchH patchW padH padW dilationH dilationW dilation_patchH dilation_patchW
      dH dW : Int) (n : Nat) (e : List Int)
    (hr1 : input1.sizes.length = 4) (hshape : input2.sizes = input1.sizes)
    (hrg : gradOutput.sizes.length = 5)
    (hG0 : gradOutput.size 0 = input1.size 0)
    (hG1 : gradOutput.size 1 = patchH) (hG2 : gradOutput.size 2 = patchW)
    (hn : (n : Int) < input1.size 0) :
    ∃ grads, correlation_cpp_backward_checked correlate_patch_grad input1 input2 gradOutput
        kH kW patchH patchW padH padW dilationH dilationW dilation_patchH dilation_patchW
        dH dW = some grads ∧
      grads.1.sizes = input1.sizes ∧ grads.2.sizes = input2.sizes ∧
      (∀ x : R,
        loss (addAt input1 ((n : Int) :: e) x) input2 gradOutput kH kW patchH patchW padH padW
            dilationH dilationW dilation_patchH dilation_patchW dH dW =
          loss input1 input2 gradOutput kH kW patchH patchW padH padW
            dilationH dilationW dilation_patchH dilation_patchW dH dW +
            x * grads.1.val ((n : Int) :: e)) ∧
      (∀ x : R,
        loss input1 (addAt input2 ((n : Int) :: e) x) gradOutput kH kW patchH patchW padH padW
            dilationH dilationW dilation_patchH dilation_patchW dH dW =
          loss input1 input2 gradOutput kH kW patchH patchW padH padW
            dilationH dilationW dilation_patchH dilation_patchW dH dW +
            x * grads.2.val ((n : Int) :: e)) := by
  have hsum := backward_element_sum correlate_patch correlate_patch_grad
    (fun in1 g1 in2 g2 g a b c d u v su sv e =>
      correlate_patch_grad_adjoint in1 g1 in2 g2 g a b c d u v su sv e)
    input1 input2 gradOutput kH kW patchH patchW padH padW dilationH dilationW
    dilation_patchH dilation_patchW dH dW n e hn
  have hsz := backward_sizes correlate_patch_grad input1 input2 gradOutput kH kW patchH patchW
    padH padW dilationH dilationW dilation_patchH dilation_patchW dH dW
  have hmem : n ∈ Finset.range (input1.size 0).toNat := by
    rw [Finset.mem_range]
    omega
  have hcast : ∀ m : Nat, ((m : Int) = (n : Int)) ↔ m = n := fun m => Int.ofNat_inj
  refine ⟨_, ?_, hsz.1, hsz.2, fun x => ?_, fun x => ?_⟩
  · unfold correlation_cpp_backward_checked
    have hpos : 0 < input1.size 0 := by
      have := Int.natCast_nonneg n
      omega
    rw [if_neg (by omega)]
    simp only [hpos, if_true]
    rw [if_pos ⟨hr1, by rw [hshape]; exact hr1, hrg⟩]
  · rw [hsum.1]
    unfold loss
    have hsa : (addAt input1 ((n : Int) :: e) x).size 0 = input1.size 0 := rfl
    rw [hsa]
    have hterm : ∀ m ∈ Finset.range (input1.size 0).toNat,
        (∑ ph ∈ Finset.range patchH.toNat, ∑ pw ∈ Finset.range patchW.toNat,
          ∑ h ∈ Finset.range (gradOutput.size 3).toNat,
            ∑ w ∈ Finset.range (gradOutput.size 4).toNat,
              gradOutput.val [(m : Int), (ph : Int), (pw : Int), (h : Int), (w : Int)] *
                correlate_patch ((addAt input1 ((n : Int) :: e) x).sub m) (input2.sub m) 0
                  kH kW dilationH dilationW (-padH + h * dH) (-padW + w * dW)
                  ((ph - Int.tdiv (patchH - 1) 2) * dilation_patchH)
                  ((pw - Int.tdiv (patchW - 1) 2) * dilation_patchW)) =
        (∑ ph ∈ Finset.range patchH.toNat, ∑ pw ∈ Finset.range patchW.toNat,
          ∑ h ∈ Finset.range (gradOutput.size 3).toNat,
            ∑ w ∈ Finset.range (gradOutput.size 4).toNat,
              gradOutput.val [(m : Int), (ph : Int), (pw : Int), (h : Int), (w : Int)] *
                correlate_patch (input1.sub m) (input2.sub m) 0
                  kH kW dilationH dilationW (-padH + h * dH) (-padW + w * dW)
                  ((ph - Int.tdiv (patchH - 1) 2) * dilation_patchH)
                  ((pw - Int.tdiv (patchW - 1) 2) * dilation_patchW)) +
          if m = n then
            x * ∑ ph ∈ Finset.range patchH.toNat, ∑ pw ∈ Finset.range patchW.toNat,
              ∑ h ∈ Finset.range (gradOutput.size 3).toNat,
                ∑ w ∈ Finset.range (gradOutput.size 4).toNat,
                  gradOutput.val [(n : Int), (ph : Int), (pw : Int), (h : Int), (w : Int)] *
                    correlate_patch (unitTensor (input1.sub n).sizes e) (input2.sub n) 0
                      kH kW dilationH dilationW (-padH + h * dH) (-padW + w * dW)
                      ((ph - Int.tdiv (patchH - 1) 2) * dilation_patchH)
                      ((pw - Int.tdiv (patchW - 1) 2) * dilation_patchW)
          else 0 := by
      intro m _
      rw [sub_addAt]
      by_cases hm : m = n
      · subst hm
        simp only [if_true, Finset.mul_sum, ← Finset.sum_add_distrib]
        refine Finset.sum_congr rfl fun ph _ => Finset.sum_congr rfl fun pw _ =>
          Finset.sum_congr rfl fun h _ => Finset.sum_congr rfl fun w _ => ?_
        rw [correlate_patch_addAt_left]
        ring
      · simp only [hcast, hm, if_false, add_zero]
    rw [Finset.sum_congr rfl hterm, Finset.sum_add_distrib, Finset.sum_ite_eq' _ n, if_pos hmem]
  · rw [hsum.2]
    unfold loss
    have hterm : ∀ m ∈ Finset.range (input1.size 0).toNat,
        (∑ ph ∈ Finset.range patchH.toNat, ∑ pw ∈ Finset.range patchW.toNat,
          ∑ h ∈ Finset.range (gradOutput.size 3).toNat,
            ∑ w ∈ Finset.range (gradOutput.size 4).toNat,
              gradOutput.val [(m : Int), (ph : Int), (pw : Int), (h : Int), (w : Int)] *
                correlate_patch (input1.sub m) ((addAt input2 ((n : Int) :: e) x).sub m) 0
                  kH kW dilationH dilationW (-padH + h * dH) (-padW + w * dW)
                  ((ph - Int.tdiv (patchH - 1) 2) * dilation_patchH)
                  ((pw - Int.tdiv (patchW - 1) 2) * dilation_patchW)) =
        (∑ ph ∈ Finset.range patchH.toNat, ∑ pw ∈ Finset.range patchW.toNat,
          ∑ h ∈ Finset.range (gradOutput.size 3).toNat,
            ∑ w ∈ Finset.range (gradOutput.size 4).toNat,
              gradOutput.val [(m : Int), (ph : Int), (pw : Int), (h : Int), (w : Int)] *
                correlate_patch (input1.sub m) (input2.sub m) 0
                  kH kW dilationH dilationW (-padH + h * dH) (-padW + w * dW)
                  ((ph - Int.tdiv (patchH - 1) 2) * dilation_patchH)
                  ((pw - Int.tdiv (patchW - 1) 2) * dilation_patchW)) +
          if m = n then
            x * ∑ ph ∈ Finset.range patchH.toNat, ∑ pw ∈ Finset.range patchW.toNat,
              ∑ h ∈ Finset.range (gradOutput.size 3).toNat,
                ∑ w ∈ Finset.range (gradOutput.size 4).toNat,
                  gradOutput.val [(n : Int), (ph : Int), (pw : Int), (h : Int), (w : Int)] *
                    correlate_patch (input1.sub n) (unitTensor (input2.sub n).sizes e) 0
                      kH kW dilationH dilationW (-padH + h * dH) (-padW + w * dW)
                      ((ph - Int.tdiv (patchH - 1) 2) * dilation_patchH)
                      ((pw - Int.tdiv (patchW - 1) 2) * dilation_patchW)
          else 0 := by
      intro m _
      rw [sub_addAt]
      by_cases hm : m = n
      · subst hm
        simp only [if_true, Finset.mul_sum, ← Finset.sum_add_distrib]
        refine Finset.sum_congr rfl fun ph _ => Finset.sum_congr rfl fun pw _ =>
          Finset.sum_congr rfl fun h _ => Finset.sum_congr rfl fun w _ => ?_
        rw [correlate_patch_addAt_right]
        ring
      · simp only [hcast, hm, if_false, add_zero]
    rw [Finset.sum_congr rfl hterm, Finset.sum_add_distrib, Finset.sum_ite_eq' _ n, if_pos hmem]

/-- Claim C2, witness at a concrete input: two batch elements of two-channel
`2x2` volumes, patch `3x1`, kernel `1x1`, unit strides and dilations, padding 0;
the element `[1,1,0,1]` of the two gradients, `88853` and `22528`. -/
theorem backward_gradient_consistency_witness :
    (∃ grads, correlation_cpp_backward_checked correlate_patch_grad volA volB gradVol
        1 1 3 1 0 0 1 1 1 1 1 1 = some grads ∧
      grads.1.sizes = volA.sizes ∧ grads.2.sizes = volB.sizes ∧
      (∀ x : Int,
        loss (addAt volA (((1 : Nat) : Int) :: [1, 0, 1]) x) volB gradVol
            1 1 3 1 0 0 1 1 1 1 1 1 =
          loss volA volB gradVol 1 1 3 1 0 0 1 1 1 1 1 1 +
            x * grads.1.val (((1 : Nat) : Int) :: [1, 0, 1])) ∧
      (∀ x : Int,
        loss volA (addAt volB (((1 : Nat) : Int) :: [1, 0, 1]) x) gradVol
            1 1 3 1 0 0 1 1 1 1 1 1 =
          loss volA volB gradVol 1 1 3 1 0 0 1 1 1 1 1 1 +
            x * grads.2.val (((1 : Nat) : Int) :: [1, 0, 1]))) ∧
    (correlation_cpp_backward correlate_patch_grad volA volB gradVol
      1 1 3 1 0 0 1 1 1 1 1 1).1.val [1, 1, 0, 1] = 88853 ∧
    (correlation_cpp_backward correlate_patch_grad volA volB gradVol
      1 1 3 1 0 0 1 1 1 1 1 1).2.val [1, 1, 0, 1] = 22528 :=
  ⟨backward_gradient_consistency volA volB gradVol 1 1 3 1 0 0 1 1 1 1 1 1 1 [1, 0, 1]
    rfl rfl rfl rfl rfl rfl (by decide), by decide, by decide⟩

/-- Claim C2, counterexample: all-ones inputs of equal shape `[1,1,1,1,2]` with
an upstream gradient volume of the cost-volume shape `[1,1,1,1,1,1,2]`, and
all-ones inputs of equal shape `[1,1,2,1,1]` with an upstream gradient volume of
the cost-volume shape `[1,1,1,1,2,1,1]`, unit geometry.  The backward pass
returns no gradients for either: the batch is not empty and the accessors of
rank 4 raise on the inputs of five axes. -/
theorem backward_rejects_volumes :
    (correlation_cpp_backward_checked correlate_patch_grad (onesTensor [1, 1, 1, 1, 2])
        (onesTensor [1, 1, 1, 1, 2]) (onesTensor [1, 1, 1, 1, 1, 1, 2])
        1 1 1 1 0 0 1 1 1 1 1 1).isNone = true ∧
    (correlation_cpp_backward_checked correlate_patch_grad (onesTensor [1, 1, 2, 1, 1])
        (onesTensor [1, 1, 2, 1, 1]) (onesTensor [1, 1, 1, 1, 2, 1, 1])
        1 1 1 1 0 0 1 1 1 1 1 1).isNone = true := by
  decide

end GradientConsistency

/-! ## Batch elements in the backward pass, in memory -/

/-- The offset of an index inside its volume lies inside the storage. -/
theorem linearOffset_lt (idx sizes : List Int) (h : indexInRange idx sizes = true) :
    0 ≤ linearOffset idx sizes ∧ linearOffset idx sizes < sizes.prod := by
  induction idx generalizing sizes with
  | nil =>
    cases sizes with
    | nil => simp [linearOffset]
    | cons s rest => simp [indexInRange] at h
  | cons i idx ih =>
    cases sizes with
    | nil => simp [indexInRange] at h
    | cons s rest =>
      simp only [indexInRange, Bool.and_eq_true, decide_eq_true_eq] at h
      obtain ⟨⟨hi0, his⟩, hrest⟩ := h
      obtain ⟨h0, hlt⟩ := ih rest hrest
      simp only [linearOffset, List.tail_cons, List.prod_cons]
      have hP : 0 < rest.prod := by omega
      constructor
      · positivity
      · nlinarith

/-- The element `[n, idx]` with `idx` inside the sub-volume lies in batch
element `n`. -/
theorem linearOffset_inSlice (n s : Int) (idx sizes : List Int)
    (h : indexInRange idx sizes = true) :
    inSlice (s :: sizes) n (linearOffset (n :: idx) (s :: sizes)) := by
  obtain ⟨h0, hlt⟩ := linearOffset_lt idx sizes h
  simp only [inSlice, linearOffset, List.tail_cons]
  constructor
  · omega
  · linarith

/-- An offset belongs to one batch element only. -/
theorem inSlice_unique (sizes : List Int) (m n o : Int) (hm : inSlice sizes m o)
    (hn : inSlice sizes n o) : m = n := by
  unfold inSlice at hm hn
  obtain ⟨hm1, hm2⟩ := hm
  obtain ⟨hn1, hn2⟩ := hn
  have hP : 0 < sizes.tail.prod := by nlinarith
  have h1 : m < n + 1 := lt_of_mul_lt_mul_right (by linarith) hP.le
  have h2 : n < m + 1 := lt_of_mul_lt_mul_right (by linarith) hP.le
  omega

section FlatBackward

variable {R : Type} [CommRing R]

/-- The accesses of one kernel invocation for batch index `n` lie in batch
element `n` of their arrays, when `input2` has no extent smaller than that of
`input1`: an invocation leaves every element of another batch element alone. -/
theorem correlate_patch_grad_flat_frame (input1 input2 : FlatTensor R) (m : Int)
    (grads : (Int → R) × (Int → R)) (g : R)
    (kH kW dilationH dilationW u v shiftU shiftV : Int)
    (hr1 : input1.sizes.length = 4) (hr2 : input2.sizes.length = 4)
    (hC : input1.size 1 ≤ input2.size 1) (hH : input1.size 2 ≤ input2.size 2)
    (hW : input1.size 3 ≤ input2.size 3) :
    (∀ o, ¬ inSlice input1.sizes m o →
      (correlate_patch_grad_flat input1 input2 m grads g kH kW dilationH dilationW u v
        shiftU shiftV).1 o = grads.1 o) ∧
    (∀ o, ¬ inSlice input2.sizes m o →
      (correlate_patch_grad_flat input1 input2 m grads g kH kW dilationH dilationW u v
        shiftU shiftV).2 o = grads.2 o) := by
  obtain ⟨a0, a1, a2, a3, ha⟩ := list_length_four _ hr1
  obtain ⟨b0, b1, b2, b3, hb⟩ := list_length_four _ hr2
  simp only [FlatTensor.size, ha, hb, List.getD_cons_zero, List.getD_cons_succ] at hC hH hW
  unfold correlate_patch_grad_flat
  simp only [FlatTensor.size, ha, hb, List.getD_cons_zero, List.getD_cons_succ]
  refine forLoop_invariant_range
    (fun s : (Int → R) × (Int → R) =>
      (∀ o, ¬ inSlice [a0, a1, a2, a3] m o → s.1 o = grads.1 o) ∧
        (∀ o, ¬ inSlice [b0, b1, b2, b3] m o → s.2 o = grads.2 o))
    _ _ _ ⟨fun _ _ => rfl, fun _ _ => rfl⟩ fun c s hc hs => ?_
  refine forLoop_invariant
    (fun s : (Int → R) × (Int → R) =>
      (∀ o, ¬ inSlice [a0, a1, a2, a3] m o → s.1 o = grads.1 o) ∧
        (∀ o, ¬ inSlice [b0, b1, b2, b3] m o → s.2 o = grads.2 o))
    _ _ _ hs fun i s hs => ?_
  beta_reduce
  split_ifs with hi
  · refine forLoop_invariant
      (fun s : (Int → R) × (Int → R) =>
        (∀ o, ¬ inSlice [a0, a1, a2, a3] m o → s.1 o = grads.1 o) ∧
          (∀ o, ¬ inSlice [b0, b1, b2, b3] m o → s.2 o = grads.2 o))
      _ _ _ hs fun j s hs => ?_
    beta_reduce
    split_ifs with hj
    · rw [WITHIN_BOUNDS_iff] at hi hj
      have hc0 : (0 : Int) ≤ (c : Int) := Int.natCast_nonneg c
      have hin1 : inSlice [a0, a1, a2, a3] m
          (linearOffset [m, (c : Int), u + i * dilationH, v + j * dilationW] [a0, a1, a2, a3]) :=
        linearOffset_inSlice m a0 _ _ (by
          simp only [indexInRange, Bool.and_eq_true, decide_eq_true_eq, and_true]
          omega)
      have hin2 : inSlice [b0, b1, b2, b3] m
          (linearOffset [m, (c : Int), u + i * dilationH + shiftU, v + j * dilationW + shiftV]
            [b0, b1, b2, b3]) :=
        linearOffset_inSlice m b0 _ _ (by
          simp only [indexInRange, Bool.and_eq_true, decide_eq_true_eq, and_true]
          omega)
      refine ⟨fun o ho => ?_, fun o ho => ?_⟩
      · have hne : o ≠ linearOffset [m, (c : Int), u + i * dilationH, v + j * dilationW]
            [a0, a1, a2, a3] := fun h => ho (h ▸ hin1)
        simp only [if_neg hne]
        exact hs.1 o ho
      · have hne : o ≠ linearOffset
            [m, (c : Int), u + i * dilationH + shiftU, v + j * dilationW + shiftV]
            [b0, b1, b2, b3] := fun h => ho (h ▸ hin2)
        simp only [if_neg hne]
        exact hs.2 o ho
    · exact hs
  · exact hs


/-- One kernel invocation for batch index `n` reads and writes batch element `n`
only, when `input2` has no extent smaller than that of `input1`: run on two sets
of arrays that agree in batch element `n`, it ends with storages that agree in
batch element `n`. -/
theorem correlate_patch_grad_flat_local (input1 input2 input1b input2b : FlatTensor R)
    (n : Int) (grads gradsb : (Int → R) × (Int → R)) (g : R)
    (kH kW dilationH dilationW u v shiftU shiftV : Int)
    (hr1 : input1.sizes.length = 4) (hr2 : input2.sizes.length = 4)
    (hC : input1.size 1 ≤ input2.size 1) (hH : input1.size 2 ≤ input2.size 2)
    (hW : input1.size 3 ≤ input2.size 3)
    (hs1 : input1b.sizes = input1.sizes) (hs2 : input2b.sizes = input2.sizes)
    (hv1 : ∀ o, inSlice input1.sizes n o → input1b.data o = input1.data o)
    (hv2 : ∀ o, inSlice input2.sizes n o → input2b.data o = input2.data o)
    (hg : slicesAgree input1.sizes input2.sizes n grads gradsb) :
    slicesAgree input1.sizes input2.sizes n
      (correlate_patch_grad_flat input1 input2 n grads g kH kW dilationH dilationW u v
        shiftU shiftV)
      (correlate_patch_grad_flat input1b input2b n gradsb g kH kW dilationH dilationW u v
        shiftU shiftV) := by
  obtain ⟨a0, a1, a2, a3, ha⟩ := list_length_four _ hr1
  obtain ⟨b0, b1, b2, b3, hb⟩ := list_length_four _ hr2
  rw [ha] at hs1 hv1 hg
  rw [hb] at hs2 hv2 hg
  simp only [FlatTensor.size, ha, hb, List.getD_cons_zero, List.getD_cons_succ] at hC hH hW
  unfold correlate_patch_grad_flat
  simp only [FlatTensor.size, ha, hb, hs1, hs2, List.getD_cons_zero, List.getD_cons_succ]
  refine forLoop_rel (slicesAgree [a0, a1, a2, a3] [b0, b1, b2, b3] n) _ _ _ _ _ hg
    fun c s t hc hst => ?_
  refine forLoop_rel (slicesAgree [a0, a1, a2, a3] [b0, b1, b2, b3] n) _ _ _ _ _ hst
    fun i s t _ hst => ?_
  beta_reduce
  split_ifs with hi
  · refine forLoop_rel (slicesAgree [a0, a1, a2, a3] [b0, b1, b2, b3] n) _ _ _ _ _ hst
      fun j s t _ hst => ?_
    beta_reduce
    split_ifs with hj
    · rw [WITHIN_BOUNDS_iff] at hi hj
      have hc0 : (0 : Int) ≤ (c : Int) := Int.natCast_nonneg c
      have hin1 : inSlice [a0, a1, a2, a3] n
          (linearOffset [n, (c : Int), u + i * dilationH, v + j * dilationW] [a0, a1, a2, a3]) :=
        linearOffset_inSlice n a0 _ _ (by
          simp only [indexInRange, Bool.and_eq_true, decide_eq_true_eq, and_true]
          omega)
      have hin2 : inSlice [b0, b1, b2, b3] n
          (linearOffset [n, (c : Int), u + i * dilationH + shiftU, v + j * dilationW + shiftV]
            [b0, b1, b2, b3]) :=
        linearOffset_inSlice n b0 _ _ (by
          simp only [indexInRange, Bool.and_eq_true, decide_eq_true_eq, and_true]
          omega)
      refine ⟨fun o ho => ?_, fun o ho => ?_⟩
      · show (if o = _ then _ else _) = (if o = _ then _ else _)
        rw [hst.1 _ hin1, hv2 _ hin2, hst.1 o ho]
      · show (if o = _ then _ else _) = (if o = _ then _ else _)
        rw [hst.2 _ hin2, hv1 _ hin1, hst.2 o ho]
    · exact hst
  · exact hst

/-- The iteration for batch index `m` leaves every element of another batch
element alone. -/
theorem backward_iteration_flat_frame (input1 input2 gradOutput : FlatTensor R)
    (kH kW patchH patchW padH padW dilationH dilationW dilation_patchH dilation_patchW
      dH dW : Int) (m : Int) (grads : (Int → R) × (Int → R))
    (hr1 : input1.sizes.length = 4) (hr2 : input2.sizes.length = 4)
    (hC : input1.size 1 ≤ input2.size 1) (hH : input1.size 2 ≤ input2.size 2)
    (hW : input1.size 3 ≤ input2.size 3) :
    (∀ o, ¬ inSlice input1.sizes m o →
      (backward_iteration_flat correlate_patch_grad_flat input1 input2 gradOutput kH kW
        patchH patchW padH padW dilationH dilationW dilation_patchH dilation_patchW dH dW
        m grads).1 o = grads.1 o) ∧
    (∀ o, ¬ inSlice input2.sizes m o →
      (backward_iteration_flat correlate_patch_grad_flat input1 input2 gradOutput kH kW
        patchH patchW padH padW dilationH dilationW dilation_patchH dilation_patchW dH dW
        m grads).2 o = grads.2 o) := by
  unfold backward_iteration_flat
  simp only []
  refine forLoop_invariant
    (fun s : (Int → R) × (Int → R) =>
      (∀ o, ¬ inSlice input1.sizes m o → s.1 o = grads.1 o) ∧
        (∀ o, ¬ inSlice input2.sizes m o → s.2 o = grads.2 o))
    _ _ _ ⟨fun _ _ => rfl, fun _ _ => rfl⟩ fun ph s hs => ?_
  refine forLoop_invariant
    (fun s : (Int → R) × (Int → R) =>
      (∀ o, ¬ inSlice input1.sizes m o → s.1 o = grads.1 o) ∧
        (∀ o, ¬ inSlice input2.sizes m o → s.2 o = grads.2 o))
    _ _ _ hs fun pw s hs => ?_
  refine forLoop_invariant
    (fun s : (Int → R) × (Int → R) =>
      (∀ o, ¬ inSlice input1.sizes m o → s.1 o = grads.1 o) ∧
        (∀ o, ¬ inSlice input2.sizes m o → s.2 o = grads.2 o))
    _ _ _ hs fun h s hs => ?_
  refine forLoop_invariant
    (fun s : (Int → R) × (Int → R) =>
      (∀ o, ¬ inSlice input1.sizes m o → s.1 o = grads.1 o) ∧
        (∀ o, ¬ inSlice input2.sizes m o → s.2 o = grads.2 o))
    _ _ _ hs fun w s hs => ?_
  have hf := correlate_patch_grad_flat_frame input1 input2 m s
    (gradOutput.data (linearOffset [m, ph, pw, h, w] gradOutput.sizes)) kH kW
    dilationH dilationW (-padH + h * dH) (-padW + w * dW)
    ((ph - Int.tdiv (patchH - 1) 2) * dilation_patchH)
    ((pw - Int.tdiv (patchW - 1) 2) * dilation_patchW) hr1 hr2 hC hH hW
  exact ⟨fun o ho => (hf.1 o ho).trans (hs.1 o ho), fun o ho => (hf.2 o ho).trans (hs.2 o ho)⟩

theorem list_length_five {α : Type} (l : List α) (h : l.length = 5) :
    ∃ a b c d e, l = [a, b, c, d, e] := by
  match l, h with
  | [a, b, c, d, e], _ => exact ⟨a, b, c, d, e, rfl⟩

/-- The iteration for batch index `n` reads and writes batch element `n` only:
run on two sets of arrays that agree in batch element `n`, it ends with
storages that agree in batch element `n`. -/
theorem backward_iteration_flat_local
    (input1 input2 gradOutput input1b input2b gradOutputb : FlatTensor R)
    (kH kW patchH patchW padH padW dilationH dilationW dilation_patchH dilation_patchW
      dH dW : Int) (n : Int) (grads gradsb : (Int → R) × (Int → R))
    (hr1 : input1.sizes.length = 4) (hr2 : input2.sizes.length = 4)
    (hrg : gradOutput.sizes.length = 5)
    (hC : input1.size 1 ≤ input2.size 1) (hH : input1.size 2 ≤ input2.size 2)
    (hW : input1.size 3 ≤ input2.size 3)
    (hP1 : patchH ≤ gradOutput.size 1) (hP2 : patchW ≤ gradOutput.size 2)
    (hs1 : input1b.sizes = input1.sizes) (hs2 : input2b.sizes = input2.sizes)
    (hsg : gradOutputb.sizes = gradOutput.sizes)
    (hv1 : ∀ o, inSlice input1.sizes n o → input1b.data o = input1.data o)
    (hv2 : ∀ o, inSlice input2.sizes n o → input2b.data o = input2.data o)
    (hvg : ∀ o, inSlice gradOutput.sizes n o → gradOutputb.data o = gradOutput.data o)
    (hg : slicesAgree input1.sizes input2.sizes n grads gradsb) :
    slicesAgree input1.sizes input2.sizes n
      (backward_iteration_flat correlate_patch_grad_flat input1 input2 gradOutput kH kW
        patchH patchW padH padW dilationH dilationW dilation_patchH dilation_patchW dH dW
        n grads)
      (backward_iteration_flat correlate_patch_grad_flat input1b input2b gradOutputb kH kW
        patchH patchW padH padW dilationH dilationW dilation_patchH dilation_patchW dH dW
        n gradsb) := by
  obtain ⟨g0, g1, g2, g3, g4, hgs⟩ := list_length_five _ hrg
  unfold backward_iteration_flat
  simp only [FlatTensor.size, hsg]
  refine forLoop_rel (slicesAgree input1.sizes input2.sizes n) _ _ _ _ _ hg
    fun ph s t hph hst => ?_
  refine forLoop_rel (slicesAgree input1.sizes input2.sizes n) _ _ _ _ _ hst
    fun pw s t hpw hst => ?_
  refine forLoop_rel (slicesAgree input1.sizes input2.sizes n) _ _ _ _ _ hst
    fun h s t hh hst => ?_
  refine forLoop_rel (slicesAgree input1.sizes input2.sizes n) _ _ _ _ _ hst
    fun w s t hw hst => ?_
  have hin : inSlice gradOutput.sizes n
      (linearOffset [n, (ph : Int), (pw : Int), (h : Int), (w : Int)] gradOutput.sizes) := by
    simp only [FlatTensor.size, hgs, List.getD_cons_zero, List.getD_cons_succ] at hP1 hP2 hh hw
    rw [hgs]
    refine linearOffset_inSlice n g0 _ _ ?_
    have := Int.natCast_nonneg ph
    have := Int.natCast_nonneg pw
    have := Int.natCast_nonneg h
    have := Int.natCast_nonneg w
    simp only [indexInRange, Bool.and_eq_true, decide_eq_true_eq, and_true]
    omega
  rw [hvg _ hin]
  exact correlate_patch_grad_flat_local input1 input2 input1b input2b n s t _ kH kW
    dilationH dilationW _ _ _ _ hr1 hr2 hC hH hW hs1 hs2 hv1 hv2 hst


end FlatBackward


/-! ## The keyed store against the storage in memory -/

/-- Two multi-indices inside a volume with the same offset are the same. -/
theorem linearOffset_injective (idx idx2 sizes : List Int)
    (h : indexInRange idx sizes = true) (h2 : indexInRange idx2 sizes = true)
    (heq : linearOffset idx sizes = linearOffset idx2 sizes) : idx = idx2 := by
  induction idx generalizing idx2 sizes with
  | nil =>
    cases sizes with
    | nil =>
      cases idx2 with
      | nil => rfl
      | cons j idx2 => simp [indexInRange] at h2
    | cons s rest => simp [indexInRange] at h
  | cons i idx ih =>
    cases sizes with
    | nil => simp [indexInRange] at h
    | cons s rest =>
      cases idx2 with
      | nil => simp [indexInRange] at h2
      | cons j idx2 =>
        simp only [indexInRange, Bool.and_eq_true, decide_eq_true_eq] at h h2
        obtain ⟨⟨hi0, his⟩, hrest⟩ := h
        obtain ⟨⟨hj0, hjs⟩, hrest2⟩ := h2
        obtain ⟨a0, alt⟩ := linearOffset_lt idx rest hrest
        obtain ⟨b0, blt⟩ := linearOffset_lt idx2 rest hrest2
        simp only [linearOffset, List.tail_cons] at heq
        have hij : i = j := by
          rcases lt_trichotomy i j with hlt | heq2 | hgt
          · exfalso
            have : (i + 1) * rest.prod ≤ j * rest.prod :=
              mul_le_mul_of_nonneg_right (by omega) (by omega)
            nlinarith
          · exact heq2
          · exfalso
            have : (j + 1) * rest.prod ≤ i * rest.prod :=
              mul_le_mul_of_nonneg_right (by omega) (by omega)
            nlinarith
        subst hij
        rw [ih idx2 rest hrest hrest2 (by linarith)]

/-- A multi-index inside a volume has one index per axis. -/
theorem indexInRange_length (idx sizes : List Int) (h : indexInRange idx sizes = true) :
    idx.length = sizes.length := by
  induction idx generalizing sizes with
  | nil =>
    cases sizes with
    | nil => rfl
    | cons s rest => simp [indexInRange] at h
  | cons i idx ih =>
    cases sizes with
    | nil => simp [indexInRange] at h
    | cons s rest =>
      simp only [indexInRange, Bool.and_eq_true] at h
      simp only [List.length_cons, ih rest h.2]

/-- A multi-index inside a volume of four axes has four indices, each inside its
extent. -/
theorem indexInRange_four (idx : List Int) (a0 a1 a2 a3 : Int)
    (h : indexInRange idx [a0, a1, a2, a3] = true) :
    ∃ x0 x1 x2 x3, idx = [x0, x1, x2, x3] ∧ (0 ≤ x0 ∧ x0 < a0) ∧ (0 ≤ x1 ∧ x1 < a1) ∧
      (0 ≤ x2 ∧ x2 < a2) ∧ (0 ≤ x3 ∧ x3 < a3) := by
  obtain ⟨x0, x1, x2, x3, rfl⟩ := list_length_four idx (indexInRange_length _ _ h)
  simp only [indexInRange, Bool.and_eq_true, decide_eq_true_eq, and_true] at h
  exact ⟨x0, x1, x2, x3, rfl, by omega, by omega, by omega, by omega⟩

section FlatAgainstKeyed

variable {R : Type} [CommRing R]

/-- One kernel invocation on the storage in memory and on the keyed store, from
gradients that agree: the gradients agree afterwards, when the batch index is
inside the batch and `input2` has no extent smaller than that of `input1`. -/
theorem correlate_patch_grad_flat_agrees (input1 input2 : FlatTensor R) (m : Nat)
    (f : (Int → R) × (Int → R)) (k : Tensor R × Tensor R) (g : R)
    (kH kW dilationH dilationW u v shiftU shiftV : Int)
    (hr1 : input1.sizes.length = 4) (hr2 : input2.sizes.length = 4)
    (hB : input1.size 0 ≤ input2.size 0)
    (hC : input1.size 1 ≤ input2.size 1) (hH : input1.size 2 ≤ input2.size 2)
    (hW : input1.size 3 ≤ input2.size 3)
    (hm : (m : Int) < input1.size 0)
    (hrel : storesAgree input1.sizes input2.sizes f k) :
    storesAgree input1.sizes input2.sizes
      (correlate_patch_grad_flat input1 input2 m f g kH kW dilationH dilationW u v
        shiftU shiftV)
      ((k.1.setSub m (correlate_patch_grad (input1.toTensor.sub m) (k.1.sub m)
          (input2.toTensor.sub m) (k.2.sub m) g kH kW dilationH dilationW u v
          shiftU shiftV).1),
        (k.2.setSub m (correlate_patch_grad (input1.toTensor.sub m) (k.1.sub m)
          (input2.toTensor.sub m) (k.2.sub m) g kH kW dilationH dilationW u v
          shiftU shiftV).2)) := by
  obtain ⟨a0, a1, a2, a3, ha⟩ := list_length_four _ hr1
  obtain ⟨b0, b1, b2, b3, hb⟩ := list_length_four _ hr2
  simp only [FlatTensor.size, ha, hb, List.getD_cons_zero, List.getD_cons_succ] at hB hC hH hW hm
  rw [ha, hb] at hrel ⊢
  have hm0 : (0 : Int) ≤ (m : Int) := Int.natCast_nonneg m
  unfold correlate_patch_grad_flat correlate_patch_grad
  simp only [FlatTensor.size, Tensor.size, Tensor.sub, FlatTensor.toTensor, ha, hb,
    List.tail_cons, List.getD_cons_zero, List.getD_cons_succ]
  have hinit : storesAgree [a0, a1, a2, a3] [b0, b1, b2, b3] f
      (k.1.setSub m { sizes := k.1.sizes.tail, val := fun idx => k.1.val ((m : Int) :: idx) },
        k.2.setSub m { sizes := k.2.sizes.tail, val := fun idx => k.2.val ((m : Int) :: idx) }) := by
    refine ⟨fun idx hidx => ?_, fun idx hidx => ?_⟩
    · obtain ⟨x0, x1, x2, x3, rfl, _⟩ := indexInRange_four idx _ _ _ _ hidx
      rw [hrel.1 _ hidx]
      show _ = if x0 = (m : Int) then _ else _
      split_ifs with hx
      · rw [hx]
      · rfl
    · obtain ⟨x0, x1, x2, x3, rfl, _⟩ := indexInRange_four idx _ _ _ _ hidx
      rw [hrel.2 _ hidx]
      show _ = if x0 = (m : Int) then _ else _
      split_ifs with hx
      · rw [hx]
      · rfl
  refine forLoop_rel
    (fun (s : (Int → R) × (Int → R)) (r : Tensor R × Tensor R) =>
      storesAgree [a0, a1, a2, a3] [b0, b1, b2, b3] s (k.1.setSub m r.1, k.2.setSub m r.2))
    _ _ _ _ _ hinit fun c s r hc hsr => ?_
  refine forLoop_rel
    (fun (s : (Int → R) × (Int → R)) (r : Tensor R × Tensor R) =>
      storesAgree [a0, a1, a2, a3] [b0, b1, b2, b3] s (k.1.setSub m r.1, k.2.setSub m r.2))
    _ _ _ _ _ hsr fun i s r _ hsr => ?_
  beta_reduce
  split_ifs with hi
  · refine forLoop_rel
      (fun (s : (Int → R) × (Int → R)) (r : Tensor R × Tensor R) =>
        storesAgree [a0, a1, a2, a3] [b0, b1, b2, b3] s (k.1.setSub m r.1, k.2.setSub m r.2))
      _ _ _ _ _ hsr fun j s r _ hsr => ?_
    beta_reduce
    split_ifs with hj
    · rw [WITHIN_BOUNDS_iff] at hi hj
      have hc0 : (0 : Int) ≤ (c : Int) := Int.natCast_nonneg c
      have hp1 : indexInRange [(m : Int), (c : Int), u + i * dilationH, v + j * dilationW]
          [a0, a1, a2, a3] = true := by
        simp only [indexInRange, Bool.and_eq_true, decide_eq_true_eq, and_true]
        omega
      have hp2 : indexInRange
          [(m : Int), (c : Int), u + i * dilationH + shiftU, v + j * dilationW + shiftV]
          [b0, b1, b2, b3] = true := by
        simp only [indexInRange, Bool.and_eq_true, decide_eq_true_eq, and_true]
        omega
      have e1 := hsr.1 _ hp1
      have e2 := hsr.2 _ hp2
      refine ⟨fun idx hidx => ?_, fun idx hidx => ?_⟩
      · have e := hsr.1 idx hidx
        obtain ⟨x0, x1, x2, x3, rfl, _⟩ := indexInRange_four idx _ _ _ _ hidx
        by_cases hx : [x0, x1, x2, x3] =
            [(m : Int), (c : Int), u + i * dilationH, v + j * dilationW]
        · rw [hx]
          simp only [Tensor.setSub, Tensor.set, if_true] at e1 ⊢
          rw [e1]
        · have hoff : linearOffset [x0, x1, x2, x3] [a0, a1, a2, a3] ≠
              linearOffset [(m : Int), (c : Int), u + i * dilationH, v + j * dilationW]
                [a0, a1, a2, a3] :=
            fun h => hx (linearOffset_injective _ _ _ hidx hp1 h)
          simp only [Tensor.setSub, Tensor.set] at e ⊢
          rw [if_neg hoff, e]
          by_cases hx0 : x0 = (m : Int)
          · have hrest : ¬ [x1, x2, x3] = [(c : Int), u + i * dilationH, v + j * dilationW] := by
              intro h
              apply hx
              rw [hx0, h]
            simp only [hx0, if_true, if_neg hrest]
          · simp only [if_neg hx0]
      · have e := hsr.2 idx hidx
        obtain ⟨x0, x1, x2, x3, rfl, _⟩ := indexInRange_four idx _ _ _ _ hidx
        by_cases hx : [x0, x1, x2, x3] =
            [(m : Int), (c : Int), u + i * dilationH + shiftU, v + j * dilationW + shiftV]
        · rw [hx]
          simp only [Tensor.setSub, Tensor.set, if_true] at e2 ⊢
          rw [e2]
        · have hoff : linearOffset [x0, x1, x2, x3] [b0, b1, b2, b3] ≠
              linearOffset
                [(m : Int), (c : Int), u + i * dilationH + shiftU, v + j * dilationW + shiftV]
                [b0, b1, b2, b3] :=
            fun h => hx (linearOffset_injective _ _ _ hidx hp2 h)
          simp only [Tensor.setSub, Tensor.set] at e ⊢
          rw [if_neg hoff, e]
          by_cases hx0 : x0 = (m : Int)
          · have hrest : ¬ [x1, x2, x3] =
                [(c : Int), u + i * dilationH + shiftU, v + j * dilationW + shiftV] := by
              intro h
              apply hx
              rw [hx0, h]
            simp only [hx0, if_true, if_neg hrest]
          · simp only [if_neg hx0]
    · exact hsr
  · exact hsr


/-- The backward pass on the storage in memory and its loop nest over the keyed
store return the same gradients, element by element, for inputs of four axes
such that `input2` has no extent smaller than that of `input1`: there every
index of the loop nest is inside its extent. -/
theorem backward_flat_agrees (input1 input2 gradOutput : FlatTensor R)
    (kH kW patchH patchW padH padW dilationH dilationW dilation_patchH dilation_patchW
      dH dW : Int)
    (hr1 : input1.sizes.length = 4) (hr2 : input2.sizes.length = 4)
    (hB : input1.size 0 ≤ input2.size 0)
    (hC : input1.size 1 ≤ input2.size 1) (hH : input1.size 2 ≤ input2.size 2)
    (hW : input1.size 3 ≤ input2.size 3) :
    storesAgree input1.sizes input2.sizes
      (correlation_cpp_backward_flat correlate_patch_grad_flat input1 input2 gradOutput
        kH kW patchH patchW padH padW dilationH dilationW dilation_patchH dilation_patchW
        dH dW)
      (correlation_cpp_backward correlate_patch_grad input1.toTensor input2.toTensor
        gradOutput.toTensor kH kW patchH patchW padH padW dilationH dilationW
        dilation_patchH dilation_patchW dH dW) := by
  unfold correlation_cpp_backward_flat backward_iteration_flat correlation_cpp_backward
  simp only []
  refine forLoop_rel (storesAgree input1.sizes input2.sizes) _ _ _ _ _
    ⟨fun _ _ => rfl, fun _ _ => rfl⟩ fun m s t hm hst => ?_
  refine forLoop_rel (storesAgree input1.sizes input2.sizes) _ _ _ _ _ hst
    fun ph s t _ hst => ?_
  refine forLoop_rel (storesAgree input1.sizes input2.sizes) _ _ _ _ _ hst
    fun pw s t _ hst => ?_
  refine forLoop_rel (storesAgree input1.sizes input2.sizes) _ _ _ _ _ hst
    fun h s t _ hst => ?_
  refine forLoop_rel (storesAgree input1.sizes input2.sizes) _ _ _ _ _ hst
    fun w s t _ hst => ?_
  exact correlate_patch_grad_flat_agrees input1 input2 m s t _ kH kW dilationH dilationW
    _ _ _ _ hr1 hr2 hB hC hH hW hm hst

end FlatAgainstKeyed

end Correlation
